import Mathlib

/-!
# SU2 single-zone driver and Inria (GMF) output

A shallow embedding of `SU2_CFD/src/drivers/CSinglezoneDriver.cpp` and of the
writers and connectivity getters of `SU2_CFD/src/output_inria.cpp`, followed by
theorems about them.

Conventions of the embedding.

* `unsigned long` quantities (iteration counters, point counts, offsets) are natural
  numbers.  Sums of them (`InnerIter+1`, `TimeIter+1`, `iPoint + offset`, `myPoint++`)
  are not reduced modulo `2^64`: they count iterations performed and points held in
  memory.  The one subtraction, `TimeIter-1` in `Output`, is modelled with its
  wrap-around at zero, and the guard in front of it is part of the model.
* `unsigned short` arithmetic wraps modulo `65536`.  A loop whose `unsigned short`
  counter is compared with an `int` or `unsigned long` bound carries fuel and returns
  `none` when it does not end; the loop over the ranks in the gather is one of them, and
  it ends exactly when there are at most 65535 ranks.
* `su2double` values only take part through comparisons and copies; they are rational
  numbers here (every finite floating point value is one, and comparison is exact).
* `a % b` with `b = 0` is undefined in C++; expressions containing it evaluate to
  `none` when such a term is actually reached.
* The solver, the configuration reader and the file library are collaborators; what
  they return is a parameter of the model.  The run-time option file is taken to be
  absent, so the configuration does not change during a run.
* The gather is described for all processes at once: the state holds the counter
  `myPoint` of every process and the lines written, each with the process that wrote it.
  A writer (`SetInriaRestart`, `WriteInriaOutputs`, `SetInriaMesh`) is described on one
  process `rank`: every process opens the file, writes the headers and closes the file,
  and writes its own rows in its pass of the loop over the ranks.
* A store beyond the end of the local arrays `VarTyp` and `bufDbl`, whose length is the
  constant `GmfMaxTyp` of the file library, ends the run of a writer with the outcome
  `overrun`.
-/

namespace SU2

/-! ## Driver: data -/

/-- Modelled from the spec: the time-marching schemes of the configuration; the
enumeration is declared in a header that is not among the sources.  The driver
compares against `TIME_STEPPING`, `DT_STEPPING_1ST` and `DT_STEPPING_2ND`. -/
inductive ENUM_TIME_MARCHING
  | STEADY
  | TIME_STEPPING
  | DT_STEPPING_1ST
  | DT_STEPPING_2ND
  | ROTATIONAL_FRAME
  | HARMONIC_BALANCE
  deriving DecidableEq, Repr

/-- Modelled from the spec: file formats handed to the writers; `other` stands for
the visualisation formats selected by the configuration. -/
inductive ENUM_OUTPUT
  | SU2_RESTART_ASCII
  | SU2_RESTART_BINARY
  | CSV
  | other (code : Nat)
  deriving DecidableEq, Repr

/-- The read accessors of `config_container[ZONE_0]` used by the driver. -/
structure CConfig where
  Time_Domain : Bool
  nTime_Iter : Nat
  nInner_Iter : Nat
  InnerIter : Nat
  Max_Time : ℚ
  Time_Marching : ENUM_TIME_MARCHING
  Wrt_Sol_Freq_DualTime : Nat
  Wrt_InletFile : Bool
  Wrt_Output : Bool
  Wrt_Binary_Restart : Bool
  Wrt_Vol_Sol : Bool
  Wrt_Srf_Sol : Bool
  Wrt_Csv_Sol : Bool
  Output_FileFormat : ENUM_OUTPUT
  Restart : Bool
  Restart_Iter : Nat
  deriving DecidableEq

/-- What the driver reads from and writes to `output_container[ZONE_0]`:
the convergence flag and the history field `"CUR_TIME"`. -/
structure COutput where
  Convergence : Bool
  CUR_TIME : ℚ
  deriving DecidableEq

/-- Calls made by `Output` on the output container, in program order. -/
inductive WriterCall
  | Load_Data (iInst : Nat)
  | SetVolume_Output (iInst : Nat) (format : ENUM_OUTPUT)
  | SetSurface_Output (iInst : Nat) (format : ENUM_OUTPUT)
  | DeallocateData_Parallel (iInst : Nat)
  deriving DecidableEq, Repr

/-- Steps of `StartSolver`, in program order. -/
inductive Action
  | Preprocess (TimeIter : Nat)
  | Run
  | Postprocess
  | Update
  | Monitor (TimeIter : Nat) (stop : Bool)
  | Output (TimeIter : Nat)
  | Increment
  deriving DecidableEq, Repr

/-- State of the driver: the members `TimeIter`, `StopCalc`, `OutputCount`, `nInst[ZONE_0]`,
the two containers, and two logs (steps taken, writer calls made). -/
structure CSinglezoneDriver where
  config : CConfig
  output : COutput
  TimeIter : Nat
  StopCalc : Bool
  OutputCount : Nat
  nInst : Nat
  trace : List Action
  calls : List WriterCall
  deriving DecidableEq

/-- What one call of `Solve` leaves behind for `Monitor` to read. -/
structure SolveResult where
  InnerIter : Nat
  Convergence : Bool
  CUR_TIME : ℚ

/-! ## Driver: `Monitor` -/

/-- `CSinglezoneDriver::Monitor`.  `TimeDomain == NO` and `TimeDomain == YES` compare a
`bool` with the constants 0 and 1. -/
def Monitor (d : CSinglezoneDriver) (TimeIter : Nat) : CSinglezoneDriver × Bool :=
  let nInnerIter := d.config.nInner_Iter
  let InnerIter := d.config.InnerIter
  let nTimeIter := d.config.nTime_Iter
  let MaxTime := d.config.Max_Time
  let CurTime := d.output.CUR_TIME
  let TimeDomain := d.config.Time_Domain
  let d1 : CSinglezoneDriver :=
    if TimeDomain = false then
      let InnerConvergence := d.output.Convergence
      let MaxIterationsReached := decide (nInnerIter ≤ InnerIter + 1)
      { d with StopCalc := MaxIterationsReached || InnerConvergence }
    else d
  let d2 : CSinglezoneDriver :=
    if TimeDomain = true then
      let FinalTimeReached := decide (MaxTime ≤ CurTime)
      let MaxIterationsReached := decide (nTimeIter ≤ TimeIter + 1)
      { d1 with StopCalc := FinalTimeReached || MaxIterationsReached }
    else d1
  let d3 : CSinglezoneDriver := { d2 with output := { d2.output with Convergence := false } }
  (d3, d3.StopCalc)

/-! ## Driver: `Output` -/

/-- Value of a C++ boolean expression, together with the values of `TimeIter` at which the
subterm `TimeIter-1` was computed while evaluating it; `none` when a modulo by zero is
reached. -/
abbrev Ev := Option (Bool × List Nat)

/-- A flag or a comparison without side conditions. -/
def Ev.const (b : Bool) : Ev := some (b, [])

/-- `a || b`: the right operand is evaluated only when the left one is false. -/
def Ev.or (a b : Ev) : Ev :=
  match a with
  | none => none
  | some (true, l) => some (true, l)
  | some (false, l) =>
    match b with
    | none => none
    | some (v, r) => some (v, l ++ r)

/-- `a && b`: the right operand is evaluated only when the left one is true. -/
def Ev.and (a b : Ev) : Ev :=
  match a with
  | none => none
  | some (false, l) => some (false, l)
  | some (true, l) =>
    match b with
    | none => none
    | some (v, r) => some (v, l ++ r)

/-- `TimeIter % f == 0`. -/
def modIsZero (TimeIter f : Nat) : Ev :=
  if f = 0 then none else some (decide (TimeIter % f = 0), [])

/-- `TimeIter-1` on `unsigned long`: at zero the difference wraps to `2^64 - 1`. -/
def prevIter (TimeIter : Nat) : Nat :=
  if TimeIter = 0 then 2 ^ 64 - 1 else TimeIter - 1

/-- `(TimeIter-1) % f == 0`; the evaluation is recorded. -/
def prevModIsZero (TimeIter f : Nat) : Ev :=
  if f = 0 then none else some (decide (prevIter TimeIter % f = 0), [TimeIter])

/-- The condition of lines 203-229 of `CSinglezoneDriver::Output`, which sets
`output_files`; the six operands of the outer `||` chain in source order. -/
def output_files (config : CConfig) (StopCalc : Bool) (TimeIter : Nat) : Ev :=
  let f := config.Wrt_Sol_Freq_DualTime
  let tm := config.Time_Marching
  Ev.or (Ev.or (Ev.or (Ev.or (Ev.or
    (Ev.const StopCalc)
    (Ev.and
      (Ev.or (Ev.const (decide (tm = ENUM_TIME_MARCHING.DT_STEPPING_1ST)))
             (Ev.const (decide (tm = ENUM_TIME_MARCHING.TIME_STEPPING))))
      (Ev.or (Ev.const (decide (TimeIter = 0))) (modIsZero TimeIter f))))
    (Ev.and
      (Ev.const (decide (tm = ENUM_TIME_MARCHING.DT_STEPPING_2ND)))
      (Ev.or (Ev.const (decide (TimeIter = 0)))
             (Ev.or (modIsZero TimeIter f) (prevModIsZero TimeIter f)))))
    (Ev.and
      (Ev.const (decide (tm = ENUM_TIME_MARCHING.DT_STEPPING_2ND)))
      (Ev.or (Ev.const (decide (TimeIter = 0))) (modIsZero TimeIter f))))
    (Ev.and
      (Ev.const config.Time_Domain)
      (Ev.or (Ev.const (decide (TimeIter = 0))) (modIsZero TimeIter f))))
    (Ev.const config.Wrt_InletFile)

/-- The body of the loop over `iInst` in `Output`. -/
def writeInstance (config : CConfig) (iInst : Nat) : List WriterCall :=
  let RestartFormat :=
    if config.Wrt_Binary_Restart then ENUM_OUTPUT.SU2_RESTART_BINARY
    else ENUM_OUTPUT.SU2_RESTART_ASCII
  let OutputFormat := config.Output_FileFormat
  [WriterCall.Load_Data iInst, WriterCall.SetVolume_Output iInst RestartFormat]
    ++ (if config.Wrt_Vol_Sol then [WriterCall.SetVolume_Output iInst OutputFormat] else [])
    ++ (if config.Wrt_Srf_Sol then [WriterCall.SetSurface_Output iInst OutputFormat] else [])
    ++ (if config.Wrt_Csv_Sol then [WriterCall.SetSurface_Output iInst ENUM_OUTPUT.CSV] else [])
    ++ [WriterCall.DeallocateData_Parallel iInst]

/-- `CSinglezoneDriver::Output`; the wall-clock bookkeeping is left out.  The counter
`iInst` and its bound `nInst[ZONE_0]` are both `unsigned short`, so the loop visits
`0 .. nInst-1`.  `none`: the condition reached a modulo by zero. -/
def Output (d : CSinglezoneDriver) (TimeIter : Nat) : Option CSinglezoneDriver :=
  match output_files d.config d.StopCalc TimeIter with
  | none => none
  | some (output_files, _) =>
    if output_files && d.config.Wrt_Output then
      some { d with
        calls := d.calls ++ (List.range d.nInst).flatMap (writeInstance d.config)
        OutputCount := d.OutputCount + 1 }
    else some d

/-! ## Driver: `StartSolver` -/

/-- Ways in which the model of a loop can fail to return. -/
inductive Fault
  | undefinedModulo
  | outOfFuel
  deriving DecidableEq, Repr

/-- One pass through the body of the `while` loop of `StartSolver`, up to and including
`Output(TimeIter)`.  `solve` gives what `Run` leaves behind at each time iteration. -/
def cycle (solve : Nat → SolveResult) (d : CSinglezoneDriver) : Option CSinglezoneDriver :=
  let t := d.TimeIter
  let d : CSinglezoneDriver := { d with trace := d.trace ++ [Action.Preprocess t] }
  let r := solve t
  let d : CSinglezoneDriver :=
    { d with
      config := { d.config with InnerIter := r.InnerIter }
      output := { Convergence := r.Convergence, CUR_TIME := r.CUR_TIME }
      trace := d.trace ++ [Action.Run] }
  let d : CSinglezoneDriver := { d with trace := d.trace ++ [Action.Postprocess] }
  let d : CSinglezoneDriver := { d with trace := d.trace ++ [Action.Update] }
  let m := Monitor d t
  let d : CSinglezoneDriver := { m.1 with trace := m.1.trace ++ [Action.Monitor t m.2] }
  match Output d t with
  | none => none
  | some d => some { d with trace := d.trace ++ [Action.Output t] }

/-- The `while ( TimeIter < nTime_Iter )` loop of `StartSolver`; one unit of fuel per
evaluation of the loop condition.  At `TimeIter++` the counter is below `nTime_Iter`. -/
def StartSolver_loop (solve : Nat → SolveResult) :
    Nat → CSinglezoneDriver → Except Fault CSinglezoneDriver
  | 0, _ => Except.error Fault.outOfFuel
  | fuel + 1, d =>
    if d.TimeIter < d.config.nTime_Iter then
      match cycle solve d with
      | none => Except.error Fault.undefinedModulo
      | some d =>
        if d.StopCalc then Except.ok d
        else StartSolver_loop solve fuel
          { d with TimeIter := d.TimeIter + 1, trace := d.trace ++ [Action.Increment] }
    else Except.ok d

/-- The iteration at which `StartSolver` enters its loop. -/
def startIter (d : CSinglezoneDriver) : Nat :=
  if d.config.Restart && d.config.Time_Domain then d.config.Restart_Iter else d.TimeIter

/-- `CSinglezoneDriver::StartSolver`.  The loop condition is evaluated at most
`nTime_Iter - TimeIter + 1` times. -/
def StartSolver (solve : Nat → SolveResult) (d : CSinglezoneDriver) :
    Except Fault CSinglezoneDriver :=
  let d : CSinglezoneDriver := { d with TimeIter := startIter d }
  StartSolver_loop solve (d.config.nTime_Iter - d.TimeIter + 1) d

/-! ### Vocabulary for the statements about the driver -/

/-- The stop decision of `Monitor` at time iteration `t`, from what `Solve` left behind. -/
def stopDecision (config : CConfig) (r : SolveResult) (t : Nat) : Bool :=
  if config.Time_Domain then
    decide (config.Max_Time ≤ r.CUR_TIME) || decide (config.nTime_Iter ≤ t + 1)
  else
    decide (config.nInner_Iter ≤ r.InnerIter + 1) || r.Convergence

/-- The steps of one cycle at time iteration `t` whose `Monitor` call returned `stop`. -/
def cycleActions (t : Nat) (stop : Bool) : List Action :=
  [Action.Preprocess t, Action.Run, Action.Postprocess, Action.Update,
   Action.Monitor t stop, Action.Output t]

/-- The steps of `m` cycles that do not stop, each followed by the increment, and of one
cycle that stops, from time iteration `t` on. -/
def cyclesFrom : Nat → Nat → List Action
  | t, 0 => cycleActions t true
  | t, m + 1 => cycleActions t false ++ [Action.Increment] ++ cyclesFrom (t + 1) m

/-- The loop was left through `break`: the last steps were a `Monitor` call that returned
`true` and the `Output` call of the same cycle, and the counter still has the value it
had at that `Monitor` call. -/
def EndsByStop (d final : CSinglezoneDriver) : Prop :=
  ∃ pre k, final.trace = d.trace ++ pre ++ [Action.Monitor k true, Action.Output k] ∧
    final.TimeIter = k ∧ final.StopCalc = true

/-- The loop was left through its condition `TimeIter < nTime_Iter`: either no cycle was
executed and the state is the one at loop entry, or the last `Monitor` call returned
`false` and the counter was incremented after it. -/
def EndsByGuard (entry final : CSinglezoneDriver) : Prop :=
  (final = entry ∧ entry.config.nTime_Iter ≤ entry.TimeIter) ∨
  (final.config.nTime_Iter ≤ final.TimeIter ∧
    ∃ pre k, final.trace
        = entry.trace ++ pre ++ [Action.Monitor k false, Action.Output k, Action.Increment] ∧
      final.TimeIter = k + 1)

/-- Number of cycles in a list of steps: its `Monitor` calls. -/
def cycleCount (trace : List Action) : Nat :=
  (trace.filter (fun a => match a with
    | Action.Monitor _ _ => true
    | _ => false)).length

/-- The write block of `Output` was entered between `d` and `d'`: the output count went up
by one and every instance had its writer calls, the restart write among them. -/
def PerformsWrite (d d' : CSinglezoneDriver) : Prop :=
  d'.OutputCount = d.OutputCount + 1 ∧
  d'.calls = d.calls ++ (List.range d.nInst).flatMap (writeInstance d.config) ∧
  ∀ iInst, iInst < d.nInst →
    WriterCall.SetVolume_Output iInst
      (if d.config.Wrt_Binary_Restart then ENUM_OUTPUT.SU2_RESTART_BINARY
       else ENUM_OUTPUT.SU2_RESTART_ASCII) ∈ d'.calls

/-- A configuration for the examples: steady, not in the time domain, write frequency 5,
writing enabled, restart in ASCII only. -/
def exampleConfig : CConfig :=
  { Time_Domain := false, nTime_Iter := 1, nInner_Iter := 10, InnerIter := 0, Max_Time := 1,
    Time_Marching := ENUM_TIME_MARCHING.STEADY, Wrt_Sol_Freq_DualTime := 5,
    Wrt_InletFile := false, Wrt_Output := true, Wrt_Binary_Restart := false,
    Wrt_Vol_Sol := false, Wrt_Srf_Sol := false, Wrt_Csv_Sol := false,
    Output_FileFormat := ENUM_OUTPUT.other 0, Restart := false, Restart_Iter := 0 }

/-- A driver as the constructor leaves it, with one instance. -/
def exampleDriver (config : CConfig) : CSinglezoneDriver :=
  { config := config, output := { Convergence := false, CUR_TIME := 0 }, TimeIter := 0,
    StopCalc := false, OutputCount := 0, nInst := 1, trace := [], calls := [] }

/-- A solver that never converges within its inner iterations and advances the time by
`3/10` per step. -/
def exampleSolve (t : Nat) : SolveResult :=
  { InnerIter := 0, Convergence := false, CUR_TIME := ((t : ℚ) + 1) * (3 / 10) }

/-- The state in which `cycle` calls `Monitor`: after `Preprocess`, `Run`, `Postprocess`
and `Update`. -/
def beforeMonitor (solve : Nat → SolveResult) (d : CSinglezoneDriver) : CSinglezoneDriver :=
  { d with
    config := { d.config with InnerIter := (solve d.TimeIter).InnerIter }
    output := { Convergence := (solve d.TimeIter).Convergence,
                CUR_TIME := (solve d.TimeIter).CUR_TIME }
    trace := d.trace ++ [Action.Preprocess d.TimeIter] ++ [Action.Run]
      ++ [Action.Postprocess] ++ [Action.Update] }

/-- The state in which `cycle` calls `Output`: what `Monitor` left, with the `Monitor` call
and the value it returned added to the log of steps. -/
def beforeOutput (solve : Nat → SolveResult) (d : CSinglezoneDriver) : CSinglezoneDriver :=
  { (Monitor (beforeMonitor solve d) d.TimeIter).1 with
    trace := (Monitor (beforeMonitor solve d) d.TimeIter).1.trace
      ++ [Action.Monitor d.TimeIter (Monitor (beforeMonitor solve d) d.TimeIter).2] }

/-! ## Driver: `Preprocess` -/

/-- Modelled from the spec: the solver kinds of the configuration; the enumeration is
declared in a header that is not among the sources.  `Preprocess` compares against the six
flow kinds; the other constructors are kinds named in `output_inria.cpp`. -/
inductive ENUM_SOLVER
  | EULER
  | NAVIER_STOKES
  | RANS
  | INC_EULER
  | INC_NAVIER_STOKES
  | INC_RANS
  | ADJ_EULER
  | ADJ_NAVIER_STOKES
  | ADJ_RANS
  | HEAT_EQUATION_FVM
  | FEM_ELASTICITY
  | other (code : Nat)
  deriving DecidableEq, Repr

/-- The read accessors of `config_container[ZONE_0]` used by `Preprocess` beside
`GetTime_Marching`. -/
structure PreprocessOptions where
  Kind_Solver : ENUM_SOLVER
  Predictor : Bool
  Grid_Movement : Bool
  Delta_UnstTimeND : ℚ
  deriving DecidableEq

/-- Calls made by `Preprocess` on its collaborators, in program order. -/
inductive PreprocessCall
  | Runtime_Options
  | SetTimeIter (TimeIter : Nat)
  | SetPhysicalTime (time : ℚ)
  | SetInitialCondition (TimeIter : Nat)
  | Barrier
  | Predictor
  | SetGrid_Movement (TimeIter : Nat)
  deriving DecidableEq

/-- The solver kinds for which `Preprocess` sets the initial condition. -/
def isFlowKind (k : ENUM_SOLVER) : Bool :=
  decide (k = ENUM_SOLVER.EULER) || decide (k = ENUM_SOLVER.NAVIER_STOKES)
    || decide (k = ENUM_SOLVER.RANS) || decide (k = ENUM_SOLVER.INC_EULER)
    || decide (k = ENUM_SOLVER.INC_NAVIER_STOKES) || decide (k = ENUM_SOLVER.INC_RANS)

/-- `CSinglezoneDriver::Preprocess` with `DynamicMeshUpdate`: the calls it makes.
`GetTime_Marching()` is used as a condition, so it holds for every scheme but `STEADY`;
the barrier is there in the build with `HAVE_MPI`. -/
def Preprocess (HAVE_MPI : Bool) (config : CConfig) (opts : PreprocessOptions)
    (TimeIter : Nat) : List PreprocessCall :=
  [PreprocessCall.Runtime_Options, PreprocessCall.SetTimeIter TimeIter]
    ++ (if config.Time_Marching ≠ ENUM_TIME_MARCHING.STEADY then
          [PreprocessCall.SetPhysicalTime ((TimeIter : ℚ) * opts.Delta_UnstTimeND)]
        else [PreprocessCall.SetPhysicalTime 0])
    ++ (if isFlowKind opts.Kind_Solver then [PreprocessCall.SetInitialCondition TimeIter]
        else [])
    ++ (if HAVE_MPI then [PreprocessCall.Barrier] else [])
    ++ (if opts.Predictor then [PreprocessCall.Predictor] else [])
    ++ (if opts.Grid_Movement then [PreprocessCall.SetGrid_Movement TimeIter] else [])

/-- Options for the examples: an Euler solver without predictor and without grid
movement. -/
def exampleOptions : PreprocessOptions :=
  { Kind_Solver := ENUM_SOLVER.EULER, Predictor := false, Grid_Movement := false,
    Delta_UnstTimeND := 3 / 10 }

/-! ## Inria output: the rank-ordered point gather

Every rank runs the same loop over `iProcessor`; rank `r` writes during the pass
`iProcessor = r`, and the `Allreduce` at the end of each pass gives every rank the sum
of all counters `myPoint`.  The model follows the passes in order and keeps the counter
of every rank.  It is the build with `HAVE_MPI`; without it there is one rank and
`offset` is not read again after its pass. -/

/-- One `GmfSetLin` call of a point block: the line written, and with it the rank that
wrote it, the local index of the point and the value of `Global_Index`. -/
structure Emitted (β : Type) where
  rank : Nat
  iPoint : Nat
  Global_Index : Nat
  line : β
  deriving DecidableEq, Repr

/-- The loop `for (iPoint = 0; iPoint < nParallel_Poin; iPoint++)` of the rank whose
turn it is, over its local points from `iPoint` on; the pair is `(myPoint, file)`. -/
def pointLoop {α β : Type} (nPoint_Restart offset rank : Nat) (line : α → β) :
    Nat → List α → Nat × List (Emitted β) → Nat × List (Emitted β)
  | _, [], st => st
  | iPoint, p :: rest, (myPoint, file) =>
    let Global_Index := iPoint + offset
    if Global_Index < nPoint_Restart then
      pointLoop nPoint_Restart offset rank line (iPoint + 1) rest
        (myPoint + 1, file ++ [⟨rank, iPoint, Global_Index, line p⟩])
    else
      pointLoop nPoint_Restart offset rank line (iPoint + 1) rest (myPoint, file)

/-- State of the gather between two passes: the counter `myPoint` of every rank, the
value of `offset` (the same on every rank), the lines in the file, and the values
`offset` had at the start of the passes made so far. -/
structure GatherState (β : Type) where
  myPoint : List Nat
  offset : Nat
  file : List (Emitted β)
  used : List Nat
  deriving DecidableEq, Repr

/-- One pass of the loop over `iProcessor`: the rank `iProcessor` runs its point loop,
then `Allreduce(&myPoint, &offset, 1, MPI_UNSIGNED_LONG, MPI_SUM)`. -/
def rankTurn {α β : Type} (nPoint_Restart : Nat) (line : α → β) (Local : List (List α))
    (iProcessor : Nat) (st : GatherState β) : GatherState β :=
  let r := pointLoop nPoint_Restart st.offset iProcessor line 0 (Local.getD iProcessor [])
    (st.myPoint.getD iProcessor 0, st.file)
  let myPoint := st.myPoint.set iProcessor r.1
  { myPoint := myPoint, offset := myPoint.sum, file := r.2, used := st.used ++ [st.offset] }

/-- A loop `for (unsigned short i = ...; i < bound; i++)` whose bound is wider than the
counter: the counter wraps from 65535 to 0.  One unit of fuel per evaluation of the loop
condition; `none` when the fuel does not suffice. -/
def ushortLoop {σ : Type} (bound : Nat) (body : Nat → σ → σ) : Nat → Nat → σ → Option σ
  | 0, _, _ => none
  | fuel + 1, i, st =>
    if i < bound then ushortLoop bound body fuel ((i + 1) % 65536) (body i st)
    else some st

/-- The gather of lines 86-118 (and of its four copies): `myPoint = 0; offset = 0;` and the
loop over `iProcessor < size`.  `Local` holds the local points of every rank in local
order, so `size = Local.length` and `nParallel_Poin` of rank `r` is the length of its
entry.  The loop condition is evaluated `size + 1` times when the loop ends. -/
def pointGather {α β : Type} (nPoint_Restart : Nat) (line : α → β) (Local : List (List α)) :
    Option (GatherState β) :=
  let size := Local.length
  ushortLoop size (rankTurn nPoint_Restart line Local) (size + 1) 0
    { myPoint := List.replicate size 0, offset := 0, file := [], used := [] }

/-- The variables of one point: `Parallel_Data[iVar][iPoint]` as a function of `iVar`. -/
abbrev PointData := Nat → ℚ

/-- The indices into `TagBc` declared at the head of the file. -/
inductive BCVAR
  | bcMach
  | bcTemp
  | bcPres
  | bcDens
  | bcGoal
  deriving DecidableEq, Repr

/-- `unsigned short nVar_Buf = nVar_Par-nDim`: the difference of two `unsigned short`
values, stored in an `unsigned short`. -/
def nVar_Buf (nDim nVar_Par : Nat) : Nat := (nVar_Par + 65536 - nDim) % 65536

/-- Line of `current.solb`: `bufDbl[iVar] = Parallel_Data[iVar+nDim][iPoint]` for
`iVar < nVar_Buf`. -/
def restartLine (nDim nVar_Par : Nat) (p : PointData) : List ℚ :=
  (List.range (nVar_Buf nDim nVar_Par)).map (fun iVar => p (iVar + nDim))

/-- Line of `current.mach.solb` and of `current.pres.solb`: one value, column `iVar`. -/
def scalarLine (iVar : Nat) (p : PointData) : List ℚ := [p iVar]

/-- Line of `current_sensor.solb`: `nMetr` values from column `TagBc[bcGoal]` on. -/
def metricLine (nDim iVar : Nat) (p : PointData) : List ℚ :=
  let nMetr := if nDim = 2 then 3 else 6
  (List.range nMetr).map (fun iMetr => p (iVar + iMetr))

/-- Arguments of `GmfSetLin(OutMsh, GmfVertices, ...)`: `bufDbl[0], bufDbl[1], 0` when
`nDim == 2`, and `bufDbl[0], bufDbl[1], bufDbl[2], 0` otherwise, where `bufDbl[iDim]` is
`Parallel_Data[iDim][iPoint]` (`nDim` is 2 or 3). -/
def vertexLine (nDim : Nat) (p : PointData) : List ℚ :=
  if nDim = 2 then [p 0, p 1, 0] else [p 0, p 1, p 2, 0]

/-- Point block of `SetInriaRestart` (lines 86-118), reached once the file is open and
its header written. -/
def SetInriaRestart_gather (nDim nVar_Par nPoint_Restart : Nat) (Local : List (List PointData)) :
    Option (GatherState (List ℚ)) :=
  pointGather nPoint_Restart (restartLine nDim nVar_Par) Local

/-- Point block of `WriteInriaOutputs` for the Mach number (lines 267-297), reached when
`GetWrt_Aniso_Sensor()` holds, once the file is open and its header written. -/
def WriteInriaOutputs_Mach (TagBc : BCVAR → Nat) (nPoint_Restart : Nat)
    (Local : List (List PointData)) : Option (GatherState (List ℚ)) :=
  pointGather nPoint_Restart (scalarLine (TagBc BCVAR.bcMach)) Local

/-- Point block of `WriteInriaOutputs` for the pressure (lines 325-355), reached under the
same conditions as the block for the Mach number. -/
def WriteInriaOutputs_Pres (TagBc : BCVAR → Nat) (nPoint_Restart : Nat)
    (Local : List (List PointData)) : Option (GatherState (List ℚ)) :=
  pointGather nPoint_Restart (scalarLine (TagBc BCVAR.bcPres)) Local

/-- Point block of `WriteInriaOutputs` for the sensor (lines 397-428), reached when
`GetError_Estimate()` holds or the executable is `SU2_MET`, once the file is open and its
header written. -/
def WriteInriaOutputs_Metr (TagBc : BCVAR → Nat) (nDim nPoint_Restart : Nat)
    (Local : List (List PointData)) : Option (GatherState (List ℚ)) :=
  pointGather nPoint_Restart (metricLine nDim (TagBc BCVAR.bcGoal)) Local

/-- Vertices block of `SetInriaMesh` (lines 489-525), reached once the file is open. -/
def SetInriaMesh_Vertices (nDim nPoint_Restart : Nat) (Local : List (List PointData)) :
    Option (GatherState (List ℚ)) :=
  pointGather nPoint_Restart (vertexLine nDim) Local

/-! ### Vocabulary for the statements about the gather -/

/-- The `(rank, local index)` pairs of the lines in the file, in file order. -/
def emittedPairs {β : Type} (st : GatherState β) : List (Nat × Nat) :=
  st.file.map (fun e => (e.rank, e.iPoint))

/-- Number of lines in the file that were written by rank `r`. -/
def emittedBy {β : Type} (st : GatherState β) (r : Nat) : Nat :=
  (st.file.filter (fun e => decide (e.rank = r))).length

/-- Number of local points held by the ranks before rank `r`. -/
def pointsBefore {α : Type} (Local : List (List α)) : Nat → Nat
  | 0 => 0
  | r + 1 => pointsBefore Local r + (Local.getD r []).length

/-- The local points of one rank as lines, numbered from `start`. -/
def blockFrom {α β : Type} (line : α → β) (rank start : Nat) : Nat → List α → List (Emitted β)
  | _, [] => []
  | iPoint, p :: rest =>
    ⟨rank, iPoint, iPoint + start, line p⟩ :: blockFrom line rank start (iPoint + 1) rest

/-- All local points of the ranks before rank `r`, rank after rank, each with its
position in that order as global index. -/
def allUpTo {α β : Type} (line : α → β) (Local : List (List α)) : Nat → List (Emitted β)
  | 0 => []
  | r + 1 =>
    allUpTo line Local r ++ blockFrom line r (pointsBefore Local r) 0 (Local.getD r [])

/-- The threshold test alone decides which points are in the file: the point `i` of rank `r`
is there exactly when `offset + i < nPoint_Restart`, with the value `offset` had at the
start of the pass of rank `r`. -/
def ThresholdOnly {α β : Type} (nPoint_Restart : Nat) (Local : List (List α))
    (st : GatherState β) : Prop :=
  ∀ r i, (r, i) ∈ emittedPairs st ↔
    r < Local.length ∧ i < (Local.getD r []).length ∧ st.used.getD r 0 + i < nPoint_Restart

/-- On every rank the genuine domain points come first and the halo points after them. -/
def HalosLastOnEachRank {α : Type} (halo : α → Bool) (Local : List (List α)) : Prop :=
  ∀ pts ∈ Local, ∃ dom hal, pts = dom ++ hal ∧
    (∀ p ∈ dom, halo p = false) ∧ (∀ p ∈ hal, halo p = true)

/-- In rank order (rank 0 first, local order within a rank) all genuine domain points come
before all halo points. -/
def HalosLastInRankOrder {α : Type} (halo : α → Bool) (Local : List (List α)) : Prop :=
  ∃ dom hal, Local.flatten = dom ++ hal ∧
    (∀ p ∈ dom, halo p = false) ∧ (∀ p ∈ hal, halo p = true)

/-- Number of genuine domain points over all ranks. -/
def domainCount {α : Type} (halo : α → Bool) (Local : List (List α)) : Nat :=
  (Local.flatten.filter (fun p => !halo p)).length

/-- Every genuine domain point is in the file exactly once and no halo point is in it. -/
def EmitsExactlyDomain {α β : Type} (halo : α → Bool) (Local : List (List α))
    (st : GatherState β) : Prop :=
  ∀ r i p, (Local.getD r [])[i]? = some p →
    (halo p = false →
      ((emittedPairs st).filter (fun x => decide (x = (r, i)))).length = 1) ∧
    (halo p = true → (r, i) ∉ emittedPairs st)

/-- The passes `body i`, `body (i+1)`, ... of a loop, `n` of them. -/
def iterFrom {σ : Type} (body : Nat → σ → σ) : Nat → Nat → σ → σ
  | _, 0, st => st
  | i, n + 1, st => iterFrom body (i + 1) n (body i st)

/-- What holds between the passes of the gather, before the pass of rank `r`. -/
structure GatherInv {α β : Type} (R : Nat) (line : α → β) (Local : List (List α)) (r : Nat)
    (st : GatherState β) : Prop where
  length_myPoint : st.myPoint.length = Local.length
  later_zero : ∀ q, r ≤ q → st.myPoint.getD q 0 = 0
  earlier : ∀ q, q < r →
    st.myPoint.getD q 0 = min (Local.getD q []).length (R - min (pointsBefore Local q) R)
  sum_myPoint : st.myPoint.sum = st.offset
  offset_eq : st.offset = min (pointsBefore Local r) R
  file_eq : st.file = (allUpTo line Local r).take R
  used_eq : st.used = (List.range r).map (fun q => min (pointsBefore Local q) R)
  count_eq : ∀ q, (st.file.filter (fun e => decide (e.rank = q))).length = st.myPoint.getD q 0

/-! ## Inria output: geometry, connectivity and the file library -/

/-- Modelled from the spec: the element types returned by `GetVTK_Type`; the enumeration
is declared in a header that is not among the sources. -/
inductive GEO_TYPE
  | VERTEX
  | LINE
  | TRIANGLE
  | QUADRILATERAL
  | TETRAHEDRON
  | HEXAHEDRON
  | PRISM
  | PYRAMID
  deriving DecidableEq, Repr

/-- A boundary element `geometry->bound[iMarker][iElem]`: its type and its nodes (local
point indices), as many as the type has. -/
structure CPrimalGrid where
  VTK_Type : GEO_TYPE
  Nodes : List Nat
  deriving DecidableEq, Repr

/-- `bnd->GetNode(i)`. -/
def CPrimalGrid.GetNode (bnd : CPrimalGrid) (i : Nat) : Nat := bnd.Nodes.getD i 0

/-- What the writers read of `geometry->node[iPoint]`. -/
structure CPoint where
  Boundary : Bool
  Domain : Bool
  GlobalIndex : Nat
  deriving DecidableEq, Repr

/-- What the writers read of the geometry: dimension, number of local points, the points,
and the boundary elements of every marker. -/
structure CGeometry where
  nDim : Nat
  nPoint : Nat
  node : Nat → CPoint
  bound : List (List CPrimalGrid)

/-- `config->GetnMarker_All()`: the number of markers of the geometry.  The writers hold
it in an `unsigned short`, as they do the counter `iMarker`, so the loop over the markers
makes one pass per marker. -/
def CGeometry.nMarker (geometry : CGeometry) : Nat := geometry.bound.length

/-- `geometry->GetnElem_Bound(iMarker)`. -/
def CGeometry.GetnElem_Bound (geometry : CGeometry) (iMarker : Nat) : Nat :=
  (geometry.bound.getD iMarker []).length

/-- `geometry->bound[iMarker][iElem]`, for indices within the loops. -/
def CGeometry.elem (geometry : CGeometry) (iMarker iElem : Nat) : CPrimalGrid :=
  (geometry.bound.getD iMarker []).getD iElem { VTK_Type := GEO_TYPE.VERTEX, Nodes := [] }

/-- The sorted volume connectivity held by the output class: element counts and the
arrays `Conn_*_Par`. -/
structure ParallelConn where
  nParallel_Tria : Nat
  Conn_Tria_Par : Nat → Nat
  nParallel_Quad : Nat
  Conn_Quad_Par : Nat → Nat
  nParallel_Tetr : Nat
  Conn_Tetr_Par : Nat → Nat
  nParallel_Hexa : Nat
  Conn_Hexa_Par : Nat → Nat
  nParallel_Pris : Nat
  Conn_Pris_Par : Nat → Nat
  nParallel_Pyra : Nat
  Conn_Pyra_Par : Nat → Nat

/-- Keywords of the mesh and solution files. -/
inductive GmfKwd
  | GmfVertices
  | GmfEdges
  | GmfTriangles
  | GmfQuadrilaterals
  | GmfTetrahedra
  | GmfHexahedra
  | GmfPrisms
  | GmfPyramids
  | GmfSolAtVertices
  deriving DecidableEq, Repr

/-- Field types of a solution file. -/
inductive GmfTyp
  | GmfSca
  | GmfSymMat
  deriving DecidableEq, Repr

/-- Messages printed by the writers. -/
inductive Message
  | unableToOpen
  | unableToWrite
  | cannotClose
  | cannotOpenMesh
  | inconsistentNumber (kwd : GmfKwd)
  | noGmfSupport
  deriving DecidableEq, Repr

/-- What a writer does, in program order: calls of the file library and messages. -/
inductive GmfCall
  | GmfOpenMesh (name : String)
  | GmfSetKwd (name : String) (kwd : GmfKwd) (count : Nat)
  | GmfSetKwdSol (name : String) (count : Nat) (VarTyp : List GmfTyp)
  | GmfSetLinReal (name : String) (kwd : GmfKwd) (values : List ℚ)
  | GmfSetLin (name : String) (kwd : GmfKwd) (values : List Nat)
  | GmfCloseMesh (name : String)
  | print (m : Message)
  deriving DecidableEq

/-- How a writer ends on one process: it returns to its caller, it calls
`exit(EXIT_FAILURE)`, or it stores beyond the end of one of its local arrays `VarTyp` and
`bufDbl`, from where on the behaviour of the program is undefined. -/
inductive Outcome
  | returned
  | exited
  | overrun
  deriving DecidableEq, Repr

/-- The calls of a writer and how it ended. -/
abbrev Run := List GmfCall × Outcome

/-- The file library as one process sees it: the constant `GmfMaxTyp` of its header, which
is the length of the local arrays `VarTyp` and `bufDbl` of the solution writers, and
whether `GmfOpenMesh`, `GmfSetKwd` and `GmfCloseMesh` succeed (return a non-zero value) for
a file. -/
structure GmfLib where
  GmfMaxTyp : Nat
  openOk : String → Bool
  setKwdOk : String → GmfKwd → Bool
  closeOk : String → Bool

/-- Two parts of a writer one after the other: the second part runs when the first one
has returned. -/
def Run.andThen (a b : Run) : Run :=
  match a.2 with
  | Outcome.exited => a
  | Outcome.overrun => a
  | Outcome.returned => (a.1 ++ b.1, b.2)

/-- The same for parts that contain a loop over the ranks, which may not end. -/
def seqRun (a b : Option Run) : Option Run :=
  match a with
  | none => none
  | some (calls, Outcome.exited) => some (calls, Outcome.exited)
  | some (calls, Outcome.overrun) => some (calls, Outcome.overrun)
  | some (calls, Outcome.returned) =>
    match b with
    | none => none
    | some (more, o) => some (calls ++ more, o)

/-! ## Inria output: the rows of one process -/

/-- The lines the process `rank` writes in a point block.  Every process runs the loop
over `iProcessor`; the process `rank` runs its point loop in the pass `iProcessor == rank`,
with the offset that the `Allreduce` calls of the earlier passes left, which is the offset
of the state of all processes before that pass.  The pass takes place when `rank < size`
and `rank` is a value of the `unsigned short` counter. -/
def rankRows {α β : Type} (nPoint_Restart : Nat) (line : α → β) (Local : List (List α))
    (rank : Nat) : List β :=
  if rank < Local.length ∧ rank < 65536 then
    let st := iterFrom (rankTurn nPoint_Restart line Local) 0 rank
      { myPoint := List.replicate Local.length 0, offset := 0, file := [], used := [] }
    (pointLoop nPoint_Restart st.offset rank line 0 (Local.getD rank []) (0, [])).2.map
      (fun e => e.line)
  else []

/-- Number of rows among the calls of a run: the calls of `GmfSetLin` with values. -/
def rowsWritten (calls : List GmfCall) : Nat :=
  (calls.filter (fun c => match c with
    | GmfCall.GmfSetLinReal _ _ _ => true
    | _ => false)).length

/-- The point counts declared by the solution headers among the calls of a run. -/
def declaredCounts (calls : List GmfCall) : List Nat :=
  calls.filterMap (fun c => match c with
    | GmfCall.GmfSetKwdSol _ count _ => some count
    | _ => none)

/-- Number of rows written by a process whose run is `run`; 0 when the run does not end. -/
def rowsWrittenBy (run : Option Run) : Nat :=
  match run with
  | none => 0
  | some r => rowsWritten r.1

/-! ## Inria output: the solution writers -/

/-- One solution file as the process `rank` writes it in `SetInriaRestart` and
`WriteInriaOutputs`.  The calls that open the file, write its header and close it are
outside the test `rank == iProcessor`, so every process makes them; the rows are those of
the process alone.  In program order: open, check; the stores to `VarTyp`, `VarTyp.length`
of them from index 0 on, which overrun the array when there are more than `GmfMaxTyp`;
header, check; the loop over the ranks, in which the first row overruns `bufDbl` when its
`width` values are more than `GmfMaxTyp`, and which does not end when `ends` is false;
close, check.  Every failed check prints a message and calls `exit(EXIT_FAILURE)`. -/
def solFile (lib : GmfLib) (OutNam : String) (npoin : Nat) (VarTyp : List GmfTyp)
    (width : Nat) (ends : Bool) (rows : List (List ℚ)) : Option Run :=
  if lib.openOk OutNam = false then
    some ([GmfCall.GmfOpenMesh OutNam, GmfCall.print Message.unableToOpen], Outcome.exited)
  else if lib.GmfMaxTyp < VarTyp.length then
    some ([GmfCall.GmfOpenMesh OutNam], Outcome.overrun)
  else if lib.setKwdOk OutNam GmfKwd.GmfSolAtVertices = false then
    some ([GmfCall.GmfOpenMesh OutNam, GmfCall.GmfSetKwdSol OutNam npoin VarTyp,
      GmfCall.print Message.unableToWrite], Outcome.exited)
  else if rows ≠ [] ∧ lib.GmfMaxTyp < width then
    some ([GmfCall.GmfOpenMesh OutNam, GmfCall.GmfSetKwdSol OutNam npoin VarTyp],
      Outcome.overrun)
  else if ends = false then none
  else
    let calls := [GmfCall.GmfOpenMesh OutNam, GmfCall.GmfSetKwdSol OutNam npoin VarTyp]
      ++ rows.map (fun l => GmfCall.GmfSetLinReal OutNam GmfKwd.GmfSolAtVertices l)
      ++ [GmfCall.GmfCloseMesh OutNam]
    if lib.closeOk OutNam = false then
      some (calls ++ [GmfCall.print Message.cannotClose], Outcome.exited)
    else some (calls, Outcome.returned)

/-- `COutput::SetInriaRestart` on the process `rank`, the other processes taking part in
the `Allreduce` calls.  `npoin` is `geometry->GetGlobal_nPointDomain()`.  The loop
`for (iVar = 0; iVar < nVar_Buf; iVar++) VarTyp[iVar] = GmfSca;` stores `nVar_Buf` entries
in `VarTyp[GmfMaxTyp]`, and a row stores `nVar_Buf` values in `bufDbl[GmfMaxTyp]`, without
a test.  Without `HAVE_INRIA` the body is the message alone. -/
def SetInriaRestart (HAVE_INRIA : Bool) (lib : GmfLib) (nDim nVar_Par npoin nPoint_Restart : Nat)
    (Local : List (List PointData)) (rank : Nat) : Option Run :=
  if HAVE_INRIA then
    solFile lib "current.solb" npoin (List.replicate (nVar_Buf nDim nVar_Par) GmfTyp.GmfSca)
      (nVar_Buf nDim nVar_Par)
      (SetInriaRestart_gather nDim nVar_Par nPoint_Restart Local).isSome
      (rankRows nPoint_Restart (restartLine nDim nVar_Par) Local rank)
  else some ([GmfCall.print Message.noGmfSupport], Outcome.returned)

/-- `COutput::WriteInriaOutputs` on the process `rank`, from the store `VarTyp[0] = GmfSca`
on.  The positions in `TagBc` are computed before and are a parameter here; `estimate`
stands for `config->GetError_Estimate() || config->GetKind_SU2() == SU2_MET`.  A row of
the Mach and pressure files stores one value in `bufDbl`, a row of the sensor file `nMetr`
values (3 in two dimensions, 6 otherwise). -/
def WriteInriaOutputs (HAVE_INRIA : Bool) (lib : GmfLib) (Wrt_Aniso_Sensor estimate : Bool)
    (TagBc : BCVAR → Nat) (nDim npoin nPoint_Restart : Nat) (Local : List (List PointData))
    (rank : Nat) : Option Run :=
  if HAVE_INRIA then
    if lib.GmfMaxTyp < 1 then some ([], Outcome.overrun)
    else
      seqRun
        (if Wrt_Aniso_Sensor then
          seqRun
            (solFile lib "current.mach.solb" npoin [GmfTyp.GmfSca] 1
              (WriteInriaOutputs_Mach TagBc nPoint_Restart Local).isSome
              (rankRows nPoint_Restart (scalarLine (TagBc BCVAR.bcMach)) Local rank))
            (solFile lib "current.pres.solb" npoin [GmfTyp.GmfSca] 1
              (WriteInriaOutputs_Pres TagBc nPoint_Restart Local).isSome
              (rankRows nPoint_Restart (scalarLine (TagBc BCVAR.bcPres)) Local rank))
        else some ([], Outcome.returned))
        (if estimate then
          solFile lib "current_sensor.solb" npoin [GmfTyp.GmfSymMat]
            (if nDim = 2 then 3 else 6)
            (WriteInriaOutputs_Metr TagBc nDim nPoint_Restart Local).isSome
            (rankRows nPoint_Restart (metricLine nDim (TagBc BCVAR.bcGoal)) Local rank)
        else some ([], Outcome.returned))
  else some ([GmfCall.print Message.noGmfSupport], Outcome.returned)

/-! ## Inria output: the mesh writer -/

/-- The records of one volume block: `nNodes` entries of the connectivity array per
element and the tag `1`. -/
def volumeLines (kwd : GmfKwd) (Conn : Nat → Nat) (nNodes nElem : Nat) : List GmfCall :=
  (List.range nElem).map (fun iElem =>
    GmfCall.GmfSetLin "current.meshb" kwd
      ((List.range nNodes).map (fun k => Conn (iElem * nNodes + k)) ++ [1]))

/-- A volume block that is written when it has elements. -/
def volumeBlock (kwd : GmfKwd) (Conn : Nat → Nat) (nNodes nElem : Nat) : List GmfCall :=
  if 0 < nElem then
    [GmfCall.GmfSetKwd "current.meshb" kwd nElem] ++ volumeLines kwd Conn nNodes nElem
  else []

/-- Lines 531-591 of `SetInriaMesh`: triangles and quadrilaterals in two dimensions, then
tetrahedra, hexahedra, prisms and pyramids. -/
def volumeBlocks (nDim : Nat) (conn : ParallelConn) : List GmfCall :=
  (if nDim = 2 then
    [GmfCall.GmfSetKwd "current.meshb" GmfKwd.GmfTriangles conn.nParallel_Tria]
      ++ volumeLines GmfKwd.GmfTriangles conn.Conn_Tria_Par 3 conn.nParallel_Tria
      ++ volumeBlock GmfKwd.GmfQuadrilaterals conn.Conn_Quad_Par 4 conn.nParallel_Quad
  else [])
  ++ volumeBlock GmfKwd.GmfTetrahedra conn.Conn_Tetr_Par 4 conn.nParallel_Tetr
  ++ volumeBlock GmfKwd.GmfHexahedra conn.Conn_Hexa_Par 8 conn.nParallel_Hexa
  ++ volumeBlock GmfKwd.GmfPrisms conn.Conn_Pris_Par 6 conn.nParallel_Pris
  ++ volumeBlock GmfKwd.GmfPyramids conn.Conn_Pyra_Par 5 conn.nParallel_Pyra

/-- Lines 598-605: the populated part of `PointSurface`, the local indices of the points
flagged as boundary; its length is `nPointSurface`. -/
def PointSurface (geometry : CGeometry) : List Nat :=
  (List.range geometry.nPoint).foldl
    (fun tab iPoint => if (geometry.node iPoint).Boundary then tab ++ [iPoint] else tab) []

/-- `PointSurface[k]`: a populated entry for `k < nPointSurface`; beyond that the array
holds what `new unsigned long[...]` left there, `fresh k`. -/
def PointSurface_at (geometry : CGeometry) (fresh : Nat → Nat) (k : Nat) : Nat :=
  (PointSurface geometry).getD k (fresh k)

/-- The counters `nLin`, `nTri`, `nQua`. -/
structure BoundCount where
  nLin : Nat
  nTri : Nat
  nQua : Nat
  deriving DecidableEq, Repr

/-- The `switch` of lines 614-618. -/
def countStep (bnd : CPrimalGrid) (c : BoundCount) : BoundCount :=
  match bnd.VTK_Type with
  | GEO_TYPE.LINE => { c with nLin := c.nLin + 1 }
  | GEO_TYPE.TRIANGLE => { c with nTri := c.nTri + 1 }
  | GEO_TYPE.QUADRILATERAL => { c with nQua := c.nQua + 1 }
  | _ => c

/-- The loops over `iMarker < nMarker` and `iElem < GetnElem_Bound(iMarker)` of
`SetInriaMesh`, with the body `step iMarker bnd`. -/
def boundLoops {σ : Type} (geometry : CGeometry) (step : Nat → CPrimalGrid → σ → σ)
    (init : σ) : σ :=
  iterFrom
    (fun iMarker st =>
      iterFrom (fun iElem st => step iMarker (geometry.elem iMarker iElem) st)
        0 (geometry.GetnElem_Bound iMarker) st)
    0 geometry.nMarker init

/-- Lines 609-620: the count of the boundary elements by type. -/
def countBound (geometry : CGeometry) : BoundCount :=
  boundLoops geometry (fun _ bnd c => countStep bnd c) { nLin := 0, nTri := 0, nQua := 0 }

/-- The body of the loops of one boundary block: an element of another type is skipped,
an element of the type is counted in `cptElem` and written with the tag `iMarker+2`. -/
def boundStep (kwd : GmfKwd) (type : GEO_TYPE) (record : CPrimalGrid → List Nat)
    (iMarker : Nat) (bnd : CPrimalGrid) (st : Nat × List GmfCall) : Nat × List GmfCall :=
  if bnd.VTK_Type ≠ type then st
  else (st.1 + 1, st.2 ++ [GmfCall.GmfSetLin "current.meshb" kwd (record bnd ++ [iMarker + 2])])

/-- One boundary block (edges, triangles or quadrilaterals): when the count `nPre` of
the type is positive, the header with `nPre`, the records, and the check of `cptElem`
against `nPre`, which prints a message and exits when they differ. -/
def boundBlock (kwd : GmfKwd) (type : GEO_TYPE) (record : CPrimalGrid → List Nat)
    (geometry : CGeometry) (nPre : Nat) : Run :=
  if 0 < nPre then
    let r := boundLoops geometry (boundStep kwd type record) (0, [])
    let calls := [GmfCall.GmfSetKwd "current.meshb" kwd nPre] ++ r.2
    if r.1 ≠ nPre then
      (calls ++ [GmfCall.print (Message.inconsistentNumber kwd)], Outcome.exited)
    else (calls, Outcome.returned)
  else ([], Outcome.returned)

/-- Vertex entries of an edge record: `bnd->GetNode(0)+1, bnd->GetNode(1)+1`. -/
def edgeRecord (bnd : CPrimalGrid) : List Nat := [bnd.GetNode 0 + 1, bnd.GetNode 1 + 1]

/-- Vertex entries of a boundary triangle record. -/
def triangleRecord (bnd : CPrimalGrid) : List Nat :=
  [bnd.GetNode 0 + 1, bnd.GetNode 1 + 1, bnd.GetNode 2 + 1]

/-- Vertex entries of a boundary quadrilateral record:
`PointSurface[bnd->GetNode(0)]+1, ..., PointSurface[bnd->GetNode(3)]+1`. -/
def quadRecord (geometry : CGeometry) (fresh : Nat → Nat) (bnd : CPrimalGrid) : List Nat :=
  [PointSurface_at geometry fresh (bnd.GetNode 0) + 1,
   PointSurface_at geometry fresh (bnd.GetNode 1) + 1,
   PointSurface_at geometry fresh (bnd.GetNode 2) + 1,
   PointSurface_at geometry fresh (bnd.GetNode 3) + 1]

/-- Lines 623-651: the block of the boundary edges. -/
def edgesBlock (geometry : CGeometry) : Run :=
  boundBlock GmfKwd.GmfEdges GEO_TYPE.LINE edgeRecord geometry (countBound geometry).nLin

/-- Lines 653-681: the block of the boundary triangles. -/
def trianglesBlock (geometry : CGeometry) : Run :=
  boundBlock GmfKwd.GmfTriangles GEO_TYPE.TRIANGLE triangleRecord geometry
    (countBound geometry).nTri

/-- Lines 683-711: the block of the boundary quadrilaterals. -/
def quadsBlock (geometry : CGeometry) (fresh : Nat → Nat) : Run :=
  boundBlock GmfKwd.GmfQuadrilaterals GEO_TYPE.QUADRILATERAL (quadRecord geometry fresh)
    geometry (countBound geometry).nQua

/-- `COutput::SetInriaMesh` on the process `rank`, the other processes taking part in the
`Allreduce` calls; `geometry` and `conn` are those of the process.  Every process opens
the file, writes the headers, its own vertex rows, its volume and boundary blocks, and
closes the file.  When the file cannot be opened the function prints a message and
returns; the values returned by `GmfSetKwd` and `GmfCloseMesh` are not looked at.  Without
`HAVE_INRIA` the body is the message alone. -/
def SetInriaMesh (HAVE_INRIA : Bool) (lib : GmfLib) (geometry : CGeometry)
    (conn : ParallelConn) (fresh : Nat → Nat) (nPoint_Restart : Nat)
    (Local : List (List PointData)) (rank : Nat) : Option Run :=
  if HAVE_INRIA then
    if lib.openOk "current.meshb" = false then
      some ([GmfCall.GmfOpenMesh "current.meshb", GmfCall.print Message.cannotOpenMesh],
        Outcome.returned)
    else
      match SetInriaMesh_Vertices geometry.nDim nPoint_Restart Local with
      | none => none
      | some _ =>
        some
          (Run.andThen
            ([GmfCall.GmfOpenMesh "current.meshb",
              GmfCall.GmfSetKwd "current.meshb" GmfKwd.GmfVertices nPoint_Restart]
              ++ (rankRows nPoint_Restart (vertexLine geometry.nDim) Local rank).map
                (fun l => GmfCall.GmfSetLinReal "current.meshb" GmfKwd.GmfVertices l)
              ++ volumeBlocks geometry.nDim conn, Outcome.returned)
            (Run.andThen (edgesBlock geometry)
              (Run.andThen (trianglesBlock geometry)
                (Run.andThen (quadsBlock geometry fresh)
                  ([GmfCall.GmfCloseMesh "current.meshb"], Outcome.returned)))))
  else some ([GmfCall.print Message.noGmfSupport], Outcome.returned)

/-! ## Inria output: the connectivity getters -/

/-- A loop whose body may not end: the passes `body i`, `body (i+1)`, ..., `n` of them. -/
def optIter {σ : Type} (body : Nat → σ → Option σ) : Nat → Nat → σ → Option σ
  | _, 0, st => some st
  | i, n + 1, st =>
    match body i st with
    | none => none
    | some st => optIter body (i + 1) n st

/-- The body of the loops of `GetConnEdg`. -/
def GetConnEdg_body (geometry : CGeometry) (iMarker iElem : Nat) (Edg : List (List Nat)) :
    List (List Nat) :=
  let bnd := geometry.elem iMarker iElem
  if (geometry.node (bnd.GetNode 0)).Domain then
    match bnd.VTK_Type with
    | GEO_TYPE.LINE =>
      let idx0 := (geometry.node (bnd.GetNode 0)).GlobalIndex + 1
      let idx1 := (geometry.node (bnd.GetNode 1)).GlobalIndex + 1
      let ref := iMarker + 2
      Edg ++ [[idx0, idx1, ref]]
    | _ => Edg
  else Edg

/-- `COutput::GetConnEdg`.  The counter `iElem` is an `unsigned short` compared with the
`unsigned long` number of elements of the marker. -/
def GetConnEdg (geometry : CGeometry) : Option (List (List Nat)) :=
  optIter
    (fun iMarker Edg =>
      ushortLoop (geometry.GetnElem_Bound iMarker) (GetConnEdg_body geometry iMarker)
        (geometry.GetnElem_Bound iMarker + 1) 0 Edg)
    0 geometry.nMarker []

/-- The body of the loops of the branch of `GetConnTri` for three dimensions. -/
def GetConnTri_body (geometry : CGeometry) (iMarker iElem : Nat) (Tri : List (List Nat)) :
    List (List Nat) :=
  let bnd := geometry.elem iMarker iElem
  if (geometry.node (bnd.GetNode 0)).Domain then
    match bnd.VTK_Type with
    | GEO_TYPE.TRIANGLE =>
      let idx0 := (geometry.node (bnd.GetNode 0)).GlobalIndex + 1
      let idx1 := (geometry.node (bnd.GetNode 1)).GlobalIndex + 1
      let idx2 := (geometry.node (bnd.GetNode 2)).GlobalIndex + 1
      let ref := iMarker + 2
      Tri ++ [[idx0, idx1, idx2, ref]]
    | _ => Tri
  else Tri

/-- The body of the loop of the branch of `GetConnTri` for two dimensions. -/
def GetConnTri_body2D (conn : ParallelConn) (iElem : Nat) (Tri : List (List Nat)) :
    List (List Nat) :=
  Tri ++ [[conn.Conn_Tria_Par (iElem * 3 + 0), conn.Conn_Tria_Par (iElem * 3 + 1),
    conn.Conn_Tria_Par (iElem * 3 + 2), 0]]

/-- `COutput::GetConnTri`.  In both branches the counter `iElem` is an `unsigned short`
compared with an `unsigned long` bound. -/
def GetConnTri (geometry : CGeometry) (conn : ParallelConn) : Option (List (List Nat)) :=
  if geometry.nDim = 2 then
    ushortLoop conn.nParallel_Tria (GetConnTri_body2D conn) (conn.nParallel_Tria + 1) 0 []
  else
    optIter
      (fun iMarker Tri =>
        ushortLoop (geometry.GetnElem_Bound iMarker) (GetConnTri_body geometry iMarker)
          (geometry.GetnElem_Bound iMarker + 1) 0 Tri)
      0 geometry.nMarker []

/-- The body of the loop of `GetConnTet`. -/
def GetConnTet_body (conn : ParallelConn) (iElem : Nat) (Tet : List (List Nat)) :
    List (List Nat) :=
  Tet ++ [[conn.Conn_Tetr_Par (iElem * 4 + 0), conn.Conn_Tetr_Par (iElem * 4 + 1),
    conn.Conn_Tetr_Par (iElem * 4 + 2), conn.Conn_Tetr_Par (iElem * 4 + 3), 0]]

/-- `COutput::GetConnTet`.  The counter `iElem` is an `unsigned short` compared with the
`unsigned long` `nParallel_Tetr`. -/
def GetConnTet (conn : ParallelConn) : Option (List (List Nat)) :=
  ushortLoop conn.nParallel_Tetr (GetConnTet_body conn) (conn.nParallel_Tetr + 1) 0 []

/-! ### Examples for the writers -/

/-- A geometry for the examples: six local points, of which the first three belong to
the domain and all but the first lie on a boundary; three markers, with two edges, one
quadrilateral and one triangle. -/
def exampleGeometry : CGeometry :=
  { nDim := 3, nPoint := 6,
    node := fun i =>
      { Boundary := decide (1 ≤ i), Domain := decide (i < 3), GlobalIndex := i },
    bound := [[{ VTK_Type := GEO_TYPE.LINE, Nodes := [1, 2] },
               { VTK_Type := GEO_TYPE.LINE, Nodes := [0, 5] }],
              [{ VTK_Type := GEO_TYPE.QUADRILATERAL, Nodes := [1, 2, 3, 4] }],
              [{ VTK_Type := GEO_TYPE.TRIANGLE, Nodes := [1, 2, 3] }]] }

/-- A connectivity for the examples: one tetrahedron on the vertices 1, 2, 3, 4. -/
def exampleConn : ParallelConn :=
  { nParallel_Tria := 0, Conn_Tria_Par := fun k => k + 1,
    nParallel_Quad := 0, Conn_Quad_Par := fun k => k + 1,
    nParallel_Tetr := 1, Conn_Tetr_Par := fun k => k + 1,
    nParallel_Hexa := 0, Conn_Hexa_Par := fun k => k + 1,
    nParallel_Pris := 0, Conn_Pris_Par := fun k => k + 1,
    nParallel_Pyra := 0, Conn_Pyra_Par := fun k => k + 1 }

/-- A file library whose calls all succeed; its arrays hold 1000 entries, as in the other
examples. -/
def workingLib : GmfLib :=
  { GmfMaxTyp := 1000, openOk := fun _ => true,
    setKwdOk := fun _ _ => true, closeOk := fun _ => true }

/-- A file library that cannot open any file. -/
def noOpenLib : GmfLib :=
  { GmfMaxTyp := 1000, openOk := fun _ => false,
    setKwdOk := fun _ _ => true, closeOk := fun _ => true }

/-- A file library that opens files but fails to write headers and to close. -/
def noWriteLib : GmfLib :=
  { GmfMaxTyp := 1000, openOk := fun _ => true,
    setKwdOk := fun _ _ => false, closeOk := fun _ => false }

/-- A file library that fails only when closing. -/
def noCloseLib : GmfLib :=
  { GmfMaxTyp := 1000, openOk := fun _ => true,
    setKwdOk := fun _ _ => true, closeOk := fun _ => false }

/-- The local points of one rank for the examples: three points whose variable number
`iVar` is `iVar + 1`. -/
def exampleLocal : List (List PointData) :=
  [[fun iVar => (iVar : ℚ) + 1, fun iVar => (iVar : ℚ) + 1, fun iVar => (iVar : ℚ) + 1]]

/-! ## The gather with the plain prefix sum as offset -/

/-- Written from the claim, for comparison with `rankTurn`: one pass of a gather whose
running offset advances by the full local count of the rank, whatever the number of its
points that pass the test.  The state is `(offset, file)`; the point loop is the one of the
code. -/
def prefixSumTurn {α β : Type} (nPoint_Restart : Nat) (line : α → β) (Local : List (List α))
    (iProcessor : Nat) (st : Nat × List (Emitted β)) : Nat × List (Emitted β) :=
  let r := pointLoop nPoint_Restart st.1 iProcessor line 0 (Local.getD iProcessor []) (0, st.2)
  (st.1 + (Local.getD iProcessor []).length, r.2)

/-- Written from the claim, for comparison with `pointGather`: the lines emitted when the
offset of every rank is the sum of the local counts of the ranks before it. -/
def prefixSumGather {α β : Type} (nPoint_Restart : Nat) (line : α → β)
    (Local : List (List α)) : List (Emitted β) :=
  (iterFrom (prefixSumTurn nPoint_Restart line Local) 0 Local.length (0, [])).2

/-! ### Further examples for the writers -/

/-- A geometry whose interior points come first: eight local points, of which the last
four lie on a boundary, and one marker with one quadrilateral on these four. -/
def interiorFirstGeometry : CGeometry :=
  { nDim := 3, nPoint := 8,
    node := fun i =>
      { Boundary := decide (4 ≤ i), Domain := true, GlobalIndex := i },
    bound := [[{ VTK_Type := GEO_TYPE.QUADRILATERAL, Nodes := [4, 5, 6, 7] }]] }

/-- A connectivity with 65536 tetrahedra, one more than the largest value of an
`unsigned short`. -/
def manyTetrahedra : ParallelConn :=
  { exampleConn with nParallel_Tetr := 65536 }

/-! ## Lemmas on lists of counters -/

theorem getD_set_self (l : List Nat) (r v : Nat) (h : r < l.length) :
    (l.set r v).getD r 0 = v := by
  simp [List.getD_eq_getElem?_getD, List.getElem?_set, h]

theorem getD_set_ne (l : List Nat) (r q v : Nat) (h : r ≠ q) :
    (l.set r v).getD q 0 = l.getD q 0 := by
  simp [List.getD_eq_getElem?_getD, List.getElem?_set_ne h]

theorem sum_set_of_zero (l : List Nat) (r v : Nat) (h : r < l.length)
    (h0 : l.getD r 0 = 0) : (l.set r v).sum = l.sum + v := by
  induction l generalizing r with
  | nil => simp at h
  | cons a l ih =>
    cases r with
    | zero =>
      simp at h0
      simp [h0, Nat.add_comm]
    | succ r =>
      have h1 : r < l.length := by simpa using h
      have h2 : l.getD r 0 = 0 := by simpa using h0
      simp only [List.set_cons_succ, List.sum_cons, ih r h1 h2]
      omega

theorem getD_replicate_zero (n q : Nat) : (List.replicate n 0).getD q 0 = 0 := by
  simp [List.getD_eq_getElem?_getD, List.getElem?_replicate]
  split <;> simp

/-! ## Lemmas on the point loop of one rank -/

theorem length_blockFrom {α β : Type} (line : α → β) (rank start : Nat) (pts : List α) :
    ∀ i : Nat, (blockFrom line rank start i pts).length = pts.length := by
  induction pts with
  | nil => intro i; simp [blockFrom]
  | cons p rest ih => intro i; simp [blockFrom, ih]

theorem pointLoop_eq {α β : Type} (R offset rank : Nat) (line : α → β) (pts : List α) :
    ∀ (i m : Nat) (file : List (Emitted β)),
      pointLoop R offset rank line i pts (m, file)
        = (m + min pts.length (R - (i + offset)),
           file ++ (blockFrom line rank offset i pts).take (R - (i + offset))) := by
  induction pts with
  | nil => intro i m file; simp [pointLoop, blockFrom]
  | cons p rest ih =>
    intro i m file
    by_cases h : i + offset < R
    · have e : R - (i + offset) = (R - (i + 1 + offset)) + 1 := by omega
      simp only [pointLoop, h, if_true, ih, blockFrom]
      rw [e, List.take_succ_cons]
      simp only [List.length_cons, List.append_assoc, List.singleton_append, Prod.mk.injEq,
        and_true]
      omega
    · have e : R - (i + offset) = 0 := by omega
      have e' : R - (i + 1 + offset) = 0 := by omega
      simp only [pointLoop, h, if_false, ih, blockFrom, e, e']
      simp

theorem rank_of_mem_blockFrom {α β : Type} (line : α → β) (rank start : Nat) (pts : List α) :
    ∀ (i : Nat) (e : Emitted β), e ∈ blockFrom line rank start i pts → e.rank = rank := by
  induction pts with
  | nil => intro i e h; simp [blockFrom] at h
  | cons p rest ih =>
    intro i e h
    simp only [blockFrom, List.mem_cons] at h
    rcases h with h | h
    · rw [h]
    · exact ih (i + 1) e h

theorem length_allUpTo {α β : Type} (line : α → β) (Local : List (List α)) (r : Nat) :
    (allUpTo line Local r).length = pointsBefore Local r := by
  induction r with
  | zero => simp [allUpTo, pointsBefore]
  | succ r ih => simp [allUpTo, pointsBefore, ih, length_blockFrom]

/-! ## Lemmas on loops with a 16-bit counter -/

theorem ushortLoop_ends {σ : Type} (bound : Nat) (body : Nat → σ → σ) (hb : bound ≤ 65535) :
    ∀ (n i : Nat) (st : σ) (fuel : Nat), i + n = bound → n < fuel →
      ushortLoop bound body fuel i st = some (iterFrom body i n st) := by
  intro n
  induction n with
  | zero =>
    intro i st fuel hi hf
    cases fuel with
    | zero => omega
    | succ f =>
      have : ¬ i < bound := by omega
      simp [ushortLoop, iterFrom, this]
  | succ n ih =>
    intro i st fuel hi hf
    cases fuel with
    | zero => omega
    | succ f =>
      have h1 : i < bound := by omega
      have h2 : (i + 1) % 65536 = i + 1 := Nat.mod_eq_of_lt (by omega)
      simp only [ushortLoop, h1, if_true, h2, iterFrom]
      exact ih (i + 1) (body i st) f (by omega) (by omega)

theorem ushortLoop_never {σ : Type} (bound : Nat) (body : Nat → σ → σ) (hb : 65536 ≤ bound) :
    ∀ (fuel i : Nat) (st : σ), i < 65536 → ushortLoop bound body fuel i st = none := by
  intro fuel
  induction fuel with
  | zero => intro i st _; rfl
  | succ f ih =>
    intro i st hi
    have h1 : i < bound := by omega
    simp only [ushortLoop, h1, if_true]
    exact ih _ _ (Nat.mod_lt _ (by decide))

/-! ## The invariant of the gather -/

theorem GatherInv_init {α β : Type} (R : Nat) (line : α → β) (Local : List (List α)) :
    GatherInv R line Local 0
      { myPoint := List.replicate Local.length 0, offset := 0, file := [], used := [] } where
  length_myPoint := by simp
  later_zero := by intro q _; exact getD_replicate_zero _ _
  earlier := by intro q hq; omega
  sum_myPoint := by simp
  offset_eq := by simp [pointsBefore]
  file_eq := by simp [allUpTo]
  used_eq := by simp
  count_eq := by intro q; simp [getD_replicate_zero]

theorem GatherInv_step {α β : Type} (R : Nat) (line : α → β) (Local : List (List α)) (r : Nat)
    (st : GatherState β) (inv : GatherInv R line Local r st) (hr : r < Local.length) :
    GatherInv R line Local (r + 1) (rankTurn R line Local r st) := by
  have hz : st.myPoint.getD r 0 = 0 := inv.later_zero r (Nat.le_refl r)
  have hlen : r < st.myPoint.length := by rw [inv.length_myPoint]; exact hr
  have hoff := inv.offset_eq
  constructor
  · simp [rankTurn, inv.length_myPoint]
  · intro q hq
    simp only [rankTurn]
    rw [getD_set_ne _ _ _ _ (by omega)]
    exact inv.later_zero q (by omega)
  · intro q hq
    simp only [rankTurn, pointLoop_eq, hz]
    by_cases hqr : q = r
    · subst hqr
      rw [getD_set_self _ _ _ hlen, ← hoff]
      simp
    · rw [getD_set_ne _ _ _ _ (fun h => hqr h.symm)]
      exact inv.earlier q (by omega)
  · simp [rankTurn]
  · simp only [rankTurn, pointLoop_eq, hz]
    rw [sum_set_of_zero _ _ _ hlen hz, inv.sum_myPoint]
    simp only [pointsBefore]
    omega
  · simp only [rankTurn, pointLoop_eq, hz, allUpTo]
    rw [inv.file_eq, List.take_append_eq_append_take, length_allUpTo]
    congr 1
    by_cases h : pointsBefore Local r ≤ R
    · have : st.offset = pointsBefore Local r := by omega
      simp [this]
    · have e1 : R - (0 + st.offset) = 0 := by omega
      have e2 : R - pointsBefore Local r = 0 := by omega
      rw [e1, e2]
      simp
  · simp only [rankTurn, inv.used_eq, List.range_succ, List.map_append, List.map_cons,
      List.map_nil, hoff]
  · intro q
    simp only [rankTurn, pointLoop_eq, hz, List.filter_append, List.length_append]
    by_cases hqr : q = r
    · subst hqr
      rw [getD_set_self _ _ _ hlen, inv.count_eq, hz]
      have : ∀ e ∈ (blockFrom line q st.offset 0 (Local.getD q [])).take (R - (0 + st.offset)),
          (fun e : Emitted β => decide (e.rank = q)) e = true := by
        intro e he
        simp [rank_of_mem_blockFrom _ _ _ _ _ _ (List.mem_of_mem_take he)]
      rw [List.filter_eq_self.mpr this]
      simp [length_blockFrom, Nat.min_comm]
    · rw [getD_set_ne _ _ _ _ (fun h => hqr h.symm), inv.count_eq]
      have : ∀ e ∈ (blockFrom line r st.offset 0 (Local.getD r [])).take (R - (0 + st.offset)),
          ¬ (fun e : Emitted β => decide (e.rank = q)) e = true := by
        intro e he
        have := rank_of_mem_blockFrom _ _ _ _ _ _ (List.mem_of_mem_take he)
        simp only [this, decide_eq_true_eq]
        exact fun h => hqr h.symm
      rw [List.filter_eq_nil_iff.mpr this]
      simp

theorem GatherInv_iter {α β : Type} (R : Nat) (line : α → β) (Local : List (List α)) :
    ∀ (n r : Nat) (st : GatherState β), GatherInv R line Local r st → r + n ≤ Local.length →
      GatherInv R line Local (r + n) (iterFrom (rankTurn R line Local) r n st) := by
  intro n
  induction n with
  | zero => intro r st inv _; simpa [iterFrom] using inv
  | succ n ih =>
    intro r st inv h
    have := ih (r + 1) _ (GatherInv_step R line Local r st inv (by omega)) (by omega)
    simpa [iterFrom, Nat.add_assoc, Nat.add_comm 1 n] using this

/-- With at most 65535 ranks the gather ends, in a state that satisfies the invariant
after the last rank. -/
theorem pointGather_inv {α β : Type} (R : Nat) (line : α → β) (Local : List (List α))
    (hP : Local.length ≤ 65535) :
    ∃ st, pointGather R line Local = some st ∧ GatherInv R line Local Local.length st := by
  refine ⟨iterFrom (rankTurn R line Local) 0 Local.length
    { myPoint := List.replicate Local.length 0, offset := 0, file := [], used := [] }, ?_, ?_⟩
  · exact ushortLoop_ends _ _ hP Local.length 0 _ _ (by omega) (by omega)
  · have := GatherInv_iter R line Local Local.length 0 _ (GatherInv_init R line Local) (by omega)
    simpa using this

/-- With more than 65535 ranks the loop over `iProcessor` does not end, whatever the fuel. -/
theorem gather_loop_never_ends {α β : Type} (R : Nat) (line : α → β) (Local : List (List α))
    (hP : 65536 ≤ Local.length) (fuel : Nat) (st : GatherState β) :
    ushortLoop Local.length (rankTurn R line Local) fuel 0 st = none :=
  ushortLoop_never _ _ hP fuel 0 st (by decide)

theorem pointGather_eq_none {α β : Type} (R : Nat) (line : α → β) (Local : List (List α))
    (hP : 65536 ≤ Local.length) : pointGather R line Local = none :=
  gather_loop_never_ends R line Local hP _ _

/-! ## The file without the threshold: all points in rank order -/

theorem map_index_blockFrom {α β : Type} (line : α → β) (rank start : Nat) (pts : List α) :
    ∀ i : Nat, (blockFrom line rank start i pts).map (fun e => e.Global_Index)
      = List.range' (i + start) pts.length := by
  induction pts with
  | nil => intro i; simp [blockFrom]
  | cons p rest ih =>
    intro i
    simp only [blockFrom, List.map_cons, ih, List.length_cons, List.range'_succ]
    congr 2
    omega

theorem map_line_blockFrom {α β : Type} (line : α → β) (rank start : Nat) (pts : List α) :
    ∀ i : Nat, (blockFrom line rank start i pts).map (fun e => e.line) = pts.map line := by
  induction pts with
  | nil => intro i; simp [blockFrom]
  | cons p rest ih => intro i; simp [blockFrom, ih]

theorem mem_blockFrom {α β : Type} (line : α → β) (rank start : Nat) (pts : List α) :
    ∀ (i : Nat) (e : Emitted β), e ∈ blockFrom line rank start i pts ↔
      ∃ j p, pts[j]? = some p ∧ e = ⟨rank, i + j, i + j + start, line p⟩ := by
  induction pts with
  | nil => intro i e; simp [blockFrom]
  | cons p rest ih =>
    intro i e
    simp only [blockFrom, List.mem_cons, ih]
    constructor
    · rintro (h | ⟨j, q, hj, he⟩)
      · exact ⟨0, p, by simp, by simpa using h⟩
      · refine ⟨j + 1, q, by simpa using hj, ?_⟩
        rw [he]
        congr 1 <;> omega
    · rintro ⟨j, q, hj, he⟩
      cases j with
      | zero =>
        left
        simp at hj
        simpa [hj] using he
      | succ j =>
        right
        refine ⟨j, q, by simpa using hj, ?_⟩
        rw [he]
        congr 1 <;> omega

theorem map_index_allUpTo {α β : Type} (line : α → β) (Local : List (List α)) (r : Nat) :
    (allUpTo line Local r).map (fun e => e.Global_Index) = List.range (pointsBefore Local r) := by
  induction r with
  | zero => simp [allUpTo, pointsBefore]
  | succ r ih =>
    simp only [allUpTo, pointsBefore, List.map_append, ih, map_index_blockFrom,
      List.range_eq_range', Nat.zero_add]
    have := List.range'_append_1 0 (pointsBefore Local r) (Local.getD r []).length
    rw [Nat.zero_add] at this
    rw [this, Nat.add_comm]

theorem mem_allUpTo {α β : Type} (line : α → β) (Local : List (List α)) (n : Nat)
    (e : Emitted β) :
    e ∈ allUpTo line Local n ↔
      ∃ q i p, q < n ∧ (Local.getD q [])[i]? = some p ∧
        e = ⟨q, i, i + pointsBefore Local q, line p⟩ := by
  induction n with
  | zero => simp [allUpTo]
  | succ n ih =>
    simp only [allUpTo, List.mem_append, ih, mem_blockFrom]
    constructor
    · rintro (⟨q, i, p, hq, hp, he⟩ | ⟨j, p, hp, he⟩)
      · exact ⟨q, i, p, by omega, hp, he⟩
      · exact ⟨n, j, p, by omega, hp, by simpa using he⟩
    · rintro ⟨q, i, p, hq, hp, he⟩
      by_cases h : q < n
      · exact Or.inl ⟨q, i, p, h, hp, he⟩
      · have : q = n := by omega
        subst this
        exact Or.inr ⟨i, p, hp, by simpa using he⟩

theorem pointsBefore_eq_take {α : Type} (Local : List (List α)) (r : Nat) :
    pointsBefore Local r = (Local.take r).flatten.length := by
  induction r with
  | zero => simp [pointsBefore]
  | succ r ih =>
    rw [pointsBefore, ih, List.take_succ, List.flatten_append, List.length_append,
      List.getD_eq_getElem?_getD]
    cases Local[r]? <;> simp

theorem pointsBefore_length {α : Type} (Local : List (List α)) :
    pointsBefore Local Local.length = Local.flatten.length := by
  rw [pointsBefore_eq_take, List.take_length]

theorem pointsBefore_mono {α : Type} (Local : List (List α)) (r s : Nat) (h : r ≤ s) :
    pointsBefore Local r ≤ pointsBefore Local s := by
  induction s with
  | zero =>
    have : r = 0 := by omega
    rw [this]
  | succ s ih =>
    by_cases hrs : r = s + 1
    · rw [hrs]
    · have := ih (by omega)
      simp only [pointsBefore]
      omega

theorem map_line_allUpTo {α β : Type} (line : α → β) (Local : List (List α)) (r : Nat) :
    (allUpTo line Local r).map (fun e => e.line) = (Local.take r).flatten.map line := by
  induction r with
  | zero => simp [allUpTo]
  | succ r ih =>
    rw [allUpTo, List.map_append, ih, map_line_blockFrom, List.take_succ, List.flatten_append,
      List.map_append, List.getD_eq_getElem?_getD]
    cases Local[r]? <;> simp

/-- In a list numbered `0, 1, 2, ...` by `f`, an element sits at the position `f` gives. -/
theorem getElem?_of_map_eq_range {γ : Type} (f : γ → Nat) (l : List γ) (n : Nat)
    (h : l.map f = List.range n) (k : Nat) (e : γ) (hk : l[k]? = some e) : f e = k := by
  have h1 : (l.map f)[k]? = some (f e) := by simp [hk]
  rw [h] at h1
  have hlt : k < n := by
    by_contra hc
    have : (List.range n)[k]? = none := by simp; omega
    rw [this] at h1
    cases h1
  rw [List.getElem?_range hlt] at h1
  exact (Option.some.inj h1).symm

/-- In such a list the first `R` elements are those numbered below `R`. -/
theorem mem_take_iff_of_map_eq_range {γ : Type} (f : γ → Nat) (l : List γ) (n R : Nat)
    (h : l.map f = List.range n) (e : γ) : e ∈ l.take R ↔ e ∈ l ∧ f e < R := by
  constructor
  · intro he
    refine ⟨List.mem_of_mem_take he, ?_⟩
    obtain ⟨k, hk⟩ := List.mem_iff_getElem?.mp he
    rw [List.getElem?_take] at hk
    split at hk
    · rename_i hlt
      rw [getElem?_of_map_eq_range f l n h k e hk]
      exact hlt
    · cases hk
  · rintro ⟨he, hlt⟩
    obtain ⟨k, hk⟩ := List.mem_iff_getElem?.mp he
    have hfk := getElem?_of_map_eq_range f l n h k e hk
    apply List.mem_iff_getElem?.mpr
    refine ⟨k, ?_⟩
    rw [List.getElem?_take, if_pos (by omega)]
    exact hk

theorem map_pair_blockFrom {α β γ : Type} (line : α → β) (line2 : α → γ) (rank start : Nat)
    (pts : List α) :
    ∀ i : Nat, (blockFrom line rank start i pts).map (fun e => (e.rank, e.iPoint))
      = (blockFrom line2 rank start i pts).map (fun e => (e.rank, e.iPoint)) := by
  induction pts with
  | nil => intro i; simp [blockFrom]
  | cons p rest ih => intro i; simp [blockFrom, ih]

theorem map_pair_allUpTo {α β γ : Type} (line : α → β) (line2 : α → γ) (Local : List (List α))
    (r : Nat) :
    (allUpTo line Local r).map (fun e => (e.rank, e.iPoint))
      = (allUpTo line2 Local r).map (fun e => (e.rank, e.iPoint)) := by
  induction r with
  | zero => simp [allUpTo]
  | succ r ih => simp only [allUpTo, List.map_append, ih, map_pair_blockFrom line line2]

theorem lt_length_of_getD {α : Type} (Local : List (List α)) (r i : Nat) (p : α)
    (hp : (Local.getD r [])[i]? = some p) : r < Local.length := by
  by_contra h
  have : Local[r]? = none := List.getElem?_eq_none (by omega)
  simp [List.getD_eq_getElem?_getD, this] at hp

/-- After the last pass, the point `i` of rank `r` is in the file exactly when its position
in rank order is below the threshold. -/
theorem emitted_iff_position {α β : Type} (R : Nat) (line : α → β) (Local : List (List α))
    (st : GatherState β) (inv : GatherInv R line Local Local.length st) (r i : Nat) :
    (r, i) ∈ emittedPairs st ↔
      r < Local.length ∧ i < (Local.getD r []).length ∧ i + pointsBefore Local r < R := by
  have hA := map_index_allUpTo line Local Local.length
  simp only [emittedPairs, inv.file_eq, List.mem_map]
  constructor
  · rintro ⟨e, he, hpair⟩
    rw [mem_take_iff_of_map_eq_range _ _ _ R hA] at he
    obtain ⟨hmem, hlt⟩ := he
    obtain ⟨q, j, p, hq, hp, heq⟩ := (mem_allUpTo line Local _ e).mp hmem
    rw [heq] at hpair hlt
    simp only [Prod.mk.injEq] at hpair
    obtain ⟨h1, h2⟩ := hpair
    subst h1 h2
    refine ⟨hq, ?_, hlt⟩
    have := List.getElem?_eq_some_iff.mp hp
    exact this.1
  · rintro ⟨hr, hi, hlt⟩
    have hp : (Local.getD r [])[i]? = some ((Local.getD r [])[i]) := List.getElem?_eq_getElem hi
    refine ⟨⟨r, i, i + pointsBefore Local r, line ((Local.getD r [])[i])⟩, ?_, rfl⟩
    rw [mem_take_iff_of_map_eq_range _ _ _ R hA]
    exact ⟨(mem_allUpTo line Local _ _).mpr ⟨r, i, _, hr, hp, rfl⟩, hlt⟩

theorem used_getD {α β : Type} (R : Nat) (line : α → β) (Local : List (List α))
    (st : GatherState β) (inv : GatherInv R line Local Local.length st) (r : Nat)
    (hr : r < Local.length) : st.used.getD r 0 = min (pointsBefore Local r) R := by
  rw [inv.used_eq, List.getD_eq_getElem?_getD, List.getElem?_map, List.getElem?_range hr]
  rfl

theorem emittedPairs_eq {α β : Type} (R : Nat) (line : α → β) (Local : List (List α))
    (st : GatherState β) (inv : GatherInv R line Local Local.length st) :
    emittedPairs st
      = ((allUpTo (fun _ => ()) Local Local.length).map (fun e => (e.rank, e.iPoint))).take R := by
  rw [emittedPairs, inv.file_eq, List.map_take, map_pair_allUpTo line (fun _ => ())]

theorem thresholdOnly_of_inv {α β : Type} (R : Nat) (line : α → β) (Local : List (List α))
    (st : GatherState β) (inv : GatherInv R line Local Local.length st) :
    ThresholdOnly R Local st := by
  intro r i
  rw [emitted_iff_position R line Local st inv]
  constructor
  · rintro ⟨hr, hi, hlt⟩
    refine ⟨hr, hi, ?_⟩
    rw [used_getD R line Local st inv r hr]
    omega
  · rintro ⟨hr, hi, hlt⟩
    refine ⟨hr, hi, ?_⟩
    rw [used_getD R line Local st inv r hr] at hlt
    omega

/-! ## The point gather: statements -/

/-- C2: in the rank-ordered point gather (ranks in order, each rank's points in local
order, point `i` of rank `r` written when `offset + i < nPoint_Restart`), when the ranks
together hold at least `nPoint_Restart` points, the values of `Global_Index` of the lines
written are `0, 1, ..., nPoint_Restart-1` in this order: each occurs once, none is missing,
and `nPoint_Restart` lines are written.  The number of ranks is within the range of the
rank counter, so that the loop over the ranks ends. -/
theorem gather_indices_exact {α β : Type} (nPoint_Restart : Nat) (line : α → β)
    (Local : List (List α)) (hP : Local.length ≤ 65535)
    (hN : nPoint_Restart ≤ Local.flatten.length) :
    ∃ st, pointGather nPoint_Restart line Local = some st ∧
      st.file.map (fun e => e.Global_Index) = List.range nPoint_Restart ∧
      st.file.length = nPoint_Restart ∧
      (st.file.map (fun e => e.Global_Index)).Nodup ∧
      ∀ g, g ∈ st.file.map (fun e => e.Global_Index) ↔ g < nPoint_Restart := by
  obtain ⟨st, hst, inv⟩ := pointGather_inv nPoint_Restart line Local hP
  have hmap : st.file.map (fun e => e.Global_Index) = List.range nPoint_Restart := by
    rw [inv.file_eq, List.map_take, map_index_allUpTo, List.take_range, pointsBefore_length,
      Nat.min_eq_left hN]
  refine ⟨st, hst, hmap, ?_, ?_, ?_⟩
  · have := congrArg List.length hmap
    simpa using this
  · rw [hmap]; exact List.nodup_range _
  · intro g; rw [hmap]; exact List.mem_range

/-- Witness for `gather_indices_exact`: two ranks holding three points, threshold two. -/
theorem gather_indices_exact_witness :
    ([[10, 11], [12]] : List (List Nat)).length ≤ 65535 ∧
    2 ≤ ([[10, 11], [12]] : List (List Nat)).flatten.length ∧
    ∃ st, pointGather 2 (fun p : Nat => p) [[10, 11], [12]] = some st ∧
      st.file.map (fun e => e.Global_Index) = List.range 2 ∧
      st.file.length = 2 ∧
      (st.file.map (fun e => e.Global_Index)).Nodup ∧
      ∀ g, g ∈ st.file.map (fun e => e.Global_Index) ↔ g < 2 :=
  ⟨by decide, by decide,
    gather_indices_exact 2 (fun p : Nat => p) [[10, 11], [12]] (by decide) (by decide)⟩

/-- C4: the lines written do not depend on the number of ranks.  For every sequence of
point rows cut into consecutive chunks, one per rank (empty chunks allowed; the sequence
is `chunks.flatten`), the gather over the chunks writes the same lines with the same
global indices as the gather over one rank holding the whole sequence: the first
`min N nPoint_Restart` rows in their original order, the line at position `k` having
global index `k`.  The number of ranks is within the range of the rank counter. -/
theorem gather_rank_count_invariant {α β : Type} (nPoint_Restart : Nat) (line : α → β)
    (chunks : List (List α)) (hP : chunks.length ≤ 65535) :
    ∃ st st1, pointGather nPoint_Restart line chunks = some st ∧
      pointGather nPoint_Restart line [chunks.flatten] = some st1 ∧
      st.file.map (fun e => e.line) = st1.file.map (fun e => e.line) ∧
      st.file.map (fun e => e.Global_Index) = st1.file.map (fun e => e.Global_Index) ∧
      st.file.map (fun e => e.line) = (chunks.flatten.take nPoint_Restart).map line ∧
      st.file.length = min chunks.flatten.length nPoint_Restart ∧
      st.file.map (fun e => e.Global_Index) = List.range st.file.length := by
  obtain ⟨st, hst, inv⟩ := pointGather_inv nPoint_Restart line chunks hP
  obtain ⟨st1, hst1, inv1⟩ :=
    pointGather_inv nPoint_Restart line [chunks.flatten] (by simp)
  have hline : st.file.map (fun e => e.line) = (chunks.flatten.take nPoint_Restart).map line := by
    rw [inv.file_eq, List.map_take, map_line_allUpTo, List.take_length, List.map_take]
  have hline1 : st1.file.map (fun e => e.line)
      = (chunks.flatten.take nPoint_Restart).map line := by
    rw [inv1.file_eq, List.map_take, map_line_allUpTo, List.take_length, List.map_take]
    simp
  have hidx : st.file.map (fun e => e.Global_Index)
      = List.range (min nPoint_Restart chunks.flatten.length) := by
    rw [inv.file_eq, List.map_take, map_index_allUpTo, List.take_range, pointsBefore_length]
  have hidx1 : st1.file.map (fun e => e.Global_Index)
      = List.range (min nPoint_Restart chunks.flatten.length) := by
    rw [inv1.file_eq, List.map_take, map_index_allUpTo, List.take_range, pointsBefore_length]
    simp
  have hlen : st.file.length = min chunks.flatten.length nPoint_Restart := by
    have := congrArg List.length hidx
    simp only [List.length_map, List.length_range] at this
    rw [this, Nat.min_comm]
  refine ⟨st, st1, hst, hst1, ?_, ?_, hline, hlen, ?_⟩
  · rw [hline, hline1]
  · rw [hidx, hidx1]
  · rw [hidx, hlen, Nat.min_comm]

/-- Witness for `gather_rank_count_invariant`: four rows cut into three chunks, one of
them empty. -/
theorem gather_rank_count_invariant_witness :
    ([[10, 11], [], [12, 13]] : List (List Nat)).length ≤ 65535 ∧
    ∃ st st1, pointGather 3 (fun p : Nat => p) [[10, 11], [], [12, 13]] = some st ∧
      pointGather 3 (fun p : Nat => p) [([[10, 11], [], [12, 13]] : List (List Nat)).flatten]
        = some st1 ∧
      st.file.map (fun e => e.line) = st1.file.map (fun e => e.line) ∧
      st.file.map (fun e => e.Global_Index) = st1.file.map (fun e => e.Global_Index) ∧
      st.file.map (fun e => e.line)
        = ((([[10, 11], [], [12, 13]] : List (List Nat)).flatten).take 3).map (fun p : Nat => p) ∧
      st.file.length = min ([[10, 11], [], [12, 13]] : List (List Nat)).flatten.length 3 ∧
      st.file.map (fun e => e.Global_Index) = List.range st.file.length :=
  ⟨by decide,
    gather_rank_count_invariant 3 (fun p : Nat => p) [[10, 11], [], [12, 13]] (by decide)⟩

/-- C6: in each of the five point writers (restart solution, Mach, pressure, sensor, mesh
vertices) the point with local index `i` on rank `r` is written exactly when
`offset + i < nPoint_Restart`, `offset` being the running offset at the pass of rank `r`;
nothing else takes part in the test, and for the same local points and the same
`nPoint_Restart` the five writers write the same `(rank, local index)` pairs.  The number
of ranks is within the range of the rank counter. -/
theorem writers_share_threshold_test (TagBc : BCVAR → Nat) (nDim nVar_Par nPoint_Restart : Nat)
    (Local : List (List PointData)) (hP : Local.length ≤ 65535) :
    ∃ sol mach pres metr vert,
      SetInriaRestart_gather nDim nVar_Par nPoint_Restart Local = some sol ∧
      WriteInriaOutputs_Mach TagBc nPoint_Restart Local = some mach ∧
      WriteInriaOutputs_Pres TagBc nPoint_Restart Local = some pres ∧
      WriteInriaOutputs_Metr TagBc nDim nPoint_Restart Local = some metr ∧
      SetInriaMesh_Vertices nDim nPoint_Restart Local = some vert ∧
      ThresholdOnly nPoint_Restart Local sol ∧
      ThresholdOnly nPoint_Restart Local mach ∧
      ThresholdOnly nPoint_Restart Local pres ∧
      ThresholdOnly nPoint_Restart Local metr ∧
      ThresholdOnly nPoint_Restart Local vert ∧
      emittedPairs mach = emittedPairs sol ∧
      emittedPairs pres = emittedPairs sol ∧
      emittedPairs metr = emittedPairs sol ∧
      emittedPairs vert = emittedPairs sol := by
  obtain ⟨sol, h1, i1⟩ := pointGather_inv nPoint_Restart (restartLine nDim nVar_Par) Local hP
  obtain ⟨mach, h2, i2⟩ :=
    pointGather_inv nPoint_Restart (scalarLine (TagBc BCVAR.bcMach)) Local hP
  obtain ⟨pres, h3, i3⟩ :=
    pointGather_inv nPoint_Restart (scalarLine (TagBc BCVAR.bcPres)) Local hP
  obtain ⟨metr, h4, i4⟩ :=
    pointGather_inv nPoint_Restart (metricLine nDim (TagBc BCVAR.bcGoal)) Local hP
  obtain ⟨vert, h5, i5⟩ := pointGather_inv nPoint_Restart (vertexLine nDim) Local hP
  refine ⟨sol, mach, pres, metr, vert, h1, h2, h3, h4, h5,
    thresholdOnly_of_inv _ _ _ _ i1, thresholdOnly_of_inv _ _ _ _ i2,
    thresholdOnly_of_inv _ _ _ _ i3, thresholdOnly_of_inv _ _ _ _ i4,
    thresholdOnly_of_inv _ _ _ _ i5, ?_, ?_, ?_, ?_⟩
  · rw [emittedPairs_eq _ _ _ _ i2, emittedPairs_eq _ _ _ _ i1]
  · rw [emittedPairs_eq _ _ _ _ i3, emittedPairs_eq _ _ _ _ i1]
  · rw [emittedPairs_eq _ _ _ _ i4, emittedPairs_eq _ _ _ _ i1]
  · rw [emittedPairs_eq _ _ _ _ i5, emittedPairs_eq _ _ _ _ i1]

/-- Witness for `writers_share_threshold_test`: two ranks with two points and one point,
five variables per point in two dimensions, threshold two. -/
theorem writers_share_threshold_test_witness :
    ([[fun _ => 1, fun _ => 2], [fun _ => 3]] : List (List PointData)).length ≤ 65535 ∧
    ∃ sol mach pres metr vert,
      SetInriaRestart_gather 2 5 2 [[fun _ => 1, fun _ => 2], [fun _ => 3]] = some sol ∧
      WriteInriaOutputs_Mach (fun _ => 4) 2 [[fun _ => 1, fun _ => 2], [fun _ => 3]]
        = some mach ∧
      WriteInriaOutputs_Pres (fun _ => 4) 2 [[fun _ => 1, fun _ => 2], [fun _ => 3]]
        = some pres ∧
      WriteInriaOutputs_Metr (fun _ => 4) 2 2 [[fun _ => 1, fun _ => 2], [fun _ => 3]]
        = some metr ∧
      SetInriaMesh_Vertices 2 2 [[fun _ => 1, fun _ => 2], [fun _ => 3]] = some vert ∧
      ThresholdOnly 2 ([[fun _ => 1, fun _ => 2], [fun _ => 3]] : List (List PointData)) sol ∧
      ThresholdOnly 2 ([[fun _ => 1, fun _ => 2], [fun _ => 3]] : List (List PointData)) mach ∧
      ThresholdOnly 2 ([[fun _ => 1, fun _ => 2], [fun _ => 3]] : List (List PointData)) pres ∧
      ThresholdOnly 2 ([[fun _ => 1, fun _ => 2], [fun _ => 3]] : List (List PointData)) metr ∧
      ThresholdOnly 2 ([[fun _ => 1, fun _ => 2], [fun _ => 3]] : List (List PointData)) vert ∧
      emittedPairs mach = emittedPairs sol ∧
      emittedPairs pres = emittedPairs sol ∧
      emittedPairs metr = emittedPairs sol ∧
      emittedPairs vert = emittedPairs sol :=
  ⟨by decide,
    writers_share_threshold_test (fun _ => 4) 2 5 2 [[fun _ => 1, fun _ => 2], [fun _ => 3]]
      (by decide)⟩

/-- C7: the running offset of the gather is a running sum over the ranks.  The offset
used by rank 0 is 0; the offset used by rank `r+1` is the offset used by rank `r` plus the
number of lines rank `r` wrote, which is also what its counter `myPoint` holds; hence the
offsets do not decrease with the rank and do not exceed `nPoint_Restart`.  The number of
ranks is within the range of the rank counter. -/
theorem offsets_are_running_sums {α β : Type} (nPoint_Restart : Nat) (line : α → β)
    (Local : List (List α)) (hP : Local.length ≤ 65535) :
    ∃ st, pointGather nPoint_Restart line Local = some st ∧
      st.used.length = Local.length ∧
      (0 < Local.length → st.used[0]? = some 0) ∧
      (∀ r, r + 1 < Local.length →
        st.used.getD (r + 1) 0 = st.used.getD r 0 + emittedBy st r) ∧
      (∀ r, r < Local.length → emittedBy st r = st.myPoint.getD r 0) ∧
      (∀ r s, r ≤ s → s < Local.length → st.used.getD r 0 ≤ st.used.getD s 0) ∧
      (∀ r, r < Local.length → st.used.getD r 0 ≤ nPoint_Restart) ∧
      st.offset ≤ nPoint_Restart := by
  obtain ⟨st, hst, inv⟩ := pointGather_inv nPoint_Restart line Local hP
  have hu := used_getD nPoint_Restart line Local st inv
  refine ⟨st, hst, ?_, ?_, ?_, ?_, ?_, ?_, ?_⟩
  · simp [inv.used_eq]
  · intro h
    rw [inv.used_eq, List.getElem?_map, List.getElem?_range h]
    simp [pointsBefore]
  · intro r hr
    rw [hu (r + 1) hr, hu r (by omega), emittedBy, inv.count_eq, inv.earlier r (by omega)]
    simp only [pointsBefore]
    omega
  · intro r _
    rw [emittedBy, inv.count_eq]
  · intro r s hrs hs
    rw [hu r (by omega), hu s hs]
    have := pointsBefore_mono Local r s hrs
    omega
  · intro r hr
    rw [hu r hr]
    omega
  · rw [inv.offset_eq]
    omega

/-- Witness for `offsets_are_running_sums`: three ranks, the second one empty. -/
theorem offsets_are_running_sums_witness :
    ([[10, 11], [], [12, 13]] : List (List Nat)).length ≤ 65535 ∧
    ∃ st, pointGather 3 (fun p : Nat => p) [[10, 11], [], [12, 13]] = some st ∧
      st.used.length = ([[10, 11], [], [12, 13]] : List (List Nat)).length ∧
      (0 < ([[10, 11], [], [12, 13]] : List (List Nat)).length → st.used[0]? = some 0) ∧
      (∀ r, r + 1 < ([[10, 11], [], [12, 13]] : List (List Nat)).length →
        st.used.getD (r + 1) 0 = st.used.getD r 0 + emittedBy st r) ∧
      (∀ r, r < ([[10, 11], [], [12, 13]] : List (List Nat)).length →
        emittedBy st r = st.myPoint.getD r 0) ∧
      (∀ r s, r ≤ s → s < ([[10, 11], [], [12, 13]] : List (List Nat)).length →
        st.used.getD r 0 ≤ st.used.getD s 0) ∧
      (∀ r, r < ([[10, 11], [], [12, 13]] : List (List Nat)).length →
        st.used.getD r 0 ≤ 3) ∧
      st.offset ≤ 3 :=
  ⟨by decide,
    offsets_are_running_sums 3 (fun p : Nat => p) [[10, 11], [], [12, 13]] (by decide)⟩

/-! ## The point gather and halo points -/

theorem length_filter_eq_one {γ : Type} [DecidableEq γ] (l : List γ) (a : γ) (hn : l.Nodup)
    (ha : a ∈ l) : (l.filter (fun x => decide (x = a))).length = 1 := by
  induction l with
  | nil => simp at ha
  | cons b l ih =>
    rw [List.nodup_cons] at hn
    by_cases hb : b = a
    · subst hb
      have : l.filter (fun x => decide (x = b)) = [] :=
        List.filter_eq_nil_iff.mpr (fun x hx => by
          simp only [decide_eq_true_eq]
          intro h; subst h; exact hn.1 hx)
      simp [List.filter_cons, this]
    · have hal : a ∈ l := by
        rcases List.mem_cons.mp ha with h | h
        · exact absurd h.symm hb
        · exact h
      simp [List.filter_cons, hb, ih hn.2 hal]

theorem nodup_allUpTo {α β : Type} (line : α → β) (Local : List (List α)) (n : Nat) :
    (allUpTo line Local n).Nodup := by
  apply List.Nodup.of_map (fun e => e.Global_Index)
  rw [map_index_allUpTo]
  exact List.nodup_range _

theorem nodup_pairs_allUpTo {α β : Type} (line : α → β) (Local : List (List α)) (n : Nat) :
    ((allUpTo line Local n).map (fun e => (e.rank, e.iPoint))).Nodup := by
  apply List.Nodup.map_on _ (nodup_allUpTo line Local n)
  intro x hx y hy hxy
  obtain ⟨q, i, p, _, hp, rfl⟩ := (mem_allUpTo line Local n x).mp hx
  obtain ⟨q2, i2, p2, _, hp2, rfl⟩ := (mem_allUpTo line Local n y).mp hy
  simp only [Prod.mk.injEq] at hxy
  obtain ⟨h1, h2⟩ := hxy
  subst h1 h2
  rw [hp] at hp2
  cases hp2
  rfl

theorem nodup_emittedPairs {α β : Type} (R : Nat) (line : α → β) (Local : List (List α))
    (st : GatherState β) (inv : GatherInv R line Local Local.length st) :
    (emittedPairs st).Nodup := by
  rw [emittedPairs_eq R line Local st inv]
  exact List.Nodup.sublist (List.take_sublist _ _) (nodup_pairs_allUpTo _ _ _)

/-- The point `i` of rank `r` is the element number `i + pointsBefore Local r` of the
sequence of all points in rank order. -/
theorem flatten_getElem?_position {α : Type} (Local : List (List α)) (r i : Nat) (p : α)
    (hp : (Local.getD r [])[i]? = some p) :
    Local.flatten[i + pointsBefore Local r]? = some p := by
  have hr := lt_length_of_getD Local r i p hp
  have hmem : (⟨r, i, i + pointsBefore Local r, p⟩ : Emitted α)
      ∈ allUpTo (fun a : α => a) Local Local.length :=
    (mem_allUpTo _ Local _ _).mpr ⟨r, i, p, hr, hp, rfl⟩
  obtain ⟨k, hk⟩ := List.mem_iff_getElem?.mp hmem
  have hidx := getElem?_of_map_eq_range (fun e : Emitted α => e.Global_Index) _ _
    (map_index_allUpTo (fun a : α => a) Local Local.length) k _ hk
  simp only at hidx
  have hline := map_line_allUpTo (fun a : α => a) Local Local.length
  rw [List.take_length, List.map_id'] at hline
  rw [← hline, List.getElem?_map, hidx, hk]
  rfl

theorem domainCount_of_halosLast {α : Type} (halo : α → Bool) (Local : List (List α))
    (dom hal : List α) (h : Local.flatten = dom ++ hal) (hd : ∀ p ∈ dom, halo p = false)
    (hh : ∀ p ∈ hal, halo p = true) : domainCount halo Local = dom.length := by
  have h1 : dom.filter (fun p => !halo p) = dom :=
    List.filter_eq_self.mpr (fun p hp => by simp [hd p hp])
  have h2 : hal.filter (fun p => !halo p) = [] :=
    List.filter_eq_nil_iff.mpr (fun p hp => by simp [hh p hp])
  rw [domainCount, h, List.filter_append, h1, h2, List.append_nil]

/-- C3, as the code has it: when in rank order (rank 0 first, local order within a rank)
all halo points come after all genuine domain points, and `nPoint_Restart` is the number
of genuine domain points over all ranks, the threshold test writes every genuine domain
point exactly once and writes no halo point; with one rank this is the ordering of the
rank's local points.  The number of ranks is within the range of the rank counter. -/
theorem gather_excludes_halos {α β : Type} (halo : α → Bool) (nPoint_Restart : Nat)
    (line : α → β) (Local : List (List α)) (hP : Local.length ≤ 65535)
    (hord : HalosLastInRankOrder halo Local)
    (hR : nPoint_Restart = domainCount halo Local) :
    ∃ st, pointGather nPoint_Restart line Local = some st ∧
      EmitsExactlyDomain halo Local st := by
  obtain ⟨st, hst, inv⟩ := pointGather_inv nPoint_Restart line Local hP
  refine ⟨st, hst, ?_⟩
  obtain ⟨dom, hal, hflat, hd, hh⟩ := hord
  have hRd : nPoint_Restart = dom.length := by
    rw [hR]; exact domainCount_of_halosLast halo Local dom hal hflat hd hh
  intro r i p hp
  have hr := lt_length_of_getD Local r i p hp
  have hi : i < (Local.getD r []).length := (List.getElem?_eq_some_iff.mp hp).1
  have hpos := flatten_getElem?_position Local r i p hp
  rw [hflat, List.getElem?_append] at hpos
  have hiff := emitted_iff_position nPoint_Restart line Local st inv r i
  constructor
  · intro hfalse
    have hlt : i + pointsBefore Local r < dom.length := by
      by_contra hc
      rw [if_neg hc] at hpos
      have := hh p (List.getElem?_mem hpos)
      rw [hfalse] at this
      cases this
    exact length_filter_eq_one _ _ (nodup_emittedPairs _ line Local st inv)
      (hiff.mpr ⟨hr, hi, by omega⟩)
  · intro htrue hmem
    have hlt : i + pointsBefore Local r < dom.length := by
      have := (hiff.mp hmem).2.2
      omega
    rw [if_pos hlt] at hpos
    have := hd p (List.getElem?_mem hpos)
    rw [htrue] at this
    cases this

/-- Witness for `gather_excludes_halos`: two ranks, the only halo point last in rank order. -/
theorem gather_excludes_halos_witness :
    ([[false, false], [false, true]] : List (List Bool)).length ≤ 65535 ∧
    HalosLastInRankOrder (fun b : Bool => b) [[false, false], [false, true]] ∧
    3 = domainCount (fun b : Bool => b) [[false, false], [false, true]] ∧
    ∃ st, pointGather 3 (fun b : Bool => b) [[false, false], [false, true]] = some st ∧
      EmitsExactlyDomain (fun b : Bool => b) [[false, false], [false, true]] st :=
  ⟨by decide,
    ⟨[false, false, false], [true], rfl, by simp, by simp⟩,
    by decide,
    gather_excludes_halos (fun b : Bool => b) 3 (fun b : Bool => b)
      [[false, false], [false, true]] (by decide)
      ⟨[false, false, false], [true], rfl, by simp, by simp⟩ (by decide)⟩

/-- C3 fails as stated: rank 0 holds a domain point followed by a halo point, rank 1 holds
a domain point, so every rank has its halo points last and there are two domain points;
with `nPoint_Restart = 2` the gather writes both points of rank 0, the halo point
included, and does not write the domain point of rank 1. -/
theorem halo_written_with_two_ranks :
    1 ≤ ([[false, true], [false]] : List (List Bool)).length ∧
    ([[false, true], [false]] : List (List Bool)).length ≤ 65535 ∧
    HalosLastOnEachRank (fun b : Bool => b) [[false, true], [false]] ∧
    2 = domainCount (fun b : Bool => b) [[false, true], [false]] ∧
    pointGather 2 (fun b : Bool => b) [[false, true], [false]]
      = some { myPoint := [2, 0], offset := 2,
               file := [⟨0, 0, 0, false⟩, ⟨0, 1, 1, true⟩], used := [0, 2] } ∧
    ¬ EmitsExactlyDomain (fun b : Bool => b) [[false, true], [false]]
        ({ myPoint := [2, 0], offset := 2,
           file := [⟨0, 0, 0, false⟩, ⟨0, 1, 1, true⟩], used := [0, 2] } : GatherState Bool) := by
  refine ⟨by decide, by decide, ?_, by decide, by decide, ?_⟩
  · intro pts hpts
    simp only [List.mem_cons, List.mem_singleton, List.not_mem_nil, or_false] at hpts
    rcases hpts with h | h
    · exact ⟨[false], [true], by simp [h], by simp, by simp⟩
    · exact ⟨[false], [], by simp [h], by simp, by simp⟩
  · intro h
    have h1 := (h 0 1 true (by simp)).2 rfl
    exact h1 (by simp [emittedPairs])

/-! ## The driver: `Monitor` -/

theorem Monitor_fst (d : CSinglezoneDriver) (t : Nat) :
    (Monitor d t).1 =
      { d with
        StopCalc := stopDecision d.config
          { InnerIter := d.config.InnerIter, Convergence := d.output.Convergence,
            CUR_TIME := d.output.CUR_TIME } t
        output := { d.output with Convergence := false } } := by
  cases h : d.config.Time_Domain <;> simp [Monitor, stopDecision, h]

theorem Monitor_snd (d : CSinglezoneDriver) (t : Nat) :
    (Monitor d t).2 = (Monitor d t).1.StopCalc := rfl

/-- C1: the stop decision of `Monitor` follows one of two policies, chosen by the
time-domain flag.  With the flag off the value returned is true exactly when
`InnerIter + 1 >= nInnerIter` or the convergence flag is set, whatever the time
quantities; with the flag on it is true exactly when `CurTime >= MaxTime` or
`TimeIter + 1 >= nTimeIter`, whatever the convergence flag and the inner-iteration
counters.  In steady mode with `nInnerIter = 10`, `InnerIter = 3` and the convergence flag
set, `Monitor` reports stop. -/
theorem Monitor_decision :
    (∀ (d : CSinglezoneDriver) (TimeIter : Nat),
      (Monitor d TimeIter).2 =
        (if d.config.Time_Domain then
          decide (d.config.Max_Time ≤ d.output.CUR_TIME)
            || decide (d.config.nTime_Iter ≤ TimeIter + 1)
        else
          decide (d.config.nInner_Iter ≤ d.config.InnerIter + 1) || d.output.Convergence)) ∧
    (∀ (d : CSinglezoneDriver) (TimeIter : Nat), d.config.Time_Domain = false →
      ((Monitor d TimeIter).2 = true ↔
        d.config.nInner_Iter ≤ d.config.InnerIter + 1 ∨ d.output.Convergence = true)) ∧
    (∀ (d : CSinglezoneDriver) (TimeIter : Nat), d.config.Time_Domain = true →
      ((Monitor d TimeIter).2 = true ↔
        d.config.Max_Time ≤ d.output.CUR_TIME ∨ d.config.nTime_Iter ≤ TimeIter + 1)) ∧
    (∀ (d : CSinglezoneDriver) (TimeIter : Nat),
      (Monitor
        { d with
          config := { d.config with Time_Domain := false, nInner_Iter := 10, InnerIter := 3 }
          output := { d.output with Convergence := true } } TimeIter).2 = true) := by
  refine ⟨?_, ?_, ?_, ?_⟩
  · intro d t
    rw [Monitor_snd, Monitor_fst]
    rfl
  · intro d t h
    rw [Monitor_snd, Monitor_fst]
    simp [stopDecision, h]
  · intro d t h
    rw [Monitor_snd, Monitor_fst]
    simp [stopDecision, h]
  · intro d t
    rw [Monitor_snd, Monitor_fst]
    simp [stopDecision]

/-- Witness for `Monitor_decision`: the steady policy at the example driver, whose inner
iterations have not reached their maximum and whose convergence flag is not set. -/
theorem Monitor_decision_witness :
    (exampleDriver exampleConfig).config.Time_Domain = false ∧
    ((Monitor (exampleDriver exampleConfig) 0).2 = true ↔
      (exampleDriver exampleConfig).config.nInner_Iter
          ≤ (exampleDriver exampleConfig).config.InnerIter + 1 ∨
        (exampleDriver exampleConfig).output.Convergence = true) :=
  ⟨rfl, Monitor_decision.2.1 (exampleDriver exampleConfig) 0 rfl⟩

/-! ## The driver: `Output` -/

theorem Ev_chain (s a b c z m q d i : Bool) (t : Nat) :
    Ev.or (Ev.or (Ev.or (Ev.or (Ev.or
      (Ev.const s)
      (Ev.and (Ev.or (Ev.const a) (Ev.const b)) (Ev.or (Ev.const z) (some (m, [])))))
      (Ev.and (Ev.const c) (Ev.or (Ev.const z) (Ev.or (some (m, [])) (some (q, [t]))))))
      (Ev.and (Ev.const c) (Ev.or (Ev.const z) (some (m, [])))))
      (Ev.and (Ev.const d) (Ev.or (Ev.const z) (some (m, [])))))
      (Ev.const i)
    = some (s || ((a || b) && (z || m)) || (c && (z || (m || q))) || (d && (z || m)) || i,
        if (!s && !((a || b) && (z || m)) && c && !z && !m) then [t] else []) := by
  cases s <;> cases a <;> cases b <;> cases c <;> cases z <;> cases m <;> cases q <;>
    cases d <;> cases i <;> rfl

theorem output_files_eq (config : CConfig) (StopCalc : Bool) (TimeIter : Nat)
    (hf : 0 < config.Wrt_Sol_Freq_DualTime) :
    output_files config StopCalc TimeIter
      = some (StopCalc
          || ((decide (config.Time_Marching = ENUM_TIME_MARCHING.DT_STEPPING_1ST)
                || decide (config.Time_Marching = ENUM_TIME_MARCHING.TIME_STEPPING))
              && (decide (TimeIter = 0)
                || decide (TimeIter % config.Wrt_Sol_Freq_DualTime = 0)))
          || (decide (config.Time_Marching = ENUM_TIME_MARCHING.DT_STEPPING_2ND)
              && (decide (TimeIter = 0)
                || (decide (TimeIter % config.Wrt_Sol_Freq_DualTime = 0)
                  || decide (prevIter TimeIter % config.Wrt_Sol_Freq_DualTime = 0))))
          || (config.Time_Domain
              && (decide (TimeIter = 0)
                || decide (TimeIter % config.Wrt_Sol_Freq_DualTime = 0)))
          || config.Wrt_InletFile,
        if (!StopCalc
            && !((decide (config.Time_Marching = ENUM_TIME_MARCHING.DT_STEPPING_1ST)
                  || decide (config.Time_Marching = ENUM_TIME_MARCHING.TIME_STEPPING))
                && (decide (TimeIter = 0)
                  || decide (TimeIter % config.Wrt_Sol_Freq_DualTime = 0)))
            && decide (config.Time_Marching = ENUM_TIME_MARCHING.DT_STEPPING_2ND)
            && !decide (TimeIter = 0)
            && !decide (TimeIter % config.Wrt_Sol_Freq_DualTime = 0))
        then [TimeIter] else []) := by
  have hf0 : config.Wrt_Sol_Freq_DualTime ≠ 0 := by omega
  simp only [output_files, modIsZero, prevModIsZero, if_neg hf0]
  exact Ev_chain _ _ _ _ _ _ _ _ _ _

/-- C5: for every iteration index and every configuration with a positive write frequency
`f`, the condition of `Output` is defined and true exactly when one of these holds:
`StopCalc`; the scheme is first-order dual time or time stepping and (`iter = 0` or
`iter mod f = 0`); the scheme is second-order dual time and (`iter = 0` or `iter mod f = 0`
or `(iter-1) mod f = 0`); time-domain is enabled and (`iter = 0` or `iter mod f = 0`); an
inlet-profile template must be written.  The term `iter-1` is only computed at `iter >= 1`,
where it does not wrap around. -/
theorem output_files_decision (config : CConfig) (StopCalc : Bool) (TimeIter : Nat)
    (hf : 0 < config.Wrt_Sol_Freq_DualTime) :
    ∃ b log, output_files config StopCalc TimeIter = some (b, log) ∧
      (b = true ↔
        (StopCalc = true ∨
         ((config.Time_Marching = ENUM_TIME_MARCHING.DT_STEPPING_1ST ∨
            config.Time_Marching = ENUM_TIME_MARCHING.TIME_STEPPING) ∧
           (TimeIter = 0 ∨ TimeIter % config.Wrt_Sol_Freq_DualTime = 0)) ∨
         (config.Time_Marching = ENUM_TIME_MARCHING.DT_STEPPING_2ND ∧
           (TimeIter = 0 ∨ TimeIter % config.Wrt_Sol_Freq_DualTime = 0 ∨
             (1 ≤ TimeIter ∧ (TimeIter - 1) % config.Wrt_Sol_Freq_DualTime = 0))) ∨
         (config.Time_Domain = true ∧
           (TimeIter = 0 ∨ TimeIter % config.Wrt_Sol_Freq_DualTime = 0)) ∨
         config.Wrt_InletFile = true)) ∧
      (∀ t ∈ log, 1 ≤ t ∧ prevIter t = t - 1) := by
  refine ⟨_, _, output_files_eq config StopCalc TimeIter hf, ?_, ?_⟩
  · by_cases h0 : TimeIter = 0
    · simp [h0, or_assoc]
    · have h1 : 1 ≤ TimeIter := by omega
      simp [h0, h1, prevIter, or_assoc]
  · intro t ht
    split at ht
    · rename_i hc
      simp only [List.mem_singleton] at ht
      subst ht
      have h0 : ¬ t = 0 := by
        intro h
        simp [h] at hc
      exact ⟨by omega, by simp [prevIter, h0]⟩
    · simp at ht

/-- Witness for `output_files_decision`: second-order dual time stepping with write
frequency 5 at iteration 6, where `iter-1` is computed. -/
theorem output_files_decision_witness :
    0 < ({ exampleConfig with Time_Marching := ENUM_TIME_MARCHING.DT_STEPPING_2ND } :
      CConfig).Wrt_Sol_Freq_DualTime ∧
    ∃ b log,
      output_files { exampleConfig with Time_Marching := ENUM_TIME_MARCHING.DT_STEPPING_2ND }
        false 6 = some (b, log) ∧
      (b = true ↔
        (false = true ∨
         ((ENUM_TIME_MARCHING.DT_STEPPING_2ND = ENUM_TIME_MARCHING.DT_STEPPING_1ST ∨
            ENUM_TIME_MARCHING.DT_STEPPING_2ND = ENUM_TIME_MARCHING.TIME_STEPPING) ∧
           (6 = 0 ∨ 6 % 5 = 0)) ∨
         (ENUM_TIME_MARCHING.DT_STEPPING_2ND = ENUM_TIME_MARCHING.DT_STEPPING_2ND ∧
           (6 = 0 ∨ 6 % 5 = 0 ∨ (1 ≤ 6 ∧ (6 - 1) % 5 = 0))) ∨
         (false = true ∧ (6 = 0 ∨ 6 % 5 = 0)) ∨
         false = true)) ∧
      (∀ t ∈ log, 1 ≤ t ∧ prevIter t = t - 1) :=
  ⟨by decide,
    output_files_decision { exampleConfig with Time_Marching := ENUM_TIME_MARCHING.DT_STEPPING_2ND }
      false 6 (by decide)⟩

theorem Output_eq (d : CSinglezoneDriver) (TimeIter : Nat)
    (hf : 0 < d.config.Wrt_Sol_Freq_DualTime) :
    ∃ b log, output_files d.config d.StopCalc TimeIter = some (b, log) ∧
      Output d TimeIter = some
        (if b && d.config.Wrt_Output then
          { d with
            calls := d.calls ++ (List.range d.nInst).flatMap (writeInstance d.config)
            OutputCount := d.OutputCount + 1 }
        else d) := by
  refine ⟨_, _, output_files_eq d.config d.StopCalc TimeIter hf, ?_⟩
  simp only [Output, output_files_eq d.config d.StopCalc TimeIter hf]
  split <;> rfl

theorem Output_frame (d : CSinglezoneDriver) (TimeIter : Nat)
    (hf : 0 < d.config.Wrt_Sol_Freq_DualTime) :
    ∃ d', Output d TimeIter = some d' ∧ d'.config = d.config ∧ d'.output = d.output ∧
      d'.TimeIter = d.TimeIter ∧ d'.StopCalc = d.StopCalc ∧ d'.nInst = d.nInst ∧
      d'.trace = d.trace := by
  obtain ⟨b, log, _, h⟩ := Output_eq d TimeIter hf
  refine ⟨_, h, ?_⟩
  split <;> simp

theorem performsWrite_of_true (d : CSinglezoneDriver) :
    PerformsWrite d
      { d with
        calls := d.calls ++ (List.range d.nInst).flatMap (writeInstance d.config)
        OutputCount := d.OutputCount + 1 } := by
  refine ⟨rfl, rfl, ?_⟩
  intro iInst hi
  simp only [List.mem_append, List.mem_flatMap, List.mem_range]
  right
  refine ⟨iInst, hi, ?_⟩
  simp [writeInstance]

/-- C10, as the code has it: with write frequency 5 and writing not disabled in the
configuration, `Output` performs a write on the iteration on which `StopCalc` is true,
whatever that iteration's value modulo 5, and it performs a write at every iteration that
is 0 or a multiple of 5 when the time-marching scheme is time stepping or dual time
stepping of first or second order, or when time-domain is enabled. -/
theorem Output_cadence (d : CSinglezoneDriver) (TimeIter : Nat)
    (hf : d.config.Wrt_Sol_Freq_DualTime = 5) (hw : d.config.Wrt_Output = true) :
    (d.StopCalc = true → ∃ d', Output d TimeIter = some d' ∧ PerformsWrite d d') ∧
    ((d.config.Time_Marching = ENUM_TIME_MARCHING.TIME_STEPPING ∨
        d.config.Time_Marching = ENUM_TIME_MARCHING.DT_STEPPING_1ST ∨
        d.config.Time_Marching = ENUM_TIME_MARCHING.DT_STEPPING_2ND ∨
        d.config.Time_Domain = true) →
      TimeIter % 5 = 0 → ∃ d', Output d TimeIter = some d' ∧ PerformsWrite d d') := by
  have hpos : 0 < d.config.Wrt_Sol_Freq_DualTime := by omega
  obtain ⟨b, log, hb, hout⟩ := Output_eq d TimeIter hpos
  rw [output_files_eq d.config d.StopCalc TimeIter hpos] at hb
  have hval := congrArg Prod.fst (Option.some.inj hb)
  simp only [hf] at hval
  constructor
  · intro hs
    have hbt : b = true := by
      rw [← hval, hs]
      simp
    refine ⟨_, hout, ?_⟩
    rw [hbt, hw]
    exact performsWrite_of_true d
  · intro hsch hmod
    have hbt : b = true := by
      rw [← hval]
      rcases hsch with h | h | h | h <;> simp [h, hmod]
    refine ⟨_, hout, ?_⟩
    rw [hbt, hw]
    exact performsWrite_of_true d

/-- Witness for `Output_cadence`: the example driver after a stop decision, at iteration 7. -/
theorem Output_cadence_witness :
    ({ exampleDriver exampleConfig with StopCalc := true } :
      CSinglezoneDriver).config.Wrt_Sol_Freq_DualTime = 5 ∧
    ({ exampleDriver exampleConfig with StopCalc := true } :
      CSinglezoneDriver).config.Wrt_Output = true ∧
    ∃ d', Output { exampleDriver exampleConfig with StopCalc := true } 7 = some d' ∧
      PerformsWrite { exampleDriver exampleConfig with StopCalc := true } d' :=
  ⟨rfl, rfl,
    (Output_cadence { exampleDriver exampleConfig with StopCalc := true } 7 rfl rfl).1 rfl⟩

/-- C10 fails as stated.  With write frequency 5 and writing enabled, a steady run outside
the time domain that has not stopped writes nothing at iteration 5; and with writing
disabled in the configuration nothing is written on the stop iteration either. -/
theorem Output_skips_write :
    exampleConfig.Wrt_Sol_Freq_DualTime = 5 ∧ 5 % 5 = 0 ∧
    Output (exampleDriver exampleConfig) 5 = some (exampleDriver exampleConfig) ∧
    ¬ PerformsWrite (exampleDriver exampleConfig) (exampleDriver exampleConfig) ∧
    Output { exampleDriver { exampleConfig with Wrt_Output := false } with StopCalc := true } 7
      = some { exampleDriver { exampleConfig with Wrt_Output := false } with StopCalc := true } ∧
    ¬ PerformsWrite
        { exampleDriver { exampleConfig with Wrt_Output := false } with StopCalc := true }
        { exampleDriver { exampleConfig with Wrt_Output := false } with StopCalc := true } := by
  refine ⟨rfl, rfl, rfl, ?_, rfl, ?_⟩
  · intro h
    have := h.1
    simp [exampleDriver] at this
  · intro h
    have := h.1
    simp [exampleDriver] at this

/-! ## The driver: `StartSolver` -/

theorem stopDecision_config (c : CConfig) (n : Nat) (r : SolveResult) (t : Nat) :
    stopDecision { c with InnerIter := n } r t = stopDecision c r t := rfl

theorem cycle_spec (solve : Nat → SolveResult) (d : CSinglezoneDriver)
    (hf : 0 < d.config.Wrt_Sol_Freq_DualTime) :
    ∃ d', cycle solve d = some d' ∧
      d'.config = { d.config with InnerIter := (solve d.TimeIter).InnerIter } ∧
      d'.TimeIter = d.TimeIter ∧
      d'.StopCalc = stopDecision d.config (solve d.TimeIter) d.TimeIter ∧
      d'.trace = d.trace
        ++ cycleActions d.TimeIter (stopDecision d.config (solve d.TimeIter) d.TimeIter) := by
  simp only [cycle, Monitor_snd, Monitor_fst]
  obtain ⟨d', h, hc, _, ht, hs, _, htr⟩ := Output_frame
    ({ d with
        config := { d.config with InnerIter := (solve d.TimeIter).InnerIter }
        output := { Convergence := false, CUR_TIME := (solve d.TimeIter).CUR_TIME }
        StopCalc := stopDecision d.config (solve d.TimeIter) d.TimeIter
        trace := d.trace ++ [Action.Preprocess d.TimeIter] ++ [Action.Run]
          ++ [Action.Postprocess] ++ [Action.Update]
          ++ [Action.Monitor d.TimeIter
                (stopDecision d.config (solve d.TimeIter) d.TimeIter)] } : CSinglezoneDriver)
    d.TimeIter hf
  refine ⟨{ d' with trace := d'.trace ++ [Action.Output d.TimeIter] }, ?_, hc, ht, hs, ?_⟩
  · simp only [stopDecision_config] at h ⊢
    rw [h]
  · simp only [htr, cycleActions]
    simp

/-- The loop of `StartSolver` ends when it has fuel for `nTime_Iter - TimeIter + 1`
evaluations of its condition, and it ends in one of the two ways; in the time domain,
entered below `nTime_Iter`, it ends through `break`. -/
theorem loop_spec (solve : Nat → SolveResult) :
    ∀ (n : Nat) (d : CSinglezoneDriver) (fuel : Nat),
      0 < d.config.Wrt_Sol_Freq_DualTime → d.config.nTime_Iter - d.TimeIter = n → n < fuel →
      ∃ final, StartSolver_loop solve fuel d = Except.ok final ∧
        (EndsByStop d final ∨ EndsByGuard d final) ∧
        (d.config.Time_Domain = true → d.TimeIter < d.config.nTime_Iter →
          EndsByStop d final) := by
  intro n
  induction n with
  | zero =>
    intro d fuel _ hn hfuel
    cases fuel with
    | zero => omega
    | succ f =>
      have hlt : ¬ d.TimeIter < d.config.nTime_Iter := by omega
      refine ⟨d, by simp [StartSolver_loop, hlt], Or.inr (Or.inl ⟨rfl, by omega⟩), ?_⟩
      intro _ h
      exact absurd h hlt
  | succ n ih =>
    intro d fuel hf hn hfuel
    cases fuel with
    | zero => omega
    | succ f =>
      have hlt : d.TimeIter < d.config.nTime_Iter := by omega
      obtain ⟨d', hcyc, hc, ht, hs, htr⟩ := cycle_spec solve d hf
      have hnT : d'.config.nTime_Iter = d.config.nTime_Iter := by rw [hc]
      have hTD : d'.config.Time_Domain = d.config.Time_Domain := by rw [hc]
      have hfr : d'.config.Wrt_Sol_Freq_DualTime = d.config.Wrt_Sol_Freq_DualTime := by rw [hc]
      by_cases hstop : d'.StopCalc = true
      · have hend : EndsByStop d d' := by
          refine ⟨[Action.Preprocess d.TimeIter, Action.Run, Action.Postprocess, Action.Update],
            d.TimeIter, ?_, ht, hstop⟩
          rw [htr, ← hs, hstop]
          simp [cycleActions]
        refine ⟨d', by simp [StartSolver_loop, hlt, hcyc, hstop], Or.inl hend, fun _ _ => hend⟩
      · have hfalse : d'.StopCalc = false := by simpa using hstop
        obtain ⟨final, hfin, hway, htd⟩ := ih
          { d' with TimeIter := d'.TimeIter + 1, trace := d'.trace ++ [Action.Increment] } f
          (by simpa [hfr] using hf) (by simp only [hnT, ht]; omega) (by omega)
        have hpre : d'.trace ++ [Action.Increment]
            = d.trace ++ [Action.Preprocess d.TimeIter, Action.Run, Action.Postprocess,
                Action.Update]
              ++ [Action.Monitor d.TimeIter false, Action.Output d.TimeIter,
                Action.Increment] := by
          rw [htr, ← hs, hfalse]
          simp [cycleActions]
        have hstop_lift : EndsByStop
            { d' with TimeIter := d'.TimeIter + 1, trace := d'.trace ++ [Action.Increment] } final
            → EndsByStop d final := by
          rintro ⟨pre, k, h1, h2, h3⟩
          refine ⟨[Action.Preprocess d.TimeIter, Action.Run, Action.Postprocess, Action.Update]
            ++ [Action.Monitor d.TimeIter false, Action.Output d.TimeIter, Action.Increment]
            ++ pre, k, ?_, h2, h3⟩
          rw [h1]
          simp only [hpre]
          simp
        have hrun : StartSolver_loop solve (f + 1) d = Except.ok final := by
          rw [StartSolver_loop, if_pos hlt, hcyc]
          simp only []
          rw [if_neg hstop]
          exact hfin
        refine ⟨final, hrun, ?_, ?_⟩
        · rcases hway with h | h | ⟨hge, pre, k, h1, h2⟩
          · exact Or.inl (hstop_lift h)
          · obtain ⟨heq, hge⟩ := h
            refine Or.inr (Or.inr ⟨?_, [Action.Preprocess d.TimeIter, Action.Run,
              Action.Postprocess, Action.Update], d.TimeIter, ?_, ?_⟩)
            · rw [heq]; exact hge
            · rw [heq]; exact hpre
            · rw [heq]; simp [ht]
          · refine Or.inr (Or.inr ⟨hge, [Action.Preprocess d.TimeIter, Action.Run,
              Action.Postprocess, Action.Update]
              ++ [Action.Monitor d.TimeIter false, Action.Output d.TimeIter, Action.Increment]
              ++ pre, k, ?_, h2⟩)
            rw [h1]
            simp only [hpre]
            simp
        · intro hdom _
          apply hstop_lift
          apply htd
          · simpa [hTD] using hdom
          · have hsd : stopDecision d.config (solve d.TimeIter) d.TimeIter = false := by
              rw [← hs]; exact hfalse
            simp only [stopDecision, hdom, if_true, Bool.or_eq_false_iff,
              decide_eq_false_iff_not] at hsd
            simp only [hnT, ht]
            omega

/-- C8, as the code has it: with a positive write frequency the driver loop of
`StartSolver` always ends, and it is left in one of two ways.  Either through a stop
decision: the last steps were a `Monitor` call that returned `stop == true` and that
cycle's `Output`, and the iteration counter was not incremented after that `Monitor` call.
Or through the loop condition `TimeIter < nTime_Iter` being false: then either no cycle
was executed, or the last `Monitor` call returned `false` and the counter was incremented
after it.  In time-domain mode, entered below `nTime_Iter`, the loop is left only through
a stop decision. -/
theorem StartSolver_ends (solve : Nat → SolveResult) (d : CSinglezoneDriver)
    (hf : 0 < d.config.Wrt_Sol_Freq_DualTime) :
    ∃ final, StartSolver solve d = Except.ok final ∧
      (EndsByStop d final ∨ EndsByGuard { d with TimeIter := startIter d } final) ∧
      (d.config.Time_Domain = true → startIter d < d.config.nTime_Iter →
        EndsByStop d final) := by
  obtain ⟨final, hrun, hway, htd⟩ := loop_spec solve
    (d.config.nTime_Iter - startIter d) { d with TimeIter := startIter d }
    (d.config.nTime_Iter - startIter d + 1) hf rfl (by omega)
  refine ⟨final, hrun, ?_, ?_⟩
  · rcases hway with h | h
    · exact Or.inl h
    · exact Or.inr h
  · intro h1 h2
    exact htd h1 h2

/-- Witness for `StartSolver_ends`: the example driver in the time domain with five time
iterations. -/
theorem StartSolver_ends_witness :
    0 < (exampleDriver { exampleConfig with Time_Domain := true, nTime_Iter := 5 }
      ).config.Wrt_Sol_Freq_DualTime ∧
    ∃ final,
      StartSolver exampleSolve
        (exampleDriver { exampleConfig with Time_Domain := true, nTime_Iter := 5 })
        = Except.ok final ∧
      (EndsByStop (exampleDriver { exampleConfig with Time_Domain := true, nTime_Iter := 5 })
          final ∨
        EndsByGuard
          { exampleDriver { exampleConfig with Time_Domain := true, nTime_Iter := 5 } with
            TimeIter := startIter
              (exampleDriver { exampleConfig with Time_Domain := true, nTime_Iter := 5 }) }
          final) ∧
      ((exampleDriver { exampleConfig with Time_Domain := true, nTime_Iter := 5 }
          ).config.Time_Domain = true →
        startIter (exampleDriver { exampleConfig with Time_Domain := true, nTime_Iter := 5 })
          < (exampleDriver { exampleConfig with Time_Domain := true, nTime_Iter := 5 }
            ).config.nTime_Iter →
        EndsByStop (exampleDriver { exampleConfig with Time_Domain := true, nTime_Iter := 5 })
          final) :=
  ⟨by decide,
    StartSolver_ends exampleSolve
      (exampleDriver { exampleConfig with Time_Domain := true, nTime_Iter := 5 }) (by decide)⟩

/-- C8 fails as stated.  With `nTime_Iter = 0` the loop is left at once, without any
`Monitor` call.  With a steady configuration, `nTime_Iter = 2` and a solver that does not
converge, both `Monitor` calls return `false` and the loop is left through its condition,
after the counter was incremented to 2. -/
theorem StartSolver_ends_without_stop :
    (∃ final,
      StartSolver exampleSolve (exampleDriver { exampleConfig with nTime_Iter := 0 })
        = Except.ok final ∧
      final.trace = [] ∧
      ¬ EndsByStop (exampleDriver { exampleConfig with nTime_Iter := 0 }) final) ∧
    (∃ final,
      StartSolver exampleSolve (exampleDriver { exampleConfig with nTime_Iter := 2 })
        = Except.ok final ∧
      final.trace = cycleActions 0 false ++ [Action.Increment]
        ++ cycleActions 1 false ++ [Action.Increment] ∧
      final.TimeIter = 2 ∧
      ¬ EndsByStop (exampleDriver { exampleConfig with nTime_Iter := 2 }) final) := by
  refine ⟨⟨_, rfl, rfl, ?_⟩, ⟨_, rfl, rfl, rfl, ?_⟩⟩
  · rintro ⟨pre, k, _, _, h⟩
    exact absurd h (by decide)
  · rintro ⟨pre, k, _, _, h⟩
    exact absurd h (by decide)

theorem cycleCount_cyclesFrom (m : Nat) : ∀ t : Nat, cycleCount (cyclesFrom t m) = m + 1 := by
  induction m with
  | zero => intro t; rfl
  | succ m ih =>
    intro t
    have := ih (t + 1)
    simp only [cycleCount] at this ⊢
    simp only [cyclesFrom, cycleActions, List.filter_append, List.length_append, this]
    simp only [List.filter, List.length_cons, List.length_nil]
    omega

/-- In the time domain the loop runs the cycles `t, ..., t + m`, where `t + m` is the
first iteration at which `Monitor` decides to stop. -/
theorem loop_time_domain (solve : Nat → SolveResult) :
    ∀ (m : Nat) (d : CSinglezoneDriver) (fuel : Nat),
      0 < d.config.Wrt_Sol_Freq_DualTime → d.TimeIter + m < d.config.nTime_Iter →
      (∀ j, d.TimeIter ≤ j → j < d.TimeIter + m → stopDecision d.config (solve j) j = false) →
      stopDecision d.config (solve (d.TimeIter + m)) (d.TimeIter + m) = true →
      d.config.nTime_Iter - d.TimeIter < fuel →
      ∃ final, StartSolver_loop solve fuel d = Except.ok final ∧
        final.TimeIter = d.TimeIter + m ∧ final.StopCalc = true ∧
        final.trace = d.trace ++ cyclesFrom d.TimeIter m := by
  intro m
  induction m with
  | zero =>
    intro d fuel hf hlt _ hstop hfuel
    cases fuel with
    | zero => omega
    | succ f =>
      obtain ⟨d', hcyc, _, ht, hs, htr⟩ := cycle_spec solve d hf
      have hlt' : d.TimeIter < d.config.nTime_Iter := by omega
      have hst : d'.StopCalc = true := by rw [hs]; simpa using hstop
      refine ⟨d', ?_, by simpa using ht, hst, ?_⟩
      · rw [StartSolver_loop, if_pos hlt', hcyc]
        simp only []
        rw [if_pos hst]
      · rw [htr, ← hs, hst]
        rfl
  | succ m ih =>
    intro d fuel hf hlt hbefore hstop hfuel
    cases fuel with
    | zero => omega
    | succ f =>
      obtain ⟨d', hcyc, hc, ht, hs, htr⟩ := cycle_spec solve d hf
      have hlt' : d.TimeIter < d.config.nTime_Iter := by omega
      have hst : d'.StopCalc = false := by
        rw [hs]; exact hbefore d.TimeIter (Nat.le_refl _) (by omega)
      have hne : ¬ d'.StopCalc = true := by simp [hst]
      have hsd : ∀ r t, stopDecision d'.config r t = stopDecision d.config r t := by
        intro r t; rw [hc]; rfl
      obtain ⟨final, hfin, h1, h2, h3⟩ := ih
        { d' with TimeIter := d'.TimeIter + 1, trace := d'.trace ++ [Action.Increment] } f
        (by rw [hc]; exact hf)
        (by simp only [hc, ht]; omega)
        (by
          intro j hj1 hj2
          simp only [ht] at hj1 hj2
          rw [hsd]
          exact hbefore j (by omega) (by omega))
        (by
          simp only [ht]
          rw [hsd]
          have : d.TimeIter + 1 + m = d.TimeIter + (m + 1) := by omega
          rw [this]
          exact hstop)
        (by simp only [hc, ht]; omega)
      refine ⟨final, ?_, ?_, h2, ?_⟩
      · rw [StartSolver_loop, if_pos hlt', hcyc]
        simp only []
        rw [if_neg hne]
        exact hfin
      · rw [h1]
        simp only [ht]
        omega
      · rw [h3]
        simp only [ht, htr, ← hs, hst, cyclesFrom, List.append_assoc]

theorem stopDecision_time_domain (c : CConfig) (r : SolveResult) (t : Nat)
    (h : c.Time_Domain = true) :
    stopDecision c r t = true ↔ (c.Max_Time ≤ r.CUR_TIME ∨ c.nTime_Iter ≤ t + 1) := by
  simp [stopDecision, h]

theorem StartSolver_time_domain_run (solve : Nat → SolveResult) (d : CSinglezoneDriver) (k : Nat)
    (htd : d.config.Time_Domain = true) (hf : 0 < d.config.Wrt_Sol_Freq_DualTime)
    (ht0 : startIter d < d.config.nTime_Iter) (hk : startIter d ≤ k)
    (hstop : d.config.Max_Time ≤ (solve k).CUR_TIME ∨ d.config.nTime_Iter ≤ k + 1)
    (hmin : ∀ j, startIter d ≤ j → j < k →
      ¬ (d.config.Max_Time ≤ (solve j).CUR_TIME ∨ d.config.nTime_Iter ≤ j + 1)) :
    ∃ final, StartSolver solve d = Except.ok final ∧ final.TimeIter = k ∧
      final.StopCalc = true ∧
      final.trace = d.trace ++ cyclesFrom (startIter d) (k - startIter d) ∧
      cycleCount (cyclesFrom (startIter d) (k - startIter d)) = k - startIter d + 1 := by
  have hklt : k < d.config.nTime_Iter := by
    by_contra hc
    exact hmin (d.config.nTime_Iter - 1) (by omega) (by omega) (Or.inr (by omega))
  have hkeq : startIter d + (k - startIter d) = k := by omega
  obtain ⟨final, hrun, h1, h2, h3⟩ := loop_time_domain solve (k - startIter d)
    { d with TimeIter := startIter d } (d.config.nTime_Iter - startIter d + 1) hf
    (by simp only [hkeq]; exact hklt)
    (by
      intro j hj1 hj2
      have := hmin j hj1 (by simp only [hkeq] at hj2; exact hj2)
      rw [← stopDecision_time_domain d.config (solve j) j htd] at this
      simpa using this)
    (by
      simp only [hkeq]
      exact (stopDecision_time_domain d.config (solve k) k htd).mpr hstop)
    (by simp only; omega)
  refine ⟨final, hrun, ?_, h2, h3, cycleCount_cyclesFrom _ _⟩
  rw [h1]
  exact hkeq

/-- C9: in time-domain mode the driver loop entered at iteration `t0 < nTime_Iter` runs
the cycles `t0, t0+1, ..., k` and then stops, `k` being the least iteration from `t0` on at
which the current physical time is at least `Max_Time` or `k + 1 >= nTime_Iter`; such a `k`
exists; the loop performs `k - t0 + 1` cycles, each one Preprocess, Run, Postprocess,
Update, Monitor, Output in this order, and ends with `TimeIter = k`.  With `nTime_Iter = 5`,
`Max_Time = 1`, `t0 = 0` and the physical time after the step of iteration `j` being
`(j+1) * 0.3`, `Monitor` first reports stop at `TimeIter = 3` (time `1.2`), although
`3 + 1 = 4 < 5`.  The write frequency is positive, so that `Output` is defined. -/
theorem StartSolver_time_domain :
    (∀ (solve : Nat → SolveResult) (d : CSinglezoneDriver) (k : Nat),
      d.config.Time_Domain = true → 0 < d.config.Wrt_Sol_Freq_DualTime →
      startIter d < d.config.nTime_Iter → startIter d ≤ k →
      (d.config.Max_Time ≤ (solve k).CUR_TIME ∨ d.config.nTime_Iter ≤ k + 1) →
      (∀ j, startIter d ≤ j → j < k →
        ¬ (d.config.Max_Time ≤ (solve j).CUR_TIME ∨ d.config.nTime_Iter ≤ j + 1)) →
      ∃ final, StartSolver solve d = Except.ok final ∧ final.TimeIter = k ∧
        final.StopCalc = true ∧
        final.trace = d.trace ++ cyclesFrom (startIter d) (k - startIter d) ∧
        cycleCount (cyclesFrom (startIter d) (k - startIter d)) = k - startIter d + 1) ∧
    (∀ (solve : Nat → SolveResult) (d : CSinglezoneDriver),
      startIter d < d.config.nTime_Iter →
      ∃ k, startIter d ≤ k ∧ k < d.config.nTime_Iter ∧
        (d.config.Max_Time ≤ (solve k).CUR_TIME ∨ d.config.nTime_Iter ≤ k + 1) ∧
        ∀ j, startIter d ≤ j → j < k →
          ¬ (d.config.Max_Time ≤ (solve j).CUR_TIME ∨ d.config.nTime_Iter ≤ j + 1)) ∧
    (∃ final,
      StartSolver exampleSolve
        (exampleDriver { exampleConfig with Time_Domain := true, nTime_Iter := 5, Max_Time := 1 })
        = Except.ok final ∧
      final.TimeIter = 3 ∧ final.StopCalc = true ∧ final.trace = cyclesFrom 0 3 ∧
      cycleCount final.trace = 4 ∧
      Action.Monitor 3 true ∈ final.trace ∧
      (∀ j, j < 3 → Action.Monitor j false ∈ final.trace) ∧
      (exampleSolve 3).CUR_TIME = 12 / 10 ∧ 3 + 1 < 5) := by
  refine ⟨StartSolver_time_domain_run, ?_, ?_⟩
  · intro solve d ht0
    classical
    have hex : ∃ k, startIter d ≤ k ∧
        (d.config.Max_Time ≤ (solve k).CUR_TIME ∨ d.config.nTime_Iter ≤ k + 1) :=
      ⟨d.config.nTime_Iter - 1, by omega, Or.inr (by omega)⟩
    refine ⟨Nat.find hex, (Nat.find_spec hex).1, ?_, (Nat.find_spec hex).2, ?_⟩
    · have := Nat.find_min' hex
        (⟨by omega, Or.inr (by omega)⟩ : startIter d ≤ d.config.nTime_Iter - 1 ∧
          (d.config.Max_Time ≤ (solve (d.config.nTime_Iter - 1)).CUR_TIME ∨
            d.config.nTime_Iter ≤ d.config.nTime_Iter - 1 + 1))
      omega
    · intro j hj1 hj2 hj3
      exact Nat.find_min hex hj2 ⟨hj1, hj3⟩
  · obtain ⟨final, hrun, h1, h2, h3, h4⟩ := StartSolver_time_domain_run exampleSolve
      (exampleDriver { exampleConfig with Time_Domain := true, nTime_Iter := 5, Max_Time := 1 })
      3 rfl (by decide) (by decide) (by decide)
      (Or.inl (by norm_num [exampleDriver, exampleSolve]))
      (by
        intro j _ hj
        have hj' : j = 0 ∨ j = 1 ∨ j = 2 := by omega
        rcases hj' with h | h | h <;> subst h <;>
          norm_num [exampleDriver, exampleConfig, exampleSolve])
    have htrace : final.trace = cyclesFrom 0 3 := by
      rw [h3]
      rfl
    refine ⟨final, hrun, h1, h2, htrace, ?_, ?_, ?_, ?_, by decide⟩
    · rw [htrace]; exact cycleCount_cyclesFrom 3 0
    · rw [htrace]; decide
    · intro j hj
      rw [htrace]
      have hj' : j = 0 ∨ j = 1 ∨ j = 2 := by omega
      rcases hj' with h | h | h <;> subst h <;> decide
    · norm_num [exampleSolve]

/-- Witness for `StartSolver_time_domain`: the run of the example, five time iterations,
maximum time 1, time step `0.3`, which stops at iteration 3. -/
theorem StartSolver_time_domain_witness :
    (exampleDriver { exampleConfig with Time_Domain := true, nTime_Iter := 5, Max_Time := 1 }
      ).config.Time_Domain = true ∧
    startIter
        (exampleDriver { exampleConfig with Time_Domain := true, nTime_Iter := 5, Max_Time := 1 })
      < 5 ∧
    ∃ final,
      StartSolver exampleSolve
        (exampleDriver { exampleConfig with Time_Domain := true, nTime_Iter := 5, Max_Time := 1 })
        = Except.ok final ∧
      final.TimeIter = 3 ∧ final.StopCalc = true ∧
      final.trace =
        (exampleDriver { exampleConfig with Time_Domain := true, nTime_Iter := 5, Max_Time := 1 }
          ).trace ++ cyclesFrom
            (startIter (exampleDriver
              { exampleConfig with Time_Domain := true, nTime_Iter := 5, Max_Time := 1 }))
            (3 - startIter (exampleDriver
              { exampleConfig with Time_Domain := true, nTime_Iter := 5, Max_Time := 1 })) ∧
      cycleCount (cyclesFrom
          (startIter (exampleDriver
            { exampleConfig with Time_Domain := true, nTime_Iter := 5, Max_Time := 1 }))
          (3 - startIter (exampleDriver
            { exampleConfig with Time_Domain := true, nTime_Iter := 5, Max_Time := 1 })))
        = 3 - startIter (exampleDriver
            { exampleConfig with Time_Domain := true, nTime_Iter := 5, Max_Time := 1 }) + 1 :=
  ⟨rfl, by decide,
    StartSolver_time_domain.1 exampleSolve
      (exampleDriver { exampleConfig with Time_Domain := true, nTime_Iter := 5, Max_Time := 1 })
      3 rfl (by decide) (by decide) (by decide)
      (Or.inl (by norm_num [exampleDriver, exampleSolve]))
      (by
        intro j _ hj
        have hj' : j = 0 ∨ j = 1 ∨ j = 2 := by omega
        rcases hj' with h | h | h <;> subst h <;>
          norm_num [exampleDriver, exampleConfig, exampleSolve])⟩

/-! ## The driver: what `Monitor` leaves behind -/

/-- C16: after every call to `Monitor`, under either policy and whatever the decision, the
convergence flag is false, and the value `Monitor` returns is the `StopCalc` value stored
in the driver; nothing else of the driver state changes.  In a cycle of `StartSolver` the
`Output` call that follows reads this stored value. -/
theorem Monitor_leaves_state :
    (∀ (d : CSinglezoneDriver) (TimeIter : Nat),
      (Monitor d TimeIter).1.output.Convergence = false ∧
      (Monitor d TimeIter).2 = (Monitor d TimeIter).1.StopCalc ∧
      (Monitor d TimeIter).1 =
        { d with
          StopCalc := (Monitor d TimeIter).2
          output := { d.output with Convergence := false } }) ∧
    (∀ (solve : Nat → SolveResult) (d : CSinglezoneDriver),
      (beforeOutput solve d).StopCalc = (Monitor (beforeMonitor solve d) d.TimeIter).2 ∧
      (beforeOutput solve d).output.Convergence = false ∧
      cycle solve d =
        (Output (beforeOutput solve d) d.TimeIter).map
          (fun d' => { d' with trace := d'.trace ++ [Action.Output d.TimeIter] })) := by
  refine ⟨?_, ?_⟩
  · intro d t
    refine ⟨?_, rfl, ?_⟩
    · rw [Monitor_fst]
    · rw [Monitor_snd, Monitor_fst]
  · intro solve d
    refine ⟨rfl, ?_, ?_⟩
    · simp only [beforeOutput]
      rw [Monitor_fst]
    · simp only [cycle, beforeOutput, beforeMonitor]
      cases Output _ d.TimeIter <;> rfl

/-! ## The driver: `Preprocess` -/

theorem mem_Preprocess_initial (HAVE_MPI : Bool) (config : CConfig) (opts : PreprocessOptions)
    (TimeIter t : Nat) :
    PreprocessCall.SetInitialCondition t ∈ Preprocess HAVE_MPI config opts TimeIter ↔
      (isFlowKind opts.Kind_Solver = true ∧ t = TimeIter) := by
  simp only [Preprocess, List.mem_append, List.mem_cons, List.mem_singleton]
  constructor
  · intro h
    rcases h with ((((((h | h) | h) | h) | h) | h) | h)
    · cases h
    · rcases h with h | h
      · cases h
      · simp at h
    · split at h <;> simp at h
    · split at h
      · rename_i hk
        simp at h
        exact ⟨hk, h⟩
      · simp at h
    · split at h <;> simp at h
    · split at h <;> simp at h
    · split at h <;> simp at h
  · rintro ⟨hk, rfl⟩
    left; left; left; right
    simp [hk]

/-- C17, as the code has it: `Preprocess` invokes the initial condition of the flow solver
exactly when the solver kind is one of the flow kinds (Euler, Navier-Stokes, RANS and
their incompressible variants), and then once, on every iteration, passing the iteration
index; for every solver kind that is not a flow kind it does not invoke it. -/
theorem Preprocess_initial_condition (HAVE_MPI : Bool) (config : CConfig)
    (opts : PreprocessOptions) (TimeIter : Nat) :
    (isFlowKind opts.Kind_Solver = true ↔
      (opts.Kind_Solver = ENUM_SOLVER.EULER ∨ opts.Kind_Solver = ENUM_SOLVER.NAVIER_STOKES ∨
        opts.Kind_Solver = ENUM_SOLVER.RANS ∨ opts.Kind_Solver = ENUM_SOLVER.INC_EULER ∨
        opts.Kind_Solver = ENUM_SOLVER.INC_NAVIER_STOKES ∨
        opts.Kind_Solver = ENUM_SOLVER.INC_RANS)) ∧
    (isFlowKind opts.Kind_Solver = true →
      ((Preprocess HAVE_MPI config opts TimeIter).filter
        (fun c => decide (c = PreprocessCall.SetInitialCondition TimeIter))).length = 1) ∧
    (isFlowKind opts.Kind_Solver = false →
      ∀ t, PreprocessCall.SetInitialCondition t ∉ Preprocess HAVE_MPI config opts TimeIter) ∧
    (∀ t, PreprocessCall.SetInitialCondition t ∈ Preprocess HAVE_MPI config opts TimeIter →
      t = TimeIter) := by
  refine ⟨?_, ?_, ?_, ?_⟩
  · simp [isFlowKind, or_assoc]
  · intro hk
    cases HAVE_MPI <;> cases hp : opts.Predictor <;> cases hg : opts.Grid_Movement <;>
      by_cases htm : config.Time_Marching = ENUM_TIME_MARCHING.STEADY <;>
      simp [Preprocess, hk, hp, hg, htm, List.filter]
  · intro hk t hmem
    have := (mem_Preprocess_initial HAVE_MPI config opts TimeIter t).mp hmem
    rw [hk] at this
    cases this.1
  · intro t hmem
    exact ((mem_Preprocess_initial HAVE_MPI config opts TimeIter t).mp hmem).2

/-- Witness for `Preprocess_initial_condition`: a solver kind that is not a flow kind, at
iteration 0. -/
theorem Preprocess_initial_condition_witness :
    isFlowKind ({ exampleOptions with Kind_Solver := ENUM_SOLVER.HEAT_EQUATION_FVM } :
      PreprocessOptions).Kind_Solver = false ∧
    ∀ t, PreprocessCall.SetInitialCondition t ∉
      Preprocess true exampleConfig
        { exampleOptions with Kind_Solver := ENUM_SOLVER.HEAT_EQUATION_FVM } 0 :=
  ⟨rfl, (Preprocess_initial_condition true exampleConfig
    { exampleOptions with Kind_Solver := ENUM_SOLVER.HEAT_EQUATION_FVM } 0).2.2.1 rfl⟩

/-- C17 fails as stated: with an Euler solver `Preprocess` invokes the initial condition at
iteration 1, and at iteration 7, as it does at iteration 0. -/
theorem Preprocess_initial_condition_every_iteration :
    exampleOptions.Kind_Solver = ENUM_SOLVER.EULER ∧ 1 ≤ 1 ∧
    PreprocessCall.SetInitialCondition 1 ∈ Preprocess true exampleConfig exampleOptions 1 ∧
    PreprocessCall.SetInitialCondition 7 ∈ Preprocess true exampleConfig exampleOptions 7 ∧
    PreprocessCall.SetInitialCondition 0 ∈ Preprocess true exampleConfig exampleOptions 0 :=
  ⟨rfl, Nat.le_refl 1,
    (mem_Preprocess_initial true exampleConfig exampleOptions 1 1).mpr ⟨rfl, rfl⟩,
    (mem_Preprocess_initial true exampleConfig exampleOptions 7 7).mpr ⟨rfl, rfl⟩,
    (mem_Preprocess_initial true exampleConfig exampleOptions 0 0).mpr ⟨rfl, rfl⟩⟩

/-! ## The driver: the writer calls of `Output` -/

/-- C11: `Output` invokes writers exactly when its write decision is true and writing is
not disabled in the configuration (for a zone with at least one instance).  In that case,
for each instance `0 .. nInst-1` in increasing order it performs: load data, one restart
write (binary format if binary restart is configured, ASCII otherwise), then a volume write
if the volume flag is set, a surface write if the surface flag is set, a CSV surface write
if the CSV flag is set, then deallocation; and the output count increases by one.
Otherwise no writer is invoked and the output count is unchanged.  The write frequency is
positive, so that the write decision is defined. -/
theorem Output_invokes_writers (d : CSinglezoneDriver) (TimeIter : Nat)
    (hf : 0 < d.config.Wrt_Sol_Freq_DualTime) :
    ∃ b log d', output_files d.config d.StopCalc TimeIter = some (b, log) ∧
      Output d TimeIter = some d' ∧
      ((b = true ∧ d.config.Wrt_Output = true) →
        d'.calls = d.calls ++ (List.range d.nInst).flatMap (fun iInst =>
          [WriterCall.Load_Data iInst,
           WriterCall.SetVolume_Output iInst
             (if d.config.Wrt_Binary_Restart then ENUM_OUTPUT.SU2_RESTART_BINARY
              else ENUM_OUTPUT.SU2_RESTART_ASCII)]
          ++ (if d.config.Wrt_Vol_Sol then
                [WriterCall.SetVolume_Output iInst d.config.Output_FileFormat] else [])
          ++ (if d.config.Wrt_Srf_Sol then
                [WriterCall.SetSurface_Output iInst d.config.Output_FileFormat] else [])
          ++ (if d.config.Wrt_Csv_Sol then
                [WriterCall.SetSurface_Output iInst ENUM_OUTPUT.CSV] else [])
          ++ [WriterCall.DeallocateData_Parallel iInst]) ∧
        d'.OutputCount = d.OutputCount + 1) ∧
      (¬ (b = true ∧ d.config.Wrt_Output = true) →
        d'.calls = d.calls ∧ d'.OutputCount = d.OutputCount) ∧
      (0 < d.nInst → (d'.calls ≠ d.calls ↔ (b = true ∧ d.config.Wrt_Output = true))) := by
  obtain ⟨b, log, hb, hout⟩ := Output_eq d TimeIter hf
  refine ⟨b, log, _, hb, hout, ?_, ?_, ?_⟩
  · rintro ⟨h1, h2⟩
    have e : (b && d.config.Wrt_Output) = true := by rw [h1, h2]; rfl
    rw [if_pos e]
    exact ⟨rfl, rfl⟩
  · intro h
    have e : ¬ (b && d.config.Wrt_Output) = true := by
      cases b <;> cases hw : d.config.Wrt_Output <;> simp_all
    rw [if_neg e]
    exact ⟨rfl, rfl⟩
  · intro hn
    by_cases h : b = true ∧ d.config.Wrt_Output = true
    · have e : (b && d.config.Wrt_Output) = true := by rw [h.1, h.2]; rfl
      rw [if_pos e]
      refine ⟨fun _ => h, fun _ hc => ?_⟩
      have hlen := congrArg List.length hc
      obtain ⟨n, hn'⟩ : ∃ n, d.nInst = n + 1 := ⟨d.nInst - 1, by omega⟩
      simp only [hn', List.range_succ_eq_map, List.flatMap_cons, List.length_append,
        writeInstance, List.length_cons] at hlen
      omega
    · have e : ¬ (b && d.config.Wrt_Output) = true := by
        cases b <;> cases hw : d.config.Wrt_Output <;> simp_all
      rw [if_neg e]
      exact ⟨fun hc => absurd rfl hc, fun hh => absurd hh h⟩

/-- Witness for `Output_invokes_writers`: the example driver after a stop decision. -/
theorem Output_invokes_writers_witness :
    0 < ({ exampleDriver exampleConfig with StopCalc := true } :
      CSinglezoneDriver).config.Wrt_Sol_Freq_DualTime ∧
    ∃ b log d',
      output_files exampleConfig true 7 = some (b, log) ∧
      Output { exampleDriver exampleConfig with StopCalc := true } 7 = some d' ∧
      d'.calls = [WriterCall.Load_Data 0,
        WriterCall.SetVolume_Output 0 ENUM_OUTPUT.SU2_RESTART_ASCII,
        WriterCall.DeallocateData_Parallel 0] ∧
      d'.OutputCount = 1 := by
  refine ⟨by decide, ?_⟩
  obtain ⟨b, log, d', hb, hout, h1, _, _⟩ :=
    Output_invokes_writers { exampleDriver exampleConfig with StopCalc := true } 7 (by decide)
  have hbt : b = true := by
    have : output_files exampleConfig true 7 = some (true, []) := rfl
    have hb' : output_files exampleConfig true 7 = some (b, log) := hb
    rw [this] at hb'
    exact (congrArg Prod.fst (Option.some.inj hb')).symm
  obtain ⟨hc, hcount⟩ := h1 ⟨hbt, rfl⟩
  exact ⟨b, log, d', hb, hout, hc, hcount⟩

/-! ## Lemmas on loops -/

/-- Two loops over the same indices stay related when their bodies keep the relation. -/
theorem iterFrom_rel {σ τ : Type} (R : σ → τ → Prop) (f : Nat → σ → σ) (g : Nat → τ → τ)
    (h : ∀ i a b, R a b → R (f i a) (g i b)) :
    ∀ (n i : Nat) (a : σ) (b : τ), R a b → R (iterFrom f i n a) (iterFrom g i n b) := by
  intro n
  induction n with
  | zero => intro i a b hab; exact hab
  | succ n ih => intro i a b hab; exact ih (i + 1) _ _ (h i a b hab)

/-- A property kept by the body at every index of the loop holds after the loop. -/
theorem iterFrom_inv {σ : Type} (P : σ → Prop) (f : Nat → σ → σ) :
    ∀ (n s : Nat) (st : σ), (∀ i, s ≤ i → i < s + n → ∀ a, P a → P (f i a)) → P st →
      P (iterFrom f s n st) := by
  intro n
  induction n with
  | zero => intro s st _ hst; exact hst
  | succ n ih =>
    intro s st h hst
    exact ih (s + 1) _ (fun i h1 h2 a ha => h i (by omega) (by omega) a ha)
      (h s (Nat.le_refl s) (by omega) st hst)

theorem boundLoops_rel {σ τ : Type} (geometry : CGeometry) (R : σ → τ → Prop)
    (f : Nat → CPrimalGrid → σ → σ) (g : Nat → CPrimalGrid → τ → τ)
    (h : ∀ iMarker bnd a b, R a b → R (f iMarker bnd a) (g iMarker bnd b))
    (a : σ) (b : τ) (hab : R a b) :
    R (boundLoops geometry f a) (boundLoops geometry g b) := by
  apply iterFrom_rel R _ _ _ _ _ _ _ hab
  intro iMarker a b hab
  apply iterFrom_rel R _ _ _ _ _ _ _ hab
  intro iElem a b hab
  exact h iMarker _ a b hab

theorem boundLoops_inv {σ : Type} (geometry : CGeometry) (P : σ → Prop)
    (f : Nat → CPrimalGrid → σ → σ)
    (h : ∀ iMarker iElem, iMarker < geometry.nMarker →
      iElem < geometry.GetnElem_Bound iMarker →
      ∀ a, P a → P (f iMarker (geometry.elem iMarker iElem) a))
    (a : σ) (ha : P a) : P (boundLoops geometry f a) := by
  apply iterFrom_inv P _ _ _ _ _ ha
  intro iMarker _ h2 a ha
  apply iterFrom_inv P _ _ _ _ _ ha
  intro iElem _ h4 a ha
  exact h iMarker iElem (by omega) (by omega) a ha

/-! ## The mesh writer: the boundary blocks -/

/-- The counter `cptElem` of a boundary block and the number of its records agree with the
count of the type made before. -/
theorem boundLoops_count (geometry : CGeometry) (kwd : GmfKwd) (type : GEO_TYPE)
    (record : CPrimalGrid → List Nat) (pick : BoundCount → Nat)
    (hpick : ∀ bnd c, pick (countStep bnd c)
      = if bnd.VTK_Type = type then pick c + 1 else pick c)
    (h0 : pick { nLin := 0, nTri := 0, nQua := 0 } = 0) :
    (boundLoops geometry (boundStep kwd type record) (0, [])).1 = pick (countBound geometry) ∧
    (boundLoops geometry (boundStep kwd type record) (0, [])).2.length
      = pick (countBound geometry) := by
  have := boundLoops_rel geometry
    (fun (c : BoundCount) (st : Nat × List GmfCall) => st.1 = pick c ∧ st.2.length = pick c)
    (fun _ bnd c => countStep bnd c) (boundStep kwd type record)
    (by
      intro iMarker bnd c st hR
      obtain ⟨h1, h2⟩ := hR
      rw [hpick]
      by_cases ht : bnd.VTK_Type = type
      · simp [boundStep, ht, h1, h2]
      · simp [boundStep, ht, h1, h2])
    { nLin := 0, nTri := 0, nQua := 0 } (0, []) (by simp [h0])
  exact this

theorem pick_nLin (bnd : CPrimalGrid) (c : BoundCount) :
    (countStep bnd c).nLin = if bnd.VTK_Type = GEO_TYPE.LINE then c.nLin + 1 else c.nLin := by
  cases h : bnd.VTK_Type <;> simp [countStep, h]

theorem pick_nTri (bnd : CPrimalGrid) (c : BoundCount) :
    (countStep bnd c).nTri
      = if bnd.VTK_Type = GEO_TYPE.TRIANGLE then c.nTri + 1 else c.nTri := by
  cases h : bnd.VTK_Type <;> simp [countStep, h]

theorem pick_nQua (bnd : CPrimalGrid) (c : BoundCount) :
    (countStep bnd c).nQua
      = if bnd.VTK_Type = GEO_TYPE.QUADRILATERAL then c.nQua + 1 else c.nQua := by
  cases h : bnd.VTK_Type <;> simp [countStep, h]

/-- A boundary block entered with the count of its type returns, and it is the header
with that count followed by as many records. -/
theorem boundBlock_eq (geometry : CGeometry) (kwd : GmfKwd) (type : GEO_TYPE)
    (record : CPrimalGrid → List Nat) (pick : BoundCount → Nat)
    (hpick : ∀ bnd c, pick (countStep bnd c)
      = if bnd.VTK_Type = type then pick c + 1 else pick c)
    (h0 : pick { nLin := 0, nTri := 0, nQua := 0 } = 0) :
    boundBlock kwd type record geometry (pick (countBound geometry))
      = (if 0 < pick (countBound geometry) then
          [GmfCall.GmfSetKwd "current.meshb" kwd (pick (countBound geometry))]
            ++ (boundLoops geometry (boundStep kwd type record) (0, [])).2
        else [], Outcome.returned) := by
  obtain ⟨h1, _⟩ := boundLoops_count geometry kwd type record pick hpick h0
  by_cases hpos : 0 < pick (countBound geometry)
  · simp only [boundBlock, hpos, if_true, h1, ne_eq, not_true_eq_false, if_false]
  · simp only [boundBlock, hpos, if_false]

/-- Every call in the records of a boundary block writes an element of the type of the
block, with the entries `record` gives and the tag `iMarker + 2` of its marker. -/
theorem mem_boundLoops (geometry : CGeometry) (kwd : GmfKwd) (type : GEO_TYPE)
    (record : CPrimalGrid → List Nat) (c : GmfCall)
    (hc : c ∈ (boundLoops geometry (boundStep kwd type record) (0, [])).2) :
    ∃ iMarker iElem, iMarker < geometry.nMarker ∧ iElem < geometry.GetnElem_Bound iMarker ∧
      (geometry.elem iMarker iElem).VTK_Type = type ∧
      c = GmfCall.GmfSetLin "current.meshb" kwd
        (record (geometry.elem iMarker iElem) ++ [iMarker + 2]) := by
  have := boundLoops_inv geometry
    (fun (st : Nat × List GmfCall) => ∀ c ∈ st.2,
      ∃ iMarker iElem, iMarker < geometry.nMarker ∧ iElem < geometry.GetnElem_Bound iMarker ∧
        (geometry.elem iMarker iElem).VTK_Type = type ∧
        c = GmfCall.GmfSetLin "current.meshb" kwd
          (record (geometry.elem iMarker iElem) ++ [iMarker + 2]))
    (boundStep kwd type record)
    (by
      intro iMarker iElem h1 h2 st hst c hc
      by_cases ht : (geometry.elem iMarker iElem).VTK_Type = type
      · simp only [boundStep, ht, ne_eq, not_true_eq_false, if_false, List.mem_append,
          List.mem_singleton] at hc
        rcases hc with hc | hc
        · exact hst c hc
        · exact ⟨iMarker, iElem, h1, h2, ht, hc⟩
      · simp only [boundStep, ht, ne_eq, not_false_eq_true, if_true] at hc
        exact hst c hc)
    (0, []) (by intro c hc; simp at hc)
  exact this c hc

/-- `SetInriaMesh` does not call `exit`. -/
theorem SetInriaMesh_returned (HAVE_INRIA : Bool) (lib : GmfLib) (geometry : CGeometry)
    (conn : ParallelConn) (fresh : Nat → Nat) (nPoint_Restart : Nat)
    (Local : List (List PointData)) (rank : Nat) (r : Run)
    (h : SetInriaMesh HAVE_INRIA lib geometry conn fresh nPoint_Restart Local rank = some r) :
    r.2 = Outcome.returned := by
  have he := boundBlock_eq geometry GmfKwd.GmfEdges GEO_TYPE.LINE edgeRecord
    (fun c => c.nLin) pick_nLin rfl
  have ht := boundBlock_eq geometry GmfKwd.GmfTriangles GEO_TYPE.TRIANGLE triangleRecord
    (fun c => c.nTri) pick_nTri rfl
  have hq := boundBlock_eq geometry GmfKwd.GmfQuadrilaterals GEO_TYPE.QUADRILATERAL
    (quadRecord geometry fresh) (fun c => c.nQua) pick_nQua rfl
  simp only [SetInriaMesh, edgesBlock, trianglesBlock, quadsBlock] at h
  simp only [he, ht, hq, Run.andThen] at h
  cases HAVE_INRIA
  · simp at h
    rw [← h]
  · cases ho : lib.openOk "current.meshb"
    · simp [ho] at h
      rw [← h]
    · cases hg : SetInriaMesh_Vertices geometry.nDim nPoint_Restart Local
      · simp [ho, hg] at h
      · simp [ho, hg] at h
        rw [← h]

theorem SetInriaMesh_ends (lib : GmfLib) (geometry : CGeometry)
    (conn : ParallelConn) (fresh : Nat → Nat) (nPoint_Restart : Nat)
    (Local : List (List PointData)) (rank : Nat) (hP : Local.length ≤ 65535)
    (HAVE_INRIA : Bool) :
    ∃ r, SetInriaMesh HAVE_INRIA lib geometry conn fresh nPoint_Restart Local rank
      = some r := by
  obtain ⟨st, hst, _⟩ := pointGather_inv nPoint_Restart (vertexLine geometry.nDim) Local hP
  have hv : SetInriaMesh_Vertices geometry.nDim nPoint_Restart Local = some st := hst
  cases HAVE_INRIA
  · exact ⟨_, rfl⟩
  · cases ho : lib.openOk "current.meshb"
    · simp only [SetInriaMesh, ho, if_true, Bool.false_eq_true, if_false, Bool.not_false]
      exact ⟨_, rfl⟩
    · simp only [SetInriaMesh, ho, hv, if_true, Bool.not_true, Bool.false_eq_true, if_false]
      exact ⟨_, rfl⟩

/-- C12: in `SetInriaMesh`, for every list of boundary markers and boundary elements and
for each of the boundary types (edges, triangles, quadrilaterals), the block of the type
returns; when the count made before is positive it consists of the header declaring that
count followed by exactly as many records, and otherwise it is empty; the counter
`cptElem` equals the count.  Hence `SetInriaMesh` never ends in the exit for an
inconsistent number, and it returns once the loop over the ranks has ended. -/
theorem boundary_counts_consistent :
    (∀ (geometry : CGeometry),
      edgesBlock geometry
        = (if 0 < (countBound geometry).nLin then
            [GmfCall.GmfSetKwd "current.meshb" GmfKwd.GmfEdges (countBound geometry).nLin]
              ++ (boundLoops geometry
                    (boundStep GmfKwd.GmfEdges GEO_TYPE.LINE edgeRecord) (0, [])).2
          else [], Outcome.returned) ∧
      (boundLoops geometry (boundStep GmfKwd.GmfEdges GEO_TYPE.LINE edgeRecord) (0, [])).2.length
        = (countBound geometry).nLin ∧
      (boundLoops geometry (boundStep GmfKwd.GmfEdges GEO_TYPE.LINE edgeRecord) (0, [])).1
        = (countBound geometry).nLin ∧
      (∀ c ∈ (boundLoops geometry
            (boundStep GmfKwd.GmfEdges GEO_TYPE.LINE edgeRecord) (0, [])).2,
        ∃ values, c = GmfCall.GmfSetLin "current.meshb" GmfKwd.GmfEdges values)) ∧
    (∀ (geometry : CGeometry),
      trianglesBlock geometry
        = (if 0 < (countBound geometry).nTri then
            [GmfCall.GmfSetKwd "current.meshb" GmfKwd.GmfTriangles (countBound geometry).nTri]
              ++ (boundLoops geometry
                    (boundStep GmfKwd.GmfTriangles GEO_TYPE.TRIANGLE triangleRecord) (0, [])).2
          else [], Outcome.returned) ∧
      (boundLoops geometry
          (boundStep GmfKwd.GmfTriangles GEO_TYPE.TRIANGLE triangleRecord) (0, [])).2.length
        = (countBound geometry).nTri ∧
      (boundLoops geometry
          (boundStep GmfKwd.GmfTriangles GEO_TYPE.TRIANGLE triangleRecord) (0, [])).1
        = (countBound geometry).nTri ∧
      (∀ c ∈ (boundLoops geometry
            (boundStep GmfKwd.GmfTriangles GEO_TYPE.TRIANGLE triangleRecord) (0, [])).2,
        ∃ values, c = GmfCall.GmfSetLin "current.meshb" GmfKwd.GmfTriangles values)) ∧
    (∀ (geometry : CGeometry) (fresh : Nat → Nat),
      quadsBlock geometry fresh
        = (if 0 < (countBound geometry).nQua then
            [GmfCall.GmfSetKwd "current.meshb" GmfKwd.GmfQuadrilaterals
              (countBound geometry).nQua]
              ++ (boundLoops geometry
                    (boundStep GmfKwd.GmfQuadrilaterals GEO_TYPE.QUADRILATERAL
                      (quadRecord geometry fresh)) (0, [])).2
          else [], Outcome.returned) ∧
      (boundLoops geometry
          (boundStep GmfKwd.GmfQuadrilaterals GEO_TYPE.QUADRILATERAL
            (quadRecord geometry fresh)) (0, [])).2.length
        = (countBound geometry).nQua ∧
      (boundLoops geometry
          (boundStep GmfKwd.GmfQuadrilaterals GEO_TYPE.QUADRILATERAL
            (quadRecord geometry fresh)) (0, [])).1
        = (countBound geometry).nQua ∧
      (∀ c ∈ (boundLoops geometry
            (boundStep GmfKwd.GmfQuadrilaterals GEO_TYPE.QUADRILATERAL
              (quadRecord geometry fresh)) (0, [])).2,
        ∃ values, c = GmfCall.GmfSetLin "current.meshb" GmfKwd.GmfQuadrilaterals values)) ∧
    (∀ (HAVE_INRIA : Bool) (lib : GmfLib) (geometry : CGeometry) (conn : ParallelConn)
      (fresh : Nat → Nat) (nPoint_Restart : Nat) (Local : List (List PointData))
      (rank : Nat),
      (∀ calls, SetInriaMesh HAVE_INRIA lib geometry conn fresh nPoint_Restart Local rank
        ≠ some (calls, Outcome.exited)) ∧
      (Local.length ≤ 65535 →
        ∃ calls, SetInriaMesh HAVE_INRIA lib geometry conn fresh nPoint_Restart Local rank
          = some (calls, Outcome.returned))) := by
  refine ⟨?_, ?_, ?_, ?_⟩
  · intro geometry
    obtain ⟨h1, h2⟩ := boundLoops_count geometry GmfKwd.GmfEdges GEO_TYPE.LINE edgeRecord
      (fun c => c.nLin) pick_nLin rfl
    refine ⟨boundBlock_eq geometry GmfKwd.GmfEdges GEO_TYPE.LINE edgeRecord
      (fun c => c.nLin) pick_nLin rfl, h2, h1, ?_⟩
    intro c hc
    obtain ⟨_, _, _, _, _, h⟩ := mem_boundLoops geometry _ _ _ c hc
    exact ⟨_, h⟩
  · intro geometry
    obtain ⟨h1, h2⟩ := boundLoops_count geometry GmfKwd.GmfTriangles GEO_TYPE.TRIANGLE
      triangleRecord (fun c => c.nTri) pick_nTri rfl
    refine ⟨boundBlock_eq geometry GmfKwd.GmfTriangles GEO_TYPE.TRIANGLE triangleRecord
      (fun c => c.nTri) pick_nTri rfl, h2, h1, ?_⟩
    intro c hc
    obtain ⟨_, _, _, _, _, h⟩ := mem_boundLoops geometry _ _ _ c hc
    exact ⟨_, h⟩
  · intro geometry fresh
    obtain ⟨h1, h2⟩ := boundLoops_count geometry GmfKwd.GmfQuadrilaterals
      GEO_TYPE.QUADRILATERAL (quadRecord geometry fresh) (fun c => c.nQua) pick_nQua rfl
    refine ⟨boundBlock_eq geometry GmfKwd.GmfQuadrilaterals GEO_TYPE.QUADRILATERAL
      (quadRecord geometry fresh) (fun c => c.nQua) pick_nQua rfl, h2, h1, ?_⟩
    intro c hc
    obtain ⟨_, _, _, _, _, h⟩ := mem_boundLoops geometry _ _ _ c hc
    exact ⟨_, h⟩
  · intro HAVE_INRIA lib geometry conn fresh R Local rank
    constructor
    · intro calls h
      have := SetInriaMesh_returned HAVE_INRIA lib geometry conn fresh R Local rank _ h
      cases this
    · intro hP
      obtain ⟨r, hr⟩ := SetInriaMesh_ends lib geometry conn fresh R Local rank hP HAVE_INRIA
      have := SetInriaMesh_returned HAVE_INRIA lib geometry conn fresh R Local rank r hr
      refine ⟨r.1, ?_⟩
      rw [hr, ← this]

/-- Witness for `boundary_counts_consistent`: the mesh writer on the example geometry, one
rank. -/
theorem boundary_counts_consistent_witness :
    exampleLocal.length ≤ 65535 ∧
    ∃ calls, SetInriaMesh true workingLib exampleGeometry exampleConn (fun _ => 99) 3
      exampleLocal 0 = some (calls, Outcome.returned) :=
  ⟨by decide,
    (boundary_counts_consistent.2.2.2 true workingLib exampleGeometry exampleConn
      (fun _ => 99) 3 exampleLocal 0).2 (by decide)⟩

/-- The records of a boundary block, whatever the count it is entered with. -/
theorem mem_boundBlock (geometry : CGeometry) (kwd : GmfKwd) (type : GEO_TYPE)
    (record : CPrimalGrid → List Nat) (nPre : Nat) (name : String) (k : GmfKwd)
    (values : List Nat)
    (hc : GmfCall.GmfSetLin name k values ∈ (boundBlock kwd type record geometry nPre).1) :
    ∃ iMarker iElem, iMarker < geometry.nMarker ∧ iElem < geometry.GetnElem_Bound iMarker ∧
      (geometry.elem iMarker iElem).VTK_Type = type ∧
      values = record (geometry.elem iMarker iElem) ++ [iMarker + 2] := by
  have key : GmfCall.GmfSetLin name k values
      ∈ (boundLoops geometry (boundStep kwd type record) (0, [])).2 := by
    unfold boundBlock at hc
    by_cases h0 : 0 < nPre
    · rw [if_pos h0] at hc
      by_cases h1 : (boundLoops geometry (boundStep kwd type record) (0, [])).1 ≠ nPre
      · simp only [h1, ne_eq, not_false_eq_true, if_true, List.mem_append, List.mem_singleton,
          List.mem_cons, List.not_mem_nil, or_false] at hc
        rcases hc with (hc | hc) | hc
        · cases hc
        · exact hc
        · cases hc
      · simp only [h1, if_false, List.mem_append, List.mem_singleton, List.mem_cons,
          List.not_mem_nil, or_false] at hc
        rcases hc with hc | hc
        · cases hc
        · exact hc
    · rw [if_neg h0] at hc
      simp at hc
  obtain ⟨iMarker, iElem, h1, h2, h3, h4⟩ := mem_boundLoops geometry kwd type record _ key
  refine ⟨iMarker, iElem, h1, h2, h3, ?_⟩
  injection h4

/-! ## The connectivity getters -/

/-- When no marker has more than 65535 elements, the loops of a connectivity getter end
and are the plain nested loops. -/
theorem optIter_ushortLoop {σ : Type} (bound : Nat → Nat) (body : Nat → Nat → σ → σ) :
    ∀ (n i : Nat) (st : σ), (∀ m, i ≤ m → m < i + n → bound m ≤ 65535) →
      optIter (fun m st => ushortLoop (bound m) (body m) (bound m + 1) 0 st) i n st
        = some (iterFrom (fun m st => iterFrom (body m) 0 (bound m) st) i n st) := by
  intro n
  induction n with
  | zero => intro i st _; rfl
  | succ n ih =>
    intro i st h
    have h1 := ushortLoop_ends (bound i) (body i) (h i (Nat.le_refl i) (by omega)) (bound i) 0
      st (bound i + 1) (by omega) (by omega)
    simp only [optIter, h1, iterFrom]
    exact ih (i + 1) _ (fun m hm1 hm2 => h m (by omega) (by omega))

theorem GetnElem_Bound_le (geometry : CGeometry)
    (h : ∀ bnds ∈ geometry.bound, bnds.length ≤ 65535) (iMarker : Nat) :
    geometry.GetnElem_Bound iMarker ≤ 65535 := by
  unfold CGeometry.GetnElem_Bound
  rw [List.getD_eq_getElem?_getD]
  cases hb : geometry.bound[iMarker]? with
  | none => simp
  | some bnds => exact h bnds (List.getElem?_mem hb)

/-- A loop that appends one record per pass. -/
theorem iterFrom_append {β : Type} (f : Nat → β) :
    ∀ (n s : Nat) (st : List β),
      iterFrom (fun i st => st ++ [f i]) s n st = st ++ (List.range' s n).map f := by
  intro n
  induction n with
  | zero => intro s st; simp [iterFrom]
  | succ n ih =>
    intro s st
    rw [iterFrom, ih]
    simp [List.range'_succ]

/-- The records of `GetConnEdg`. -/
theorem GetConnEdg_records (geometry : CGeometry)
    (h : ∀ bnds ∈ geometry.bound, bnds.length ≤ 65535) :
    ∃ Edg, GetConnEdg geometry = some Edg ∧
      ∀ rec ∈ Edg, ∃ iMarker iElem, iMarker < geometry.nMarker ∧
        iElem < geometry.GetnElem_Bound iMarker ∧
        (geometry.elem iMarker iElem).VTK_Type = GEO_TYPE.LINE ∧
        rec = [(geometry.node ((geometry.elem iMarker iElem).GetNode 0)).GlobalIndex + 1,
               (geometry.node ((geometry.elem iMarker iElem).GetNode 1)).GlobalIndex + 1,
               iMarker + 2] := by
  refine ⟨_, optIter_ushortLoop geometry.GetnElem_Bound (GetConnEdg_body geometry)
    geometry.nMarker 0 [] (fun m _ _ => GetnElem_Bound_le geometry h m), ?_⟩
  apply iterFrom_inv (fun (Edg : List (List Nat)) => ∀ rec ∈ Edg, ∃ iMarker iElem,
    iMarker < geometry.nMarker ∧ iElem < geometry.GetnElem_Bound iMarker ∧
      (geometry.elem iMarker iElem).VTK_Type = GEO_TYPE.LINE ∧
      rec = [(geometry.node ((geometry.elem iMarker iElem).GetNode 0)).GlobalIndex + 1,
             (geometry.node ((geometry.elem iMarker iElem).GetNode 1)).GlobalIndex + 1,
             iMarker + 2])
  · intro iMarker _ hm a ha
    refine iterFrom_inv (fun (Edg : List (List Nat)) => ∀ rec ∈ Edg, ∃ iMarker iElem,
      iMarker < geometry.nMarker ∧ iElem < geometry.GetnElem_Bound iMarker ∧
        (geometry.elem iMarker iElem).VTK_Type = GEO_TYPE.LINE ∧
        rec = [(geometry.node ((geometry.elem iMarker iElem).GetNode 0)).GlobalIndex + 1,
               (geometry.node ((geometry.elem iMarker iElem).GetNode 1)).GlobalIndex + 1,
               iMarker + 2]) _ _ _ _ ?_ ha
    intro iElem _ he a ha rec hrec
    unfold GetConnEdg_body at hrec
    by_cases hd : (geometry.node ((geometry.elem iMarker iElem).GetNode 0)).Domain = true
    · cases ht : (geometry.elem iMarker iElem).VTK_Type <;>
        simp only [hd, ht, if_true, List.mem_append, List.mem_singleton] at hrec <;>
        first
        | exact ha rec hrec
        | exact hrec.elim (ha rec) (fun e => ⟨iMarker, iElem, by omega, by omega, ht, e⟩)
    · simp only [hd, if_false] at hrec
      exact ha rec hrec
  · intro rec hrec
    simp at hrec

/-- The records of `GetConnTri` in three dimensions. -/
theorem GetConnTri_records (geometry : CGeometry) (conn : ParallelConn)
    (hd : geometry.nDim ≠ 2) (h : ∀ bnds ∈ geometry.bound, bnds.length ≤ 65535) :
    ∃ Tri, GetConnTri geometry conn = some Tri ∧
      ∀ rec ∈ Tri, ∃ iMarker iElem, iMarker < geometry.nMarker ∧
        iElem < geometry.GetnElem_Bound iMarker ∧
        (geometry.elem iMarker iElem).VTK_Type = GEO_TYPE.TRIANGLE ∧
        rec = [(geometry.node ((geometry.elem iMarker iElem).GetNode 0)).GlobalIndex + 1,
               (geometry.node ((geometry.elem iMarker iElem).GetNode 1)).GlobalIndex + 1,
               (geometry.node ((geometry.elem iMarker iElem).GetNode 2)).GlobalIndex + 1,
               iMarker + 2] := by
  unfold GetConnTri
  rw [if_neg hd]
  refine ⟨_, optIter_ushortLoop geometry.GetnElem_Bound (GetConnTri_body geometry)
    geometry.nMarker 0 [] (fun m _ _ => GetnElem_Bound_le geometry h m), ?_⟩
  apply iterFrom_inv (fun (Tri : List (List Nat)) => ∀ rec ∈ Tri, ∃ iMarker iElem,
    iMarker < geometry.nMarker ∧ iElem < geometry.GetnElem_Bound iMarker ∧
      (geometry.elem iMarker iElem).VTK_Type = GEO_TYPE.TRIANGLE ∧
      rec = [(geometry.node ((geometry.elem iMarker iElem).GetNode 0)).GlobalIndex + 1,
             (geometry.node ((geometry.elem iMarker iElem).GetNode 1)).GlobalIndex + 1,
             (geometry.node ((geometry.elem iMarker iElem).GetNode 2)).GlobalIndex + 1,
             iMarker + 2])
  · intro iMarker _ hm a ha
    refine iterFrom_inv (fun (Tri : List (List Nat)) => ∀ rec ∈ Tri, ∃ iMarker iElem,
      iMarker < geometry.nMarker ∧ iElem < geometry.GetnElem_Bound iMarker ∧
        (geometry.elem iMarker iElem).VTK_Type = GEO_TYPE.TRIANGLE ∧
        rec = [(geometry.node ((geometry.elem iMarker iElem).GetNode 0)).GlobalIndex + 1,
               (geometry.node ((geometry.elem iMarker iElem).GetNode 1)).GlobalIndex + 1,
               (geometry.node ((geometry.elem iMarker iElem).GetNode 2)).GlobalIndex + 1,
               iMarker + 2]) _ _ _ _ ?_ ha
    intro iElem _ he a ha rec hrec
    unfold GetConnTri_body at hrec
    by_cases hd : (geometry.node ((geometry.elem iMarker iElem).GetNode 0)).Domain = true
    · cases ht : (geometry.elem iMarker iElem).VTK_Type <;>
        simp only [hd, ht, if_true, List.mem_append, List.mem_singleton] at hrec <;>
        first
        | exact ha rec hrec
        | exact hrec.elim (ha rec) (fun e => ⟨iMarker, iElem, by omega, by omega, ht, e⟩)
    · simp only [hd, if_false] at hrec
      exact ha rec hrec
  · intro rec hrec
    simp at hrec

/-- The records of `GetConnTri` in two dimensions: the entries of `Conn_Tria_Par`, three
per element, and the reference 0. -/
theorem GetConnTri_records2D (geometry : CGeometry) (conn : ParallelConn)
    (hd : geometry.nDim = 2) (h : conn.nParallel_Tria ≤ 65535) :
    GetConnTri geometry conn
      = some ((List.range conn.nParallel_Tria).map (fun iElem =>
          [conn.Conn_Tria_Par (iElem * 3 + 0), conn.Conn_Tria_Par (iElem * 3 + 1),
           conn.Conn_Tria_Par (iElem * 3 + 2), 0])) := by
  unfold GetConnTri
  rw [if_pos hd, ushortLoop_ends _ _ h conn.nParallel_Tria 0 _ _ (by omega) (by omega)]
  unfold GetConnTri_body2D
  rw [iterFrom_append, List.nil_append, List.range_eq_range']

/-- The records of `GetConnTet`: the entries of `Conn_Tetr_Par`, four per element, and
the reference 0. -/
theorem GetConnTet_records (conn : ParallelConn) (h : conn.nParallel_Tetr ≤ 65535) :
    GetConnTet conn
      = some ((List.range conn.nParallel_Tetr).map (fun iElem =>
          [conn.Conn_Tetr_Par (iElem * 4 + 0), conn.Conn_Tetr_Par (iElem * 4 + 1),
           conn.Conn_Tetr_Par (iElem * 4 + 2), conn.Conn_Tetr_Par (iElem * 4 + 3), 0])) := by
  unfold GetConnTet
  rw [ushortLoop_ends _ _ h conn.nParallel_Tetr 0 _ _ (by omega) (by omega)]
  unfold GetConnTet_body
  rw [iterFrom_append, List.nil_append, List.range_eq_range']

/-! ## Vertex indices of the element records -/

theorem two_indices (a b t R : Nat) (values : List Nat) (h : values = [a + 1, b + 1, t]) :
    values.dropLast = [a + 1, b + 1] ∧ (∀ v ∈ values.dropLast, 1 ≤ v) ∧
      ((∀ v ∈ values.dropLast, v ≤ R) ↔ (a < R ∧ b < R)) := by
  subst h
  have hm : ∀ v, v ∈ [a + 1, b + 1, t].dropLast ↔ (v = a + 1 ∨ v = b + 1) := by
    intro v
    simp [List.dropLast]
  refine ⟨rfl, ?_, ?_⟩
  · intro v hv
    rcases (hm v).mp hv with h | h <;> omega
  · constructor
    · intro h
      have h1 := h (a + 1) ((hm _).mpr (Or.inl rfl))
      have h2 := h (b + 1) ((hm _).mpr (Or.inr rfl))
      omega
    · intro h v hv
      rcases (hm v).mp hv with h | h <;> omega

theorem three_indices (a b c t R : Nat) (values : List Nat)
    (h : values = [a + 1, b + 1, c + 1, t]) :
    values.dropLast = [a + 1, b + 1, c + 1] ∧ (∀ v ∈ values.dropLast, 1 ≤ v) ∧
      ((∀ v ∈ values.dropLast, v ≤ R) ↔ (a < R ∧ b < R ∧ c < R)) := by
  subst h
  have hm : ∀ v, v ∈ [a + 1, b + 1, c + 1, t].dropLast
      ↔ (v = a + 1 ∨ v = b + 1 ∨ v = c + 1) := by
    intro v
    simp [List.dropLast]
  refine ⟨rfl, ?_, ?_⟩
  · intro v hv
    rcases (hm v).mp hv with h | h | h <;> omega
  · constructor
    · intro h
      have h1 := h (a + 1) ((hm _).mpr (Or.inl rfl))
      have h2 := h (b + 1) ((hm _).mpr (Or.inr (Or.inl rfl)))
      have h3 := h (c + 1) ((hm _).mpr (Or.inr (Or.inr rfl)))
      omega
    · intro h v hv
      rcases (hm v).mp hv with h | h | h <;> omega

/-- C13 fails as stated: on the example geometry, with `nPoint_Restart = 3`, the mesh
writer emits three vertices and then the edge record `1 6 2`, whose second vertex index 6
is above `nPoint_Restart`; `GetConnEdg` returns the same record. -/
theorem edge_index_beyond_vertices :
    (∃ calls, SetInriaMesh true workingLib exampleGeometry exampleConn (fun _ => 99) 3
        exampleLocal 0 = some (calls, Outcome.returned) ∧
      GmfCall.GmfSetKwd "current.meshb" GmfKwd.GmfVertices 3 ∈ calls ∧
      (calls.filter (fun c => match c with
        | GmfCall.GmfSetLinReal _ _ _ => true
        | _ => false)).length = 3 ∧
      GmfCall.GmfSetLin "current.meshb" GmfKwd.GmfEdges [1, 6, 2] ∈ calls) ∧
    GmfCall.GmfSetLin "current.meshb" GmfKwd.GmfEdges [1, 6, 2] ∈ (edgesBlock exampleGeometry).1 ∧
    GetConnEdg exampleGeometry = some [[2, 3, 2], [1, 6, 2]] ∧
    ¬ (∀ values, GmfCall.GmfSetLin "current.meshb" GmfKwd.GmfEdges values
          ∈ (edgesBlock exampleGeometry).1 →
        ∀ v ∈ values.dropLast, 1 ≤ v ∧ v ≤ 3) := by
  refine ⟨⟨_, rfl, by decide, by rfl, by decide⟩, by decide, by rfl, ?_⟩
  intro h
  have := h [1, 6, 2] (by decide) 6 (by decide)
  omega

/-- C13 (amended): every vertex index written in a boundary edge or triangle record of
`SetInriaMesh` is the local index of a node of the element plus one, and every vertex
index in a record of `GetConnEdg` or of the branch of `GetConnTri` for three dimensions is
the global index of a node of the element plus one.  So each index is at least 1, and the
indices of a record lie in `[1, nPoint_Restart]` exactly when those node indices are below
`nPoint_Restart`; the code makes no such test.  In two dimensions `GetConnTri` returns
the entries of `Conn_Tria_Par` unchanged.  The getters are stated for markers with at most
65535 elements and at most 65535 triangles, the range of their counter `iElem`. -/
theorem element_indices_one_based (geometry : CGeometry) (conn : ParallelConn)
    (nPoint_Restart : Nat) :
    (∀ name k values, GmfCall.GmfSetLin name k values ∈ (edgesBlock geometry).1 →
      ∃ iMarker iElem, iMarker < geometry.nMarker ∧
        iElem < geometry.GetnElem_Bound iMarker ∧
        values.dropLast = [(geometry.elem iMarker iElem).GetNode 0 + 1,
          (geometry.elem iMarker iElem).GetNode 1 + 1] ∧
        (∀ v ∈ values.dropLast, 1 ≤ v) ∧
        ((∀ v ∈ values.dropLast, v ≤ nPoint_Restart) ↔
          ((geometry.elem iMarker iElem).GetNode 0 < nPoint_Restart ∧
            (geometry.elem iMarker iElem).GetNode 1 < nPoint_Restart))) ∧
    (∀ name k values, GmfCall.GmfSetLin name k values ∈ (trianglesBlock geometry).1 →
      ∃ iMarker iElem, iMarker < geometry.nMarker ∧
        iElem < geometry.GetnElem_Bound iMarker ∧
        values.dropLast = [(geometry.elem iMarker iElem).GetNode 0 + 1,
          (geometry.elem iMarker iElem).GetNode 1 + 1,
          (geometry.elem iMarker iElem).GetNode 2 + 1] ∧
        (∀ v ∈ values.dropLast, 1 ≤ v) ∧
        ((∀ v ∈ values.dropLast, v ≤ nPoint_Restart) ↔
          ((geometry.elem iMarker iElem).GetNode 0 < nPoint_Restart ∧
            (geometry.elem iMarker iElem).GetNode 1 < nPoint_Restart ∧
            (geometry.elem iMarker iElem).GetNode 2 < nPoint_Restart))) ∧
    ((∀ bnds ∈ geometry.bound, bnds.length ≤ 65535) →
      ∃ Edg, GetConnEdg geometry = some Edg ∧
        ∀ rec ∈ Edg, ∃ iMarker iElem, iMarker < geometry.nMarker ∧
          iElem < geometry.GetnElem_Bound iMarker ∧
          rec.dropLast
            = [(geometry.node ((geometry.elem iMarker iElem).GetNode 0)).GlobalIndex + 1,
               (geometry.node ((geometry.elem iMarker iElem).GetNode 1)).GlobalIndex + 1] ∧
          (∀ v ∈ rec.dropLast, 1 ≤ v) ∧
          ((∀ v ∈ rec.dropLast, v ≤ nPoint_Restart) ↔
            ((geometry.node ((geometry.elem iMarker iElem).GetNode 0)).GlobalIndex
                < nPoint_Restart ∧
              (geometry.node ((geometry.elem iMarker iElem).GetNode 1)).GlobalIndex
                < nPoint_Restart))) ∧
    (geometry.nDim ≠ 2 → (∀ bnds ∈ geometry.bound, bnds.length ≤ 65535) →
      ∃ Tri, GetConnTri geometry conn = some Tri ∧
        ∀ rec ∈ Tri, ∃ iMarker iElem, iMarker < geometry.nMarker ∧
          iElem < geometry.GetnElem_Bound iMarker ∧
          rec.dropLast
            = [(geometry.node ((geometry.elem iMarker iElem).GetNode 0)).GlobalIndex + 1,
               (geometry.node ((geometry.elem iMarker iElem).GetNode 1)).GlobalIndex + 1,
               (geometry.node ((geometry.elem iMarker iElem).GetNode 2)).GlobalIndex + 1] ∧
          (∀ v ∈ rec.dropLast, 1 ≤ v) ∧
          ((∀ v ∈ rec.dropLast, v ≤ nPoint_Restart) ↔
            ((geometry.node ((geometry.elem iMarker iElem).GetNode 0)).GlobalIndex
                < nPoint_Restart ∧
              (geometry.node ((geometry.elem iMarker iElem).GetNode 1)).GlobalIndex
                < nPoint_Restart ∧
              (geometry.node ((geometry.elem iMarker iElem).GetNode 2)).GlobalIndex
                < nPoint_Restart))) ∧
    (geometry.nDim = 2 → conn.nParallel_Tria ≤ 65535 →
      GetConnTri geometry conn
        = some ((List.range conn.nParallel_Tria).map (fun iElem =>
            [conn.Conn_Tria_Par (iElem * 3 + 0), conn.Conn_Tria_Par (iElem * 3 + 1),
             conn.Conn_Tria_Par (iElem * 3 + 2), 0]))) := by
  refine ⟨?_, ?_, ?_, ?_, ?_⟩
  · intro name k values hc
    obtain ⟨iMarker, iElem, h1, h2, _, h4⟩ := mem_boundBlock geometry _ _ _ _ name k values hc
    exact ⟨iMarker, iElem, h1, h2, two_indices _ _ _ nPoint_Restart values h4⟩
  · intro name k values hc
    obtain ⟨iMarker, iElem, h1, h2, _, h4⟩ := mem_boundBlock geometry _ _ _ _ name k values hc
    exact ⟨iMarker, iElem, h1, h2, three_indices _ _ _ _ nPoint_Restart values h4⟩
  · intro h
    obtain ⟨Edg, hE, hrec⟩ := GetConnEdg_records geometry h
    refine ⟨Edg, hE, ?_⟩
    intro rec hmem
    obtain ⟨iMarker, iElem, h1, h2, _, h4⟩ := hrec rec hmem
    exact ⟨iMarker, iElem, h1, h2, two_indices _ _ _ nPoint_Restart rec h4⟩
  · intro hd h
    obtain ⟨Tri, hT, hrec⟩ := GetConnTri_records geometry conn hd h
    refine ⟨Tri, hT, ?_⟩
    intro rec hmem
    obtain ⟨iMarker, iElem, h1, h2, _, h4⟩ := hrec rec hmem
    exact ⟨iMarker, iElem, h1, h2, three_indices _ _ _ _ nPoint_Restart rec h4⟩
  · intro hd h
    exact GetConnTri_records2D geometry conn hd h

/-- Witness for `element_indices_one_based`: `GetConnEdg` on the example geometry, whose
markers have at most two elements. -/
theorem element_indices_one_based_witness :
    (∀ bnds ∈ exampleGeometry.bound, bnds.length ≤ 65535) ∧
    ∃ Edg, GetConnEdg exampleGeometry = some Edg ∧
      ∀ rec ∈ Edg, ∃ iMarker iElem, iMarker < exampleGeometry.nMarker ∧
        iElem < exampleGeometry.GetnElem_Bound iMarker ∧
        rec.dropLast
          = [(exampleGeometry.node
                ((exampleGeometry.elem iMarker iElem).GetNode 0)).GlobalIndex + 1,
             (exampleGeometry.node
                ((exampleGeometry.elem iMarker iElem).GetNode 1)).GlobalIndex + 1] ∧
        (∀ v ∈ rec.dropLast, 1 ≤ v) ∧
        ((∀ v ∈ rec.dropLast, v ≤ 3) ↔
          ((exampleGeometry.node
                ((exampleGeometry.elem iMarker iElem).GetNode 0)).GlobalIndex < 3 ∧
            (exampleGeometry.node
                ((exampleGeometry.elem iMarker iElem).GetNode 1)).GlobalIndex < 3)) :=
  ⟨by decide, (element_indices_one_based exampleGeometry exampleConn 3).2.2.1 (by decide)⟩

/-! ## Tags of the element records -/

theorem mem_volumeLines (kwd : GmfKwd) (Conn : Nat → Nat) (nNodes nElem : Nat) (c : GmfCall)
    (hc : c ∈ volumeLines kwd Conn nNodes nElem) :
    ∃ iElem, iElem < nElem ∧ c = GmfCall.GmfSetLin "current.meshb" kwd
      ((List.range nNodes).map (fun k => Conn (iElem * nNodes + k)) ++ [1]) := by
  unfold volumeLines at hc
  obtain ⟨iElem, h1, h2⟩ := List.mem_map.mp hc
  exact ⟨iElem, List.mem_range.mp h1, h2.symm⟩

theorem mem_volumeBlock (kwd : GmfKwd) (Conn : Nat → Nat) (nNodes nElem : Nat) (name : String)
    (k : GmfKwd) (values : List Nat)
    (hc : GmfCall.GmfSetLin name k values ∈ volumeBlock kwd Conn nNodes nElem) :
    GmfCall.GmfSetLin name k values ∈ volumeLines kwd Conn nNodes nElem := by
  unfold volumeBlock at hc
  by_cases h0 : 0 < nElem
  · rw [if_pos h0] at hc
    rcases List.mem_append.mp hc with hc | hc
    · simp at hc
    · exact hc
  · rw [if_neg h0] at hc
    simp at hc

/-- Every record of a volume block of `SetInriaMesh` ends with the tag 1. -/
theorem volumeBlocks_tag (nDim : Nat) (conn : ParallelConn) (name : String) (k : GmfKwd)
    (values : List Nat) (hc : GmfCall.GmfSetLin name k values ∈ volumeBlocks nDim conn) :
    values.getLast? = some 1 := by
  have key : ∀ kwd Conn nNodes nElem,
      GmfCall.GmfSetLin name k values ∈ volumeLines kwd Conn nNodes nElem →
      values.getLast? = some 1 := by
    intro kwd Conn nNodes nElem h
    obtain ⟨iElem, _, h2⟩ := mem_volumeLines kwd Conn nNodes nElem _ h
    injection h2 with _ _ h3
    rw [h3]
    simp
  unfold volumeBlocks at hc
  simp only [List.mem_append] at hc
  rcases hc with ((((hc | hc) | hc) | hc) | hc)
  · by_cases h2 : nDim = 2
    · rw [if_pos h2] at hc
      simp only [List.mem_append, List.mem_singleton] at hc
      rcases hc with (hc | hc) | hc
      · cases hc
      · exact key _ _ _ _ hc
      · exact key _ _ _ _ (mem_volumeBlock _ _ _ _ _ _ _ hc)
    · rw [if_neg h2] at hc
      simp at hc
  · exact key _ _ _ _ (mem_volumeBlock _ _ _ _ _ _ _ hc)
  · exact key _ _ _ _ (mem_volumeBlock _ _ _ _ _ _ _ hc)
  · exact key _ _ _ _ (mem_volumeBlock _ _ _ _ _ _ _ hc)
  · exact key _ _ _ _ (mem_volumeBlock _ _ _ _ _ _ _ hc)

/-- Every record of a boundary block of `SetInriaMesh` ends with the tag of its marker. -/
theorem boundBlock_tag (geometry : CGeometry) (kwd : GmfKwd) (type : GEO_TYPE)
    (record : CPrimalGrid → List Nat) (nPre : Nat) (name : String) (k : GmfKwd)
    (values : List Nat)
    (hc : GmfCall.GmfSetLin name k values ∈ (boundBlock kwd type record geometry nPre).1) :
    ∃ iMarker, iMarker < geometry.nMarker ∧ values.getLast? = some (iMarker + 2) ∧
      2 ≤ iMarker + 2 := by
  obtain ⟨iMarker, iElem, h1, _, _, h4⟩ :=
    mem_boundBlock geometry kwd type record nPre name k values hc
  refine ⟨iMarker, h1, ?_, by omega⟩
  rw [h4]
  simp

/-! ### The records of the boundary loops, in program order -/

theorem iterFrom_congr {σ : Type} (f g : Nat → σ → σ) (h : ∀ i st, f i st = g i st) :
    ∀ (n s : Nat) (st : σ), iterFrom f s n st = iterFrom g s n st := by
  intro n
  induction n with
  | zero => intro s st; rfl
  | succ n ih => intro s st; rw [iterFrom, iterFrom, h, ih]

/-- A loop over the positions of a list is a fold over the list. -/
theorem iterFrom_getD_foldl {σ γ : Type} (l : List γ) (d : γ) (f : γ → σ → σ) :
    ∀ (n s : Nat) (st : σ), s + n = l.length →
      iterFrom (fun i st => f (l.getD i d) st) s n st
        = (l.drop s).foldl (fun st x => f x st) st := by
  intro n
  induction n with
  | zero =>
    intro s st h
    have : l.drop s = [] := List.drop_eq_nil_of_le (by omega)
    rw [this]
    rfl
  | succ n ih =>
    intro s st h
    have hs : s < l.length := by omega
    rw [iterFrom, ih (s + 1) _ (by omega), List.drop_eq_getElem_cons hs, List.foldl_cons,
      List.getD_eq_getElem _ _ hs]

theorem foldl_append_filter {γ δ : Type} (p : γ → Bool) (r : γ → δ) (l : List γ) :
    ∀ init : List δ,
      l.foldl (fun st x => if p x then st ++ [r x] else st) init
        = init ++ (l.filter p).map r := by
  induction l with
  | nil => intro init; simp
  | cons a l ih =>
    intro init
    rw [List.foldl_cons, ih]
    cases h : p a <;> simp [h]

theorem iterFrom_append_list {δ : Type} (F : Nat → List δ) :
    ∀ (n s : Nat) (st : List δ),
      iterFrom (fun i st => st ++ F i) s n st = st ++ (List.range' s n).flatMap F := by
  intro n
  induction n with
  | zero => intro s st; simp [iterFrom]
  | succ n ih =>
    intro s st
    rw [iterFrom, ih]
    simp [List.range'_succ, List.flatMap]

/-- The loops over the markers and their elements, with a body that appends one record for
every element that passes a test, give the records of these elements marker after marker,
in the order of the elements. -/
theorem boundLoops_append {δ : Type} (geometry : CGeometry) (p : Nat → CPrimalGrid → Bool)
    (r : Nat → CPrimalGrid → δ) (init : List δ) :
    boundLoops geometry
        (fun iMarker bnd st => if p iMarker bnd then st ++ [r iMarker bnd] else st) init
      = init ++ (List.range geometry.nMarker).flatMap (fun iMarker =>
          ((geometry.bound.getD iMarker []).filter (p iMarker)).map (r iMarker)) := by
  have inner : ∀ (iMarker : Nat) (st : List δ),
      iterFrom (fun iElem st =>
          if p iMarker (geometry.elem iMarker iElem) then
            st ++ [r iMarker (geometry.elem iMarker iElem)] else st)
        0 (geometry.GetnElem_Bound iMarker) st
        = st ++ ((geometry.bound.getD iMarker []).filter (p iMarker)).map (r iMarker) := by
    intro iMarker st
    have h1 := iterFrom_getD_foldl (geometry.bound.getD iMarker [])
      { VTK_Type := GEO_TYPE.VERTEX, Nodes := [] }
      (fun bnd (st : List δ) => if p iMarker bnd then st ++ [r iMarker bnd] else st)
      (geometry.bound.getD iMarker []).length 0 st (by omega)
    rw [List.drop_zero, foldl_append_filter] at h1
    exact h1
  unfold boundLoops
  rw [iterFrom_congr _ _ inner, iterFrom_append_list, List.range_eq_range']

/-- The records of a boundary block of `SetInriaMesh`, in program order. -/
theorem boundLoops_records (geometry : CGeometry) (kwd : GmfKwd) (type : GEO_TYPE)
    (record : CPrimalGrid → List Nat) :
    (boundLoops geometry (boundStep kwd type record) (0, [])).2
      = (List.range geometry.nMarker).flatMap (fun iMarker =>
          ((geometry.bound.getD iMarker []).filter
            (fun bnd => decide (bnd.VTK_Type = type))).map
            (fun bnd => GmfCall.GmfSetLin "current.meshb" kwd (record bnd ++ [iMarker + 2]))) := by
  have h := boundLoops_rel geometry (fun (a : Nat × List GmfCall) (b : List GmfCall) => a.2 = b)
    (boundStep kwd type record)
    (fun iMarker bnd st => if decide (bnd.VTK_Type = type) then
      st ++ [GmfCall.GmfSetLin "current.meshb" kwd (record bnd ++ [iMarker + 2])] else st)
    (by
      intro iMarker bnd a b hab
      unfold boundStep
      by_cases ht : bnd.VTK_Type = type
      · simp [ht, hab]
      · simp [ht, hab])
    (0, []) [] rfl
  rw [h, boundLoops_append geometry (fun _ bnd => decide (bnd.VTK_Type = type))
    (fun iMarker bnd => GmfCall.GmfSetLin "current.meshb" kwd (record bnd ++ [iMarker + 2]))
    [], List.nil_append]

/-- The records of `GetConnEdg`, in program order. -/
theorem GetConnEdg_eq (geometry : CGeometry)
    (h : ∀ bnds ∈ geometry.bound, bnds.length ≤ 65535) :
    GetConnEdg geometry
      = some ((List.range geometry.nMarker).flatMap (fun iMarker =>
          ((geometry.bound.getD iMarker []).filter
            (fun bnd => (geometry.node (bnd.GetNode 0)).Domain
              && decide (bnd.VTK_Type = GEO_TYPE.LINE))).map
            (fun bnd => [(geometry.node (bnd.GetNode 0)).GlobalIndex + 1,
              (geometry.node (bnd.GetNode 1)).GlobalIndex + 1, iMarker + 2]))) := by
  have hb : ∀ (iMarker iElem : Nat) (Edg : List (List Nat)),
      GetConnEdg_body geometry iMarker iElem Edg
        = if ((geometry.node ((geometry.elem iMarker iElem).GetNode 0)).Domain
              && decide ((geometry.elem iMarker iElem).VTK_Type = GEO_TYPE.LINE)) then
            Edg ++ [[(geometry.node ((geometry.elem iMarker iElem).GetNode 0)).GlobalIndex + 1,
              (geometry.node ((geometry.elem iMarker iElem).GetNode 1)).GlobalIndex + 1,
              iMarker + 2]]
          else Edg := by
    intro iMarker iElem Edg
    unfold GetConnEdg_body
    cases hd : (geometry.node ((geometry.elem iMarker iElem).GetNode 0)).Domain <;>
      cases ht : (geometry.elem iMarker iElem).VTK_Type <;> simp [hd, ht]
  have h1 := optIter_ushortLoop geometry.GetnElem_Bound (GetConnEdg_body geometry)
    geometry.nMarker 0 [] (fun m _ _ => GetnElem_Bound_le geometry h m)
  have h2 := boundLoops_append geometry
    (fun _ bnd => (geometry.node (bnd.GetNode 0)).Domain
      && decide (bnd.VTK_Type = GEO_TYPE.LINE))
    (fun iMarker bnd => [(geometry.node (bnd.GetNode 0)).GlobalIndex + 1,
      (geometry.node (bnd.GetNode 1)).GlobalIndex + 1, iMarker + 2]) []
  rw [List.nil_append] at h2
  unfold GetConnEdg
  rw [h1, ← h2]
  unfold boundLoops
  rw [iterFrom_congr _ _ (fun iMarker st => iterFrom_congr _ _ (hb iMarker) _ 0 st)]

/-- The records of `GetConnTri` in three dimensions, in program order. -/
theorem GetConnTri_eq (geometry : CGeometry) (conn : ParallelConn)
    (hd : geometry.nDim ≠ 2) (h : ∀ bnds ∈ geometry.bound, bnds.length ≤ 65535) :
    GetConnTri geometry conn
      = some ((List.range geometry.nMarker).flatMap (fun iMarker =>
          ((geometry.bound.getD iMarker []).filter
            (fun bnd => (geometry.node (bnd.GetNode 0)).Domain
              && decide (bnd.VTK_Type = GEO_TYPE.TRIANGLE))).map
            (fun bnd => [(geometry.node (bnd.GetNode 0)).GlobalIndex + 1,
              (geometry.node (bnd.GetNode 1)).GlobalIndex + 1,
              (geometry.node (bnd.GetNode 2)).GlobalIndex + 1, iMarker + 2]))) := by
  have hb : ∀ (iMarker iElem : Nat) (Tri : List (List Nat)),
      GetConnTri_body geometry iMarker iElem Tri
        = if ((geometry.node ((geometry.elem iMarker iElem).GetNode 0)).Domain
              && decide ((geometry.elem iMarker iElem).VTK_Type = GEO_TYPE.TRIANGLE)) then
            Tri ++ [[(geometry.node ((geometry.elem iMarker iElem).GetNode 0)).GlobalIndex + 1,
              (geometry.node ((geometry.elem iMarker iElem).GetNode 1)).GlobalIndex + 1,
              (geometry.node ((geometry.elem iMarker iElem).GetNode 2)).GlobalIndex + 1,
              iMarker + 2]]
          else Tri := by
    intro iMarker iElem Tri
    unfold GetConnTri_body
    cases hd : (geometry.node ((geometry.elem iMarker iElem).GetNode 0)).Domain <;>
      cases ht : (geometry.elem iMarker iElem).VTK_Type <;> simp [hd, ht]
  have h1 := optIter_ushortLoop geometry.GetnElem_Bound (GetConnTri_body geometry)
    geometry.nMarker 0 [] (fun m _ _ => GetnElem_Bound_le geometry h m)
  have h2 := boundLoops_append geometry
    (fun _ bnd => (geometry.node (bnd.GetNode 0)).Domain
      && decide (bnd.VTK_Type = GEO_TYPE.TRIANGLE))
    (fun iMarker bnd => [(geometry.node (bnd.GetNode 0)).GlobalIndex + 1,
      (geometry.node (bnd.GetNode 1)).GlobalIndex + 1,
      (geometry.node (bnd.GetNode 2)).GlobalIndex + 1, iMarker + 2]) []
  rw [List.nil_append] at h2
  unfold GetConnTri
  rw [if_neg hd, h1, ← h2]
  unfold boundLoops
  rw [iterFrom_congr _ _ (fun iMarker st => iterFrom_congr _ _ (hb iMarker) _ 0 st)]

/-- A boundary block of `SetInriaMesh` in full: the header with the count, when it is
positive, and the records in program order. -/
theorem boundBlock_records (geometry : CGeometry) (kwd : GmfKwd) (type : GEO_TYPE)
    (record : CPrimalGrid → List Nat) (pick : BoundCount → Nat)
    (hpick : ∀ bnd c, pick (countStep bnd c) = if bnd.VTK_Type = type then pick c + 1 else pick c)
    (h0 : pick { nLin := 0, nTri := 0, nQua := 0 } = 0) :
    boundBlock kwd type record geometry (pick (countBound geometry))
      = (if 0 < pick (countBound geometry) then
          [GmfCall.GmfSetKwd "current.meshb" kwd (pick (countBound geometry))]
            ++ (List.range geometry.nMarker).flatMap (fun iMarker =>
              ((geometry.bound.getD iMarker []).filter
                (fun bnd => decide (bnd.VTK_Type = type))).map
                (fun bnd =>
                  GmfCall.GmfSetLin "current.meshb" kwd (record bnd ++ [iMarker + 2])))
        else [], Outcome.returned) := by
  rw [boundBlock_eq geometry kwd type record pick hpick h0, boundLoops_records]

/-- C15: every boundary record is tagged with the marker of the element it is written
for.  Each record of the edges, triangles and quadrilaterals blocks of `SetInriaMesh` is
the record of an element `bound[iMarker][iElem]` of the type of the block followed by
`iMarker + 2`, and each block is, after its header, the list of these records marker after
marker in the order of the elements; each record of `GetConnEdg` and of the branch of
`GetConnTri` for three dimensions is that of an element `bound[iMarker][iElem]` of the
type, with the global indices of its nodes plus one, followed by `iMarker + 2`, and the
result is the list of these records in the same order.  So every boundary tag is at least
2.  Every volume record written by `SetInriaMesh` ends with the tag 1, and every record of
the branch of `GetConnTri` for two dimensions and of `GetConnTet` ends with the tag 0.
The getters are stated for at most 65535 elements per marker, triangles and tetrahedra,
the range of their counter `iElem`, within which they return. -/
theorem boundary_tags_at_least_two (geometry : CGeometry) (conn : ParallelConn)
    (fresh : Nat → Nat) :
    (∀ name k values, GmfCall.GmfSetLin name k values ∈ (edgesBlock geometry).1 →
      ∃ iMarker iElem, iMarker < geometry.nMarker ∧
        iElem < geometry.GetnElem_Bound iMarker ∧
        (geometry.elem iMarker iElem).VTK_Type = GEO_TYPE.LINE ∧
        values = edgeRecord (geometry.elem iMarker iElem) ++ [iMarker + 2] ∧
        values.getLast? = some (iMarker + 2) ∧ 2 ≤ iMarker + 2) ∧
    (∀ name k values, GmfCall.GmfSetLin name k values ∈ (trianglesBlock geometry).1 →
      ∃ iMarker iElem, iMarker < geometry.nMarker ∧
        iElem < geometry.GetnElem_Bound iMarker ∧
        (geometry.elem iMarker iElem).VTK_Type = GEO_TYPE.TRIANGLE ∧
        values = triangleRecord (geometry.elem iMarker iElem) ++ [iMarker + 2] ∧
        values.getLast? = some (iMarker + 2) ∧ 2 ≤ iMarker + 2) ∧
    (∀ name k values, GmfCall.GmfSetLin name k values ∈ (quadsBlock geometry fresh).1 →
      ∃ iMarker iElem, iMarker < geometry.nMarker ∧
        iElem < geometry.GetnElem_Bound iMarker ∧
        (geometry.elem iMarker iElem).VTK_Type = GEO_TYPE.QUADRILATERAL ∧
        values = quadRecord geometry fresh (geometry.elem iMarker iElem) ++ [iMarker + 2] ∧
        values.getLast? = some (iMarker + 2) ∧ 2 ≤ iMarker + 2) ∧
    (edgesBlock geometry
        = (if 0 < (countBound geometry).nLin then
            [GmfCall.GmfSetKwd "current.meshb" GmfKwd.GmfEdges (countBound geometry).nLin]
              ++ (List.range geometry.nMarker).flatMap (fun iMarker =>
                ((geometry.bound.getD iMarker []).filter
                  (fun bnd => decide (bnd.VTK_Type = GEO_TYPE.LINE))).map
                  (fun bnd => GmfCall.GmfSetLin "current.meshb" GmfKwd.GmfEdges
                    (edgeRecord bnd ++ [iMarker + 2])))
          else [], Outcome.returned) ∧
      trianglesBlock geometry
        = (if 0 < (countBound geometry).nTri then
            [GmfCall.GmfSetKwd "current.meshb" GmfKwd.GmfTriangles (countBound geometry).nTri]
              ++ (List.range geometry.nMarker).flatMap (fun iMarker =>
                ((geometry.bound.getD iMarker []).filter
                  (fun bnd => decide (bnd.VTK_Type = GEO_TYPE.TRIANGLE))).map
                  (fun bnd => GmfCall.GmfSetLin "current.meshb" GmfKwd.GmfTriangles
                    (triangleRecord bnd ++ [iMarker + 2])))
          else [], Outcome.returned) ∧
      quadsBlock geometry fresh
        = (if 0 < (countBound geometry).nQua then
            [GmfCall.GmfSetKwd "current.meshb" GmfKwd.GmfQuadrilaterals
              (countBound geometry).nQua]
              ++ (List.range geometry.nMarker).flatMap (fun iMarker =>
                ((geometry.bound.getD iMarker []).filter
                  (fun bnd => decide (bnd.VTK_Type = GEO_TYPE.QUADRILATERAL))).map
                  (fun bnd => GmfCall.GmfSetLin "current.meshb" GmfKwd.GmfQuadrilaterals
                    (quadRecord geometry fresh bnd ++ [iMarker + 2])))
          else [], Outcome.returned)) ∧
    (∀ name k values, GmfCall.GmfSetLin name k values ∈ volumeBlocks geometry.nDim conn →
      values.getLast? = some 1) ∧
    ((∀ bnds ∈ geometry.bound, bnds.length ≤ 65535) →
      ∃ Edg, GetConnEdg geometry = some Edg ∧
        Edg = (List.range geometry.nMarker).flatMap (fun iMarker =>
          ((geometry.bound.getD iMarker []).filter
            (fun bnd => (geometry.node (bnd.GetNode 0)).Domain
              && decide (bnd.VTK_Type = GEO_TYPE.LINE))).map
            (fun bnd => [(geometry.node (bnd.GetNode 0)).GlobalIndex + 1,
              (geometry.node (bnd.GetNode 1)).GlobalIndex + 1, iMarker + 2])) ∧
        ∀ rec ∈ Edg, ∃ iMarker iElem, iMarker < geometry.nMarker ∧
          iElem < geometry.GetnElem_Bound iMarker ∧
          (geometry.elem iMarker iElem).VTK_Type = GEO_TYPE.LINE ∧
          rec = [(geometry.node ((geometry.elem iMarker iElem).GetNode 0)).GlobalIndex + 1,
                 (geometry.node ((geometry.elem iMarker iElem).GetNode 1)).GlobalIndex + 1,
                 iMarker + 2] ∧
          rec.getLast? = some (iMarker + 2) ∧ 2 ≤ iMarker + 2) ∧
    (geometry.nDim ≠ 2 → (∀ bnds ∈ geometry.bound, bnds.length ≤ 65535) →
      ∃ Tri, GetConnTri geometry conn = some Tri ∧
        Tri = (List.range geometry.nMarker).flatMap (fun iMarker =>
          ((geometry.bound.getD iMarker []).filter
            (fun bnd => (geometry.node (bnd.GetNode 0)).Domain
              && decide (bnd.VTK_Type = GEO_TYPE.TRIANGLE))).map
            (fun bnd => [(geometry.node (bnd.GetNode 0)).GlobalIndex + 1,
              (geometry.node (bnd.GetNode 1)).GlobalIndex + 1,
              (geometry.node (bnd.GetNode 2)).GlobalIndex + 1, iMarker + 2])) ∧
        ∀ rec ∈ Tri, ∃ iMarker iElem, iMarker < geometry.nMarker ∧
          iElem < geometry.GetnElem_Bound iMarker ∧
          (geometry.elem iMarker iElem).VTK_Type = GEO_TYPE.TRIANGLE ∧
          rec = [(geometry.node ((geometry.elem iMarker iElem).GetNode 0)).GlobalIndex + 1,
                 (geometry.node ((geometry.elem iMarker iElem).GetNode 1)).GlobalIndex + 1,
                 (geometry.node ((geometry.elem iMarker iElem).GetNode 2)).GlobalIndex + 1,
                 iMarker + 2] ∧
          rec.getLast? = some (iMarker + 2) ∧ 2 ≤ iMarker + 2) ∧
    (geometry.nDim = 2 → conn.nParallel_Tria ≤ 65535 →
      ∃ Tri, GetConnTri geometry conn = some Tri ∧ Tri.length = conn.nParallel_Tria ∧
        ∀ rec ∈ Tri, rec.getLast? = some 0) ∧
    (conn.nParallel_Tetr ≤ 65535 →
      ∃ Tet, GetConnTet conn = some Tet ∧ Tet.length = conn.nParallel_Tetr ∧
        ∀ rec ∈ Tet, rec.getLast? = some 0) := by
  have tag : ∀ (record : List Nat) (iMarker : Nat),
      (record ++ [iMarker + 2]).getLast? = some (iMarker + 2) := by
    intro record iMarker
    simp
  refine ⟨?_, ?_, ?_, ⟨?_, ?_, ?_⟩, ?_, ?_, ?_, ?_, ?_⟩
  · intro name k values hc
    obtain ⟨iMarker, iElem, h1, h2, h3, h4⟩ :=
      mem_boundBlock geometry _ _ _ _ name k values hc
    exact ⟨iMarker, iElem, h1, h2, h3, h4, by rw [h4]; exact tag _ _, by omega⟩
  · intro name k values hc
    obtain ⟨iMarker, iElem, h1, h2, h3, h4⟩ :=
      mem_boundBlock geometry _ _ _ _ name k values hc
    exact ⟨iMarker, iElem, h1, h2, h3, h4, by rw [h4]; exact tag _ _, by omega⟩
  · intro name k values hc
    obtain ⟨iMarker, iElem, h1, h2, h3, h4⟩ :=
      mem_boundBlock geometry _ _ _ _ name k values hc
    exact ⟨iMarker, iElem, h1, h2, h3, h4, by rw [h4]; exact tag _ _, by omega⟩
  · exact boundBlock_records geometry GmfKwd.GmfEdges GEO_TYPE.LINE edgeRecord
      (fun c => c.nLin) pick_nLin rfl
  · exact boundBlock_records geometry GmfKwd.GmfTriangles GEO_TYPE.TRIANGLE triangleRecord
      (fun c => c.nTri) pick_nTri rfl
  · exact boundBlock_records geometry GmfKwd.GmfQuadrilaterals GEO_TYPE.QUADRILATERAL
      (quadRecord geometry fresh) (fun c => c.nQua) pick_nQua rfl
  · intro name k values hc
    exact volumeBlocks_tag geometry.nDim conn name k values hc
  · intro h
    obtain ⟨Edg, hE, hrec⟩ := GetConnEdg_records geometry h
    have he := GetConnEdg_eq geometry h
    refine ⟨Edg, hE, ?_, ?_⟩
    · rw [hE] at he
      exact Option.some.inj he
    · intro rec hmem
      obtain ⟨iMarker, iElem, h1, h2, h3, h4⟩ := hrec rec hmem
      exact ⟨iMarker, iElem, h1, h2, h3, h4, by rw [h4]; rfl, by omega⟩
  · intro hd h
    obtain ⟨Tri, hT, hrec⟩ := GetConnTri_records geometry conn hd h
    have he := GetConnTri_eq geometry conn hd h
    refine ⟨Tri, hT, ?_, ?_⟩
    · rw [hT] at he
      exact Option.some.inj he
    · intro rec hmem
      obtain ⟨iMarker, iElem, h1, h2, h3, h4⟩ := hrec rec hmem
      exact ⟨iMarker, iElem, h1, h2, h3, h4, by rw [h4]; rfl, by omega⟩
  · intro hd h
    refine ⟨_, GetConnTri_records2D geometry conn hd h, by simp, ?_⟩
    intro rec hmem
    obtain ⟨iElem, _, h2⟩ := List.mem_map.mp hmem
    rw [← h2]
    rfl
  · intro h
    refine ⟨_, GetConnTet_records conn h, by simp, ?_⟩
    intro rec hmem
    obtain ⟨iElem, _, h2⟩ := List.mem_map.mp hmem
    rw [← h2]
    rfl

/-- Witness for `boundary_tags_at_least_two`: the records of `GetConnEdg` on the example
geometry, each with the tag of its marker, and of `GetConnTet` on the example
connectivity. -/
theorem boundary_tags_at_least_two_witness :
    ((∀ bnds ∈ exampleGeometry.bound, bnds.length ≤ 65535) ∧
      ∃ Edg, GetConnEdg exampleGeometry = some Edg ∧
        Edg = [[2, 3, 2], [1, 6, 2]]) ∧
    (exampleConn.nParallel_Tetr ≤ 65535 ∧
      ∃ Tet, GetConnTet exampleConn = some Tet ∧ Tet.length = exampleConn.nParallel_Tetr ∧
        ∀ rec ∈ Tet, rec.getLast? = some 0) := by
  refine ⟨⟨by decide, ?_⟩, ⟨by decide,
    (boundary_tags_at_least_two exampleGeometry exampleConn (fun _ => 99)).2.2.2.2.2.2.2.2
      (by decide)⟩⟩
  obtain ⟨Edg, hE, he, _⟩ :=
    (boundary_tags_at_least_two exampleGeometry exampleConn (fun _ => 99)).2.2.2.2.2.1
      (by decide)
  exact ⟨Edg, hE, by rw [he]; rfl⟩

/-! ## The writers without the file library, and when the file library fails -/

/-- C18: without `HAVE_INRIA` each of `SetInriaRestart`, `WriteInriaOutputs` and
`SetInriaMesh` does, for every input and on every process, nothing but print the message
that no file is written: it opens no file, writes no record, does not exit, and
returns. -/
theorem without_support_message_only :
    (∀ (lib : GmfLib) (nDim nVar_Par npoin nPoint_Restart : Nat)
        (Local : List (List PointData)) (rank : Nat),
      SetInriaRestart false lib nDim nVar_Par npoin nPoint_Restart Local rank
        = some ([GmfCall.print Message.noGmfSupport], Outcome.returned)) ∧
    (∀ (lib : GmfLib) (Wrt_Aniso_Sensor estimate : Bool) (TagBc : BCVAR → Nat)
        (nDim npoin nPoint_Restart : Nat) (Local : List (List PointData)) (rank : Nat),
      WriteInriaOutputs false lib Wrt_Aniso_Sensor estimate TagBc nDim npoin nPoint_Restart
          Local rank
        = some ([GmfCall.print Message.noGmfSupport], Outcome.returned)) ∧
    (∀ (lib : GmfLib) (geometry : CGeometry) (conn : ParallelConn) (fresh : Nat → Nat)
        (nPoint_Restart : Nat) (Local : List (List PointData)) (rank : Nat),
      SetInriaMesh false lib geometry conn fresh nPoint_Restart Local rank
        = some ([GmfCall.print Message.noGmfSupport], Outcome.returned)) :=
  ⟨fun _ _ _ _ _ _ _ => rfl, fun _ _ _ _ _ _ _ _ _ => rfl, fun _ _ _ _ _ _ _ => rfl⟩

/-- C14 fails for `SetInriaMesh`: when the file cannot be opened it prints a message and
returns, and when `GmfSetKwd` and `GmfCloseMesh` fail it makes the same calls as when they
succeed and returns; for no input does it exit.  `SetInriaRestart` and `WriteInriaOutputs`
exit at the same failures. -/
theorem SetInriaMesh_returns_after_failure :
    SetInriaMesh true noOpenLib exampleGeometry exampleConn (fun _ => 99) 3 exampleLocal 0
      = some ([GmfCall.GmfOpenMesh "current.meshb", GmfCall.print Message.cannotOpenMesh],
          Outcome.returned) ∧
    SetInriaMesh true noWriteLib exampleGeometry exampleConn (fun _ => 99) 3 exampleLocal 0
      = SetInriaMesh true workingLib exampleGeometry exampleConn (fun _ => 99) 3
          exampleLocal 0 ∧
    (SetInriaMesh true noWriteLib exampleGeometry exampleConn (fun _ => 99) 3
      exampleLocal 0).map (fun r => (r.1.length, r.2)) = some (15, Outcome.returned) ∧
    (∀ (HAVE_INRIA : Bool) (lib : GmfLib) (geometry : CGeometry) (conn : ParallelConn)
        (fresh : Nat → Nat) (nPoint_Restart : Nat) (Local : List (List PointData))
        (rank : Nat) calls,
      SetInriaMesh HAVE_INRIA lib geometry conn fresh nPoint_Restart Local rank
        ≠ some (calls, Outcome.exited)) ∧
    SetInriaRestart true noOpenLib 3 5 3 3 exampleLocal 0
      = some ([GmfCall.GmfOpenMesh "current.solb", GmfCall.print Message.unableToOpen],
          Outcome.exited) ∧
    SetInriaRestart true noWriteLib 3 5 3 3 exampleLocal 0
      = some ([GmfCall.GmfOpenMesh "current.solb",
          GmfCall.GmfSetKwdSol "current.solb" 3 [GmfTyp.GmfSca, GmfTyp.GmfSca],
          GmfCall.print Message.unableToWrite], Outcome.exited) ∧
    (SetInriaRestart true noCloseLib 3 5 3 3 exampleLocal 0).map (fun r => (r.1.getLast?, r.2))
      = some (some (GmfCall.print Message.cannotClose), Outcome.exited) ∧
    WriteInriaOutputs true noOpenLib true true (fun _ => 0) 3 3 3 exampleLocal 0
      = some ([GmfCall.GmfOpenMesh "current.mach.solb", GmfCall.print Message.unableToOpen],
          Outcome.exited) ∧
    WriteInriaOutputs true noWriteLib true true (fun _ => 0) 3 3 3 exampleLocal 0
      = some ([GmfCall.GmfOpenMesh "current.mach.solb",
          GmfCall.GmfSetKwdSol "current.mach.solb" 3 [GmfTyp.GmfSca],
          GmfCall.print Message.unableToWrite], Outcome.exited) ∧
    (WriteInriaOutputs true noCloseLib true true (fun _ => 0) 3 3 3 exampleLocal 0).map
        (fun r => (r.1.getLast?, r.2))
      = some (some (GmfCall.print Message.cannotClose), Outcome.exited) := by
  refine ⟨rfl, rfl, rfl, ?_, rfl, rfl, rfl, rfl, rfl, rfl⟩
  intro HAVE_INRIA lib geometry conn fresh R Local rank calls h
  have := SetInriaMesh_returned HAVE_INRIA lib geometry conn fresh R Local rank _ h
  cases this

/-! ## The surface table in the boundary records -/

/-- C19 fails as stated: on the example geometry the edge on the nodes 1 and 2 is written
as `2 3 2`, and the triangle on the nodes 1, 2, 3 as `2 3 4 4`, that is with the node
indices plus one, while the table gives 2, 3, 4 for these nodes and so 3, 4, 5 after the
addition. -/
theorem edge_written_without_table :
    edgesBlock exampleGeometry
      = ([GmfCall.GmfSetKwd "current.meshb" GmfKwd.GmfEdges 2,
          GmfCall.GmfSetLin "current.meshb" GmfKwd.GmfEdges [2, 3, 2],
          GmfCall.GmfSetLin "current.meshb" GmfKwd.GmfEdges [1, 6, 2]], Outcome.returned) ∧
    trianglesBlock exampleGeometry
      = ([GmfCall.GmfSetKwd "current.meshb" GmfKwd.GmfTriangles 1,
          GmfCall.GmfSetLin "current.meshb" GmfKwd.GmfTriangles [2, 3, 4, 4]],
          Outcome.returned) ∧
    PointSurface exampleGeometry = [1, 2, 3, 4, 5] ∧
    List.map (fun n => PointSurface_at exampleGeometry (fun _ => 99) n + 1) [1, 2, 3]
      = [3, 4, 5] := by
  refine ⟨by rfl, by rfl, by rfl, by rfl⟩

/-- C19 (amended): in `SetInriaMesh` only the records of the boundary quadrilaterals are
read through the table `PointSurface`: the value written for the node `n` of a
quadrilateral is `PointSurface[n] + 1`.  The records of the boundary edges and triangles
hold the node indices themselves plus one.  Every record ends with the tag of its
marker. -/
theorem boundary_records_lookup (geometry : CGeometry) (fresh : Nat → Nat) :
    (∀ name k values, GmfCall.GmfSetLin name k values ∈ (quadsBlock geometry fresh).1 →
      ∃ iMarker iElem, iMarker < geometry.nMarker ∧
        iElem < geometry.GetnElem_Bound iMarker ∧
        (geometry.elem iMarker iElem).VTK_Type = GEO_TYPE.QUADRILATERAL ∧
        values = [PointSurface_at geometry fresh ((geometry.elem iMarker iElem).GetNode 0) + 1,
          PointSurface_at geometry fresh ((geometry.elem iMarker iElem).GetNode 1) + 1,
          PointSurface_at geometry fresh ((geometry.elem iMarker iElem).GetNode 2) + 1,
          PointSurface_at geometry fresh ((geometry.elem iMarker iElem).GetNode 3) + 1,
          iMarker + 2]) ∧
    (∀ name k values, GmfCall.GmfSetLin name k values ∈ (edgesBlock geometry).1 →
      ∃ iMarker iElem, iMarker < geometry.nMarker ∧
        iElem < geometry.GetnElem_Bound iMarker ∧
        (geometry.elem iMarker iElem).VTK_Type = GEO_TYPE.LINE ∧
        values = [(geometry.elem iMarker iElem).GetNode 0 + 1,
          (geometry.elem iMarker iElem).GetNode 1 + 1, iMarker + 2]) ∧
    (∀ name k values, GmfCall.GmfSetLin name k values ∈ (trianglesBlock geometry).1 →
      ∃ iMarker iElem, iMarker < geometry.nMarker ∧
        iElem < geometry.GetnElem_Bound iMarker ∧
        (geometry.elem iMarker iElem).VTK_Type = GEO_TYPE.TRIANGLE ∧
        values = [(geometry.elem iMarker iElem).GetNode 0 + 1,
          (geometry.elem iMarker iElem).GetNode 1 + 1,
          (geometry.elem iMarker iElem).GetNode 2 + 1, iMarker + 2]) := by
  refine ⟨?_, ?_, ?_⟩
  · intro name k values hc
    exact mem_boundBlock geometry _ _ _ _ name k values hc
  · intro name k values hc
    exact mem_boundBlock geometry _ _ _ _ name k values hc
  · intro name k values hc
    exact mem_boundBlock geometry _ _ _ _ name k values hc

/-- Witness for `boundary_records_lookup`: the quadrilateral of the example geometry, on
the nodes 1, 2, 3, 4 of the marker 1, is written as `3 4 5 6 3`. -/
theorem boundary_records_lookup_witness :
    GmfCall.GmfSetLin "current.meshb" GmfKwd.GmfQuadrilaterals [3, 4, 5, 6, 3]
      ∈ (quadsBlock exampleGeometry (fun _ => 99)).1 ∧
    ∃ iMarker iElem, iMarker < exampleGeometry.nMarker ∧
      iElem < exampleGeometry.GetnElem_Bound iMarker ∧
      (exampleGeometry.elem iMarker iElem).VTK_Type = GEO_TYPE.QUADRILATERAL ∧
      [3, 4, 5, 6, 3]
        = [PointSurface_at exampleGeometry (fun _ => 99)
              ((exampleGeometry.elem iMarker iElem).GetNode 0) + 1,
           PointSurface_at exampleGeometry (fun _ => 99)
              ((exampleGeometry.elem iMarker iElem).GetNode 1) + 1,
           PointSurface_at exampleGeometry (fun _ => 99)
              ((exampleGeometry.elem iMarker iElem).GetNode 2) + 1,
           PointSurface_at exampleGeometry (fun _ => 99)
              ((exampleGeometry.elem iMarker iElem).GetNode 3) + 1,
           iMarker + 2] :=
  ⟨by decide,
    (boundary_records_lookup exampleGeometry (fun _ => 99)).1 "current.meshb"
      GmfKwd.GmfQuadrilaterals [3, 4, 5, 6, 3] (by decide)⟩

/-! ## The vertex records -/

/-- C20 fails as stated: for the same points the vertex records have three entries in two
dimensions and four entries in three dimensions. -/
theorem vertex_records_differ_in_width :
    (SetInriaMesh_Vertices 2 3 exampleLocal).map (fun st => st.file.map (fun e => e.line))
      = some [[1, 2, 0], [1, 2, 0], [1, 2, 0]] ∧
    (SetInriaMesh_Vertices 3 3 exampleLocal).map (fun st => st.file.map (fun e => e.line))
      = some [[1, 2, 3, 0], [1, 2, 3, 0], [1, 2, 3, 0]] ∧
    (SetInriaMesh_Vertices 2 3 exampleLocal).map
        (fun st => st.file.map (fun e => e.line.length)) = some [3, 3, 3] ∧
    (SetInriaMesh_Vertices 3 3 exampleLocal).map
        (fun st => st.file.map (fun e => e.line.length)) = some [4, 4, 4] := by
  refine ⟨?_, ?_, rfl, rfl⟩
  · simp [SetInriaMesh_Vertices, pointGather, ushortLoop, rankTurn, pointLoop, exampleLocal,
      vertexLine]
    norm_num
  · simp [SetInriaMesh_Vertices, pointGather, ushortLoop, rankTurn, pointLoop, exampleLocal,
      vertexLine]
    norm_num

/-- C20 (amended): in the Vertices block of `SetInriaMesh`, for `nDim` 2 or 3 and at most
65535 ranks, the records are those of the first `nPoint_Restart` points in rank order, and
each record consists of the `nDim` coordinates of the point (columns `0 .. nDim-1` of its
data row, in order) followed by one entry 0.  A record has `nDim + 1` entries: three in
two dimensions, four in three dimensions. -/
theorem vertex_record_layout (nDim nPoint_Restart : Nat) (Local : List (List PointData))
    (hd : nDim = 2 ∨ nDim = 3) (hP : Local.length ≤ 65535) :
    ∃ st, SetInriaMesh_Vertices nDim nPoint_Restart Local = some st ∧
      st.file.map (fun e => e.line)
        = (Local.flatten.take nPoint_Restart).map
            (fun p => (List.range nDim).map p ++ [0]) ∧
      (∀ e ∈ st.file, e.line.take nDim = (List.range nDim).map (Local.getD e.rank []
          |>.getD e.iPoint (fun _ => 0))) ∧
      ∀ e ∈ st.file, e.line.length = nDim + 1 ∧ e.line.getLast? = some 0 := by
  obtain ⟨st, hst, inv⟩ := pointGather_inv nPoint_Restart (vertexLine nDim) Local hP
  have hline : ∀ p : PointData, vertexLine nDim p = (List.range nDim).map p ++ [0] := by
    intro p
    rcases hd with hd | hd <;> subst hd <;> rfl
  have hfile := inv.file_eq
  refine ⟨st, hst, ?_, ?_, ?_⟩
  · rw [hfile, List.map_take, map_line_allUpTo, List.take_length, List.map_take]
    congr 1
    exact List.map_congr_left (fun p _ => hline p)
  · intro e he
    rw [hfile] at he
    obtain ⟨q, i, p, _, hp, rfl⟩ := (mem_allUpTo _ _ _ _).mp (List.mem_of_mem_take he)
    have : (Local.getD q []).getD i (fun _ => 0) = p := by
      rw [List.getD_eq_getElem?_getD, hp]
      rfl
    simp only [this, hline]
    simp
  · intro e he
    rw [hfile] at he
    obtain ⟨q, i, p, _, _, rfl⟩ := (mem_allUpTo _ _ _ _).mp (List.mem_of_mem_take he)
    simp only [hline]
    simp

/-- Witness for `vertex_record_layout`: the three points of the example, in two
dimensions. -/
theorem vertex_record_layout_witness :
    ((2 : Nat) = 2 ∨ (2 : Nat) = 3) ∧ exampleLocal.length ≤ 65535 ∧
    ∃ st, SetInriaMesh_Vertices 2 3 exampleLocal = some st ∧
      st.file.map (fun e => e.line)
        = (exampleLocal.flatten.take 3).map (fun p => (List.range 2).map p ++ [0]) ∧
      (∀ e ∈ st.file, e.line.take 2 = (List.range 2).map (exampleLocal.getD e.rank []
          |>.getD e.iPoint (fun _ => 0))) ∧
      ∀ e ∈ st.file, e.line.length = 2 + 1 ∧ e.line.getLast? = some 0 :=
  ⟨Or.inl rfl, by decide, vertex_record_layout 2 3 exampleLocal (Or.inl rfl) (by decide)⟩

/-! ## The gather and the plain prefix sum -/

/-- With the plain prefix sum as offset, the file after the ranks before `r` is the first
`R` of all their points, as it is for the gather of the code. -/
theorem prefixSum_iter {α β : Type} (R : Nat) (line : α → β) (Local : List (List α)) :
    ∀ (n r : Nat),
      iterFrom (prefixSumTurn R line Local) r n
          (pointsBefore Local r, (allUpTo line Local r).take R)
        = (pointsBefore Local (r + n), (allUpTo line Local (r + n)).take R) := by
  intro n
  induction n with
  | zero => intro r; rfl
  | succ n ih =>
    intro r
    have step : prefixSumTurn R line Local r
          (pointsBefore Local r, (allUpTo line Local r).take R)
        = (pointsBefore Local (r + 1), (allUpTo line Local (r + 1)).take R) := by
      simp only [prefixSumTurn, pointLoop_eq, allUpTo, pointsBefore]
      rw [List.take_append_eq_append_take, length_allUpTo, Nat.zero_add]
    rw [iterFrom, step, ih (r + 1)]
    have e : r + 1 + n = r + (n + 1) := by omega
    rw [e]

theorem prefixSumGather_eq {α β : Type} (R : Nat) (line : α → β) (Local : List (List α)) :
    prefixSumGather R line Local = (allUpTo line Local Local.length).take R := by
  have := prefixSum_iter R line Local Local.length 0
  simp only [Nat.zero_add] at this
  unfold prefixSumGather
  have h0 : ((0 : Nat), ([] : List (Emitted β)))
      = (pointsBefore Local 0, (allUpTo line Local 0).take R) := by
    simp [pointsBefore, allUpTo]
  rw [h0, this]

theorem pointsBefore_eq_sum {α : Type} (Local : List (List α)) (r : Nat) :
    pointsBefore Local r = ((Local.take r).map List.length).sum := by
  rw [pointsBefore_eq_take, List.length_flatten]

/-- C21: the gather does not depend on the rule for the offset.  For every list of local
points per rank (at most 65535 ranks, the range of the rank counter) and every
`nPoint_Restart`, the gather of the code, which advances the offset by the number of
points of the rank that passed the test, ends and emits the same lines, hence the same
`(rank, local index)` pairs, as the gather that advances the offset by the full local
count of the rank; and the offset the code uses for the rank `r` is the minimum of the sum
of the local counts of the ranks before `r` and `nPoint_Restart`. -/
theorem gather_offset_rule_insensitive {α β : Type} (nPoint_Restart : Nat) (line : α → β)
    (Local : List (List α)) (hP : Local.length ≤ 65535) :
    ∃ st, pointGather nPoint_Restart line Local = some st ∧
      emittedPairs st
        = (prefixSumGather nPoint_Restart line Local).map (fun e => (e.rank, e.iPoint)) ∧
      st.file = prefixSumGather nPoint_Restart line Local ∧
      st.used.length = Local.length ∧
      ∀ r, r < Local.length →
        st.used.getD r 0 = min ((Local.take r).map List.length).sum nPoint_Restart := by
  obtain ⟨st, hst, inv⟩ := pointGather_inv nPoint_Restart line Local hP
  have hfile : st.file = prefixSumGather nPoint_Restart line Local := by
    rw [prefixSumGather_eq, inv.file_eq]
  refine ⟨st, hst, ?_, hfile, ?_, ?_⟩
  · rw [emittedPairs, hfile]
  · simp [inv.used_eq]
  · intro r hr
    rw [used_getD nPoint_Restart line Local st inv r hr, pointsBefore_eq_sum]

/-- Witness for `gather_offset_rule_insensitive`: two ranks with two points and one point
and `nPoint_Restart = 1`, where the one point of rank 0 that passes the test is fewer than
its two local points. -/
theorem gather_offset_rule_insensitive_witness :
    ([[10, 11], [12]] : List (List Nat)).length ≤ 65535 ∧
    ∃ st, pointGather 1 (fun p : Nat => p) [[10, 11], [12]] = some st ∧
      emittedPairs st
        = (prefixSumGather 1 (fun p : Nat => p) [[10, 11], [12]]).map
            (fun e => (e.rank, e.iPoint)) ∧
      st.file = prefixSumGather 1 (fun p : Nat => p) [[10, 11], [12]] ∧
      st.used.length = ([[10, 11], [12]] : List (List Nat)).length ∧
      ∀ r, r < ([[10, 11], [12]] : List (List Nat)).length →
        st.used.getD r 0
          = min (((([[10, 11], [12]] : List (List Nat)).take r).map List.length).sum) 1 :=
  ⟨by decide,
    gather_offset_rule_insensitive 1 (fun p : Nat => p) [[10, 11], [12]] (by decide)⟩

/-! ## `GetConnTet` and its 16-bit counter -/

/-- C22 fails beyond 65535 tetrahedra.  With at most 65535 tetrahedra `GetConnTet` returns
`nParallel_Tetr` records, the record `i` being the entries `4i .. 4i+3` of `Conn_Tetr_Par`
followed by 0.  With 65536 tetrahedra or more the counter `iElem` wraps from 65535 to 0 and
stays below `nParallel_Tetr`: the loop does not end, whatever the number of passes allowed
and whatever the list it starts from. -/
theorem GetConnTet_counter_wraps (conn : ParallelConn) :
    (conn.nParallel_Tetr ≤ 65535 →
      GetConnTet conn
        = some ((List.range conn.nParallel_Tetr).map (fun iElem =>
            [conn.Conn_Tetr_Par (iElem * 4 + 0), conn.Conn_Tetr_Par (iElem * 4 + 1),
             conn.Conn_Tetr_Par (iElem * 4 + 2), conn.Conn_Tetr_Par (iElem * 4 + 3), 0]))) ∧
    (65536 ≤ conn.nParallel_Tetr →
      GetConnTet conn = none ∧
      ∀ (fuel : Nat) (Tet : List (List Nat)),
        ushortLoop conn.nParallel_Tetr (GetConnTet_body conn) fuel 0 Tet = none) := by
  constructor
  · intro h
    exact GetConnTet_records conn h
  · intro h
    exact ⟨ushortLoop_never _ _ h _ 0 [] (by decide),
      fun fuel Tet => ushortLoop_never _ _ h fuel 0 Tet (by decide)⟩

/-- Witness for `GetConnTet_counter_wraps`: one tetrahedron, and 65536 tetrahedra. -/
theorem GetConnTet_counter_wraps_witness :
    (exampleConn.nParallel_Tetr ≤ 65535 ∧
      GetConnTet exampleConn = some [[1, 2, 3, 4, 0]]) ∧
    (65536 ≤ manyTetrahedra.nParallel_Tetr ∧
      GetConnTet manyTetrahedra = none ∧
      ∀ (fuel : Nat) (Tet : List (List Nat)),
        ushortLoop manyTetrahedra.nParallel_Tetr (GetConnTet_body manyTetrahedra) fuel 0 Tet
          = none) :=
  ⟨⟨by decide, (GetConnTet_counter_wraps exampleConn).1 (by decide)⟩,
   ⟨by decide, (GetConnTet_counter_wraps manyTetrahedra).2 (by decide)⟩⟩

/-! ## The surface table -/

theorem foldl_append_if (p : Nat → Bool) (l : List Nat) :
    ∀ init : List Nat,
      l.foldl (fun tab i => if p i then tab ++ [i] else tab) init = init ++ l.filter p := by
  induction l with
  | nil => intro init; simp
  | cons a l ih =>
    intro init
    rw [List.foldl_cons, ih]
    cases h : p a <;> simp [h]

theorem PointSurface_eq_filter (geometry : CGeometry) :
    PointSurface geometry
      = (List.range geometry.nPoint).filter (fun i => (geometry.node i).Boundary) := by
  unfold PointSurface
  rw [foldl_append_if (fun i => (geometry.node i).Boundary), List.nil_append]

/-- C23 fails for the lookups.  The table holds, in increasing order, exactly the local
indices of the points flagged as boundary; but a boundary quadrilateral is looked up at
its node indices, and a position at or beyond the number of entries holds what the
allocation left there.  In the geometry whose four boundary points are the local points
4 to 7, the table is `4 5 6 7`, the quadrilateral on the nodes 4, 5, 6, 7 (all below
`nPoint = 8`) is looked up at the positions 4 to 7, and its record holds the values found
there plus one. -/
theorem PointSurface_read_beyond_entries :
    (∀ geometry : CGeometry,
      PointSurface geometry
        = (List.range geometry.nPoint).filter (fun i => (geometry.node i).Boundary) ∧
      (PointSurface geometry).Pairwise (fun a b => a < b) ∧
      (∀ i, i ∈ PointSurface geometry ↔
        (i < geometry.nPoint ∧ (geometry.node i).Boundary = true)) ∧
      (PointSurface geometry).length ≤ geometry.nPoint) ∧
    (∀ (geometry : CGeometry) (fresh : Nat → Nat) (j : Nat),
      PointSurface_at geometry fresh ((PointSurface geometry).length + j)
        = fresh ((PointSurface geometry).length + j)) ∧
    PointSurface interiorFirstGeometry = [4, 5, 6, 7] ∧
    interiorFirstGeometry.nPoint = 8 ∧
    (interiorFirstGeometry.elem 0 0).Nodes = [4, 5, 6, 7] ∧
    (∀ fresh : Nat → Nat,
      quadsBlock interiorFirstGeometry fresh
        = ([GmfCall.GmfSetKwd "current.meshb" GmfKwd.GmfQuadrilaterals 1,
            GmfCall.GmfSetLin "current.meshb" GmfKwd.GmfQuadrilaterals
              [fresh 4 + 1, fresh 5 + 1, fresh 6 + 1, fresh 7 + 1, 2]],
            Outcome.returned)) := by
  refine ⟨?_, ?_, rfl, rfl, rfl, fun _ => rfl⟩
  · intro geometry
    refine ⟨PointSurface_eq_filter geometry, ?_, ?_, ?_⟩
    · rw [PointSurface_eq_filter]
      exact List.Pairwise.filter _ (List.pairwise_lt_range geometry.nPoint)
    · intro i
      rw [PointSurface_eq_filter, List.mem_filter, List.mem_range]
    · rw [PointSurface_eq_filter]
      have := List.length_filter_le (fun i => (geometry.node i).Boundary)
        (List.range geometry.nPoint)
      simpa using this
  · intro geometry fresh j
    unfold PointSurface_at
    rw [List.getD_eq_getElem?_getD, List.getElem?_eq_none (by omega)]
    rfl

/-! ## The header and the rows of the restart file -/

/-- The rows of one process: the first of its local points, as many as fit below
`nPoint_Restart` after the points of the processes before it. -/
theorem rankRows_eq {α β : Type} (R : Nat) (line : α → β) (Local : List (List α))
    (rank : Nat) (hP : Local.length ≤ 65535) :
    rankRows R line Local rank
      = ((Local.getD rank []).take (R - min (pointsBefore Local rank) R)).map line := by
  by_cases hr : rank < Local.length
  · have inv := GatherInv_iter R line Local rank 0 _ (GatherInv_init R line Local) (by omega)
    rw [Nat.zero_add] at inv
    unfold rankRows
    rw [if_pos ⟨hr, by omega⟩]
    simp only [pointLoop_eq, inv.offset_eq, List.nil_append, Nat.zero_add]
    rw [List.map_take, map_line_blockFrom, List.map_take]
  · have e : Local.getD rank [] = [] := by
      rw [List.getD_eq_getElem?_getD, List.getElem?_eq_none (by omega)]
      rfl
    unfold rankRows
    rw [if_neg (fun h => hr h.1), e]
    simp

theorem filter_rank_allUpTo {α β : Type} (R : Nat) (line : α → β) (Local : List (List α))
    (rank : Nat) :
    ∀ n : Nat, n ≤ rank →
      ((allUpTo line Local n).take R).filter (fun e => decide (e.rank = rank)) = [] := by
  intro n hn
  apply List.filter_eq_nil_iff.mpr
  intro e he
  obtain ⟨q, i, p, hq, _, rfl⟩ := (mem_allUpTo _ _ _ _).mp (List.mem_of_mem_take he)
  simp only [decide_eq_true_eq]
  omega

theorem filter_rank_take_allUpTo {α β : Type} (R : Nat) (line : α → β)
    (Local : List (List α)) (rank : Nat) :
    ∀ k : Nat,
      ((allUpTo line Local (rank + 1 + k)).take R).filter (fun e => decide (e.rank = rank))
        = (blockFrom line rank (pointsBefore Local rank) 0 (Local.getD rank [])).take
            (R - pointsBefore Local rank) := by
  intro k
  induction k with
  | zero =>
    rw [Nat.add_zero, allUpTo, List.take_append_eq_append_take, List.filter_append,
      filter_rank_allUpTo R line Local rank rank (Nat.le_refl rank), List.nil_append,
      length_allUpTo]
    apply List.filter_eq_self.mpr
    intro e he
    simp [rank_of_mem_blockFrom _ _ _ _ _ _ (List.mem_of_mem_take he)]
  | succ k ih =>
    have e1 : rank + 1 + (k + 1) = (rank + 1 + k) + 1 := by omega
    rw [e1, allUpTo, List.take_append_eq_append_take, List.filter_append, ih]
    have : (List.take (R - (allUpTo line Local (rank + 1 + k)).length)
          (blockFrom line (rank + 1 + k) (pointsBefore Local (rank + 1 + k)) 0
            (Local.getD (rank + 1 + k) []))).filter (fun e => decide (e.rank = rank)) = [] := by
      apply List.filter_eq_nil_iff.mpr
      intro e he
      have := rank_of_mem_blockFrom _ _ _ _ _ _ (List.mem_of_mem_take he)
      simp only [this, decide_eq_true_eq]
      omega
    rw [this, List.append_nil]

/-- The rows of one process are the lines of the gather that carry its rank: the
description of one process agrees with the description of all processes at once. -/
theorem rankRows_eq_filter {α β : Type} (R : Nat) (line : α → β) (Local : List (List α))
    (rank : Nat) (hP : Local.length ≤ 65535) :
    ∃ st, pointGather R line Local = some st ∧
      rankRows R line Local rank
        = (st.file.filter (fun e => decide (e.rank = rank))).map (fun e => e.line) := by
  obtain ⟨st, hst, inv⟩ := pointGather_inv R line Local hP
  refine ⟨st, hst, ?_⟩
  rw [rankRows_eq R line Local rank hP, inv.file_eq]
  by_cases hr : rank < Local.length
  · obtain ⟨k, hk⟩ : ∃ k, Local.length = rank + 1 + k := ⟨Local.length - (rank + 1), by omega⟩
    rw [hk, filter_rank_take_allUpTo, List.map_take, List.map_take, map_line_blockFrom]
    congr 1
    omega
  · have e : Local.getD rank [] = [] := by
      rw [List.getD_eq_getElem?_getD, List.getElem?_eq_none (by omega)]
      rfl
    rw [filter_rank_allUpTo R line Local rank Local.length (by omega), e]
    simp

theorem sum_rank_counts {α : Type} (Local : List (List α)) (R : Nat) :
    ∀ n : Nat,
      ((List.range n).map
        (fun r => min (Local.getD r []).length (R - min (pointsBefore Local r) R))).sum
        = min (pointsBefore Local n) R := by
  intro n
  induction n with
  | zero => simp [pointsBefore]
  | succ n ih =>
    rw [List.range_succ, List.map_append, List.sum_append, ih]
    simp only [List.map_cons, List.map_nil, List.sum_cons, List.sum_nil, pointsBefore]
    omega

theorem rowsWritten_solRun (OutNam : String) (npoin : Nat) (VarTyp : List GmfTyp)
    (rows : List (List ℚ)) :
    rowsWritten ([GmfCall.GmfOpenMesh OutNam, GmfCall.GmfSetKwdSol OutNam npoin VarTyp]
        ++ rows.map (fun l => GmfCall.GmfSetLinReal OutNam GmfKwd.GmfSolAtVertices l)
        ++ [GmfCall.GmfCloseMesh OutNam]) = rows.length ∧
    declaredCounts ([GmfCall.GmfOpenMesh OutNam, GmfCall.GmfSetKwdSol OutNam npoin VarTyp]
        ++ rows.map (fun l => GmfCall.GmfSetLinReal OutNam GmfKwd.GmfSolAtVertices l)
        ++ [GmfCall.GmfCloseMesh OutNam]) = [npoin] := by
  constructor
  · unfold rowsWritten
    simp only [List.filter_append, List.length_append]
    have h : (List.filter (fun c => match c with
          | GmfCall.GmfSetLinReal _ _ _ => true
          | _ => false)
        (rows.map (fun l => GmfCall.GmfSetLinReal OutNam GmfKwd.GmfSolAtVertices l))).length
        = rows.length := by
      induction rows with
      | nil => rfl
      | cons a rows ih => simpa [List.filter] using ih
    rw [h]
    simp [List.filter]
  · unfold declaredCounts
    simp only [List.filterMap_append]
    have h : List.filterMap (fun c => match c with
          | GmfCall.GmfSetKwdSol _ count _ => some count
          | _ => none)
        (rows.map (fun l => GmfCall.GmfSetLinReal OutNam GmfKwd.GmfSolAtVertices l)) = [] := by
      induction rows with
      | nil => rfl
      | cons a rows _ => simp [List.filterMap]
    rw [h]
    simp [List.filterMap]

/-- The run of `SetInriaRestart` on one process when the calls of the file library succeed
and the fields of a row fit in `VarTyp` and `bufDbl`. -/
theorem SetInriaRestart_run (lib : GmfLib) (nDim nVar_Par npoin nPoint_Restart : Nat)
    (Local : List (List PointData)) (rank : Nat) (hP : Local.length ≤ 65535)
    (hopen : lib.openOk "current.solb" = true)
    (hkwd : lib.setKwdOk "current.solb" GmfKwd.GmfSolAtVertices = true)
    (hclose : lib.closeOk "current.solb" = true)
    (hmax : nVar_Buf nDim nVar_Par ≤ lib.GmfMaxTyp) :
    SetInriaRestart true lib nDim nVar_Par npoin nPoint_Restart Local rank
      = some ([GmfCall.GmfOpenMesh "current.solb",
            GmfCall.GmfSetKwdSol "current.solb" npoin
              (List.replicate (nVar_Buf nDim nVar_Par) GmfTyp.GmfSca)]
          ++ (((Local.getD rank []).take
                (nPoint_Restart - min (pointsBefore Local rank) nPoint_Restart)).map
              (restartLine nDim nVar_Par)).map (fun l =>
              GmfCall.GmfSetLinReal "current.solb" GmfKwd.GmfSolAtVertices l)
          ++ [GmfCall.GmfCloseMesh "current.solb"], Outcome.returned) := by
  obtain ⟨st, hst, _⟩ :=
    pointGather_inv nPoint_Restart (restartLine nDim nVar_Par) Local hP
  have hg : (SetInriaRestart_gather nDim nVar_Par nPoint_Restart Local).isSome = true := by
    have : SetInriaRestart_gather nDim nVar_Par nPoint_Restart Local = some st := hst
    rw [this]
    rfl
  have h1 : ¬ lib.GmfMaxTyp
      < (List.replicate (nVar_Buf nDim nVar_Par) GmfTyp.GmfSca).length := by
    rw [List.length_replicate]
    omega
  have h2 : ¬ (rankRows nPoint_Restart (restartLine nDim nVar_Par) Local rank ≠ [] ∧
      lib.GmfMaxTyp < nVar_Buf nDim nVar_Par) := fun h => by omega
  unfold SetInriaRestart solFile
  rw [if_pos rfl, if_neg (by rw [hopen]; decide), if_neg h1, if_neg (by rw [hkwd]; decide),
    if_neg h2, if_neg (by rw [hg]; decide)]
  simp only []
  rw [if_neg (by rw [hclose]; decide), rankRows_eq _ _ _ _ hP]

/-- When the fields of a row do not fit in `VarTyp`, `SetInriaRestart` stores beyond the
end of the array after it has opened the file. -/
theorem SetInriaRestart_overrun (lib : GmfLib) (nDim nVar_Par npoin nPoint_Restart : Nat)
    (Local : List (List PointData)) (rank : Nat)
    (hopen : lib.openOk "current.solb" = true)
    (hmax : lib.GmfMaxTyp < nVar_Buf nDim nVar_Par) :
    SetInriaRestart true lib nDim nVar_Par npoin nPoint_Restart Local rank
      = some ([GmfCall.GmfOpenMesh "current.solb"], Outcome.overrun) := by
  have h1 : lib.GmfMaxTyp
      < (List.replicate (nVar_Buf nDim nVar_Par) GmfTyp.GmfSca).length := by
    rw [List.length_replicate]
    exact hmax
  unfold SetInriaRestart solFile
  rw [if_pos rfl, if_neg (by rw [hopen]; decide), if_pos h1]

theorem nVar_Buf_eq (nDim nVar_Par : Nat) (h1 : nDim ≤ nVar_Par) (h2 : nVar_Par ≤ 65535) :
    nVar_Buf nDim nVar_Par = nVar_Par - nDim := by
  unfold nVar_Buf
  omega

/-- C24 fails as stated: with one process holding three points, `nPoint_Restart = 3` and a
global number of domain points of 5, the header of `current.solb` declares 5 points and 3
rows are written. -/
theorem restart_header_differs_from_rows :
    ∃ calls, SetInriaRestart true workingLib 3 5 5 3 exampleLocal 0
        = some (calls, Outcome.returned) ∧
      GmfCall.GmfSetKwdSol "current.solb" 5 [GmfTyp.GmfSca, GmfTyp.GmfSca] ∈ calls ∧
      declaredCounts calls = [5] ∧
      rowsWritten calls = 3 ∧
      calls.length = 6 :=
  ⟨_, rfl, by decide, by rfl, by rfl, by rfl⟩

/-- C24 (amended): let the calls of the file library succeed, the number of processes be
at most 65535, and `nDim ≤ nVar_Par ≤ 65535` with `nVar_Par - nDim` at most `GmfMaxTyp`.
Then on every process `SetInriaRestart` opens `current.solb`, writes the header, which
declares `npoin` points (the global number of domain points of the geometry) with
`nVar_Par - nDim` scalar fields, writes one row for each local point `i` of the process
with `offset + i < nPoint_Restart`, where `offset` is the minimum of `nPoint_Restart` and
the number of points of the processes before it, closes the file and returns.  Every row
holds `nVar_Par - nDim` values, the columns `nDim .. nVar_Par-1` of the point.  Over all
processes the number of rows is the minimum of the number of points held and
`nPoint_Restart`; it equals the count `npoin` of the headers exactly when `npoin` is that
minimum, which the function does not test. -/
theorem restart_rows_and_header (lib : GmfLib) (nDim nVar_Par npoin nPoint_Restart : Nat)
    (Local : List (List PointData)) (hP : Local.length ≤ 65535)
    (hopen : lib.openOk "current.solb" = true)
    (hkwd : lib.setKwdOk "current.solb" GmfKwd.GmfSolAtVertices = true)
    (hclose : lib.closeOk "current.solb" = true)
    (hdim : nDim ≤ nVar_Par) (hvar : nVar_Par ≤ 65535)
    (hmax : nVar_Par - nDim ≤ lib.GmfMaxTyp) :
    (∀ rank : Nat,
      SetInriaRestart true lib nDim nVar_Par npoin nPoint_Restart Local rank
        = some ([GmfCall.GmfOpenMesh "current.solb",
              GmfCall.GmfSetKwdSol "current.solb" npoin
                (List.replicate (nVar_Par - nDim) GmfTyp.GmfSca)]
            ++ ((Local.getD rank []).take
                  (nPoint_Restart
                    - min ((Local.take rank).map List.length).sum nPoint_Restart)).map
                (fun p => GmfCall.GmfSetLinReal "current.solb" GmfKwd.GmfSolAtVertices
                  ((List.range (nVar_Par - nDim)).map (fun iVar => p (iVar + nDim))))
            ++ [GmfCall.GmfCloseMesh "current.solb"], Outcome.returned)) ∧
    (∀ rank : Nat,
      (SetInriaRestart true lib nDim nVar_Par npoin nPoint_Restart Local rank).map
          (fun run => declaredCounts run.1) = some [npoin] ∧
      rowsWrittenBy (SetInriaRestart true lib nDim nVar_Par npoin nPoint_Restart Local rank)
        = min (Local.getD rank []).length
            (nPoint_Restart - min ((Local.take rank).map List.length).sum nPoint_Restart)) ∧
    ((List.range Local.length).map (fun rank =>
        rowsWrittenBy
          (SetInriaRestart true lib nDim nVar_Par npoin nPoint_Restart Local rank))).sum
      = min Local.flatten.length nPoint_Restart ∧
    (((List.range Local.length).map (fun rank =>
        rowsWrittenBy
          (SetInriaRestart true lib nDim nVar_Par npoin nPoint_Restart Local rank))).sum
        = npoin
      ↔ npoin = min Local.flatten.length nPoint_Restart) := by
  have e := nVar_Buf_eq nDim nVar_Par hdim hvar
  have hrun := fun rank => SetInriaRestart_run lib nDim nVar_Par npoin nPoint_Restart Local
    rank hP hopen hkwd hclose (by rw [e]; exact hmax)
  have hcount : ∀ rank,
      (SetInriaRestart true lib nDim nVar_Par npoin nPoint_Restart Local rank).map
          (fun run => declaredCounts run.1) = some [npoin] ∧
      rowsWrittenBy (SetInriaRestart true lib nDim nVar_Par npoin nPoint_Restart Local rank)
        = min (Local.getD rank []).length
            (nPoint_Restart - min (pointsBefore Local rank) nPoint_Restart) := by
    intro rank
    rw [hrun rank]
    have h := rowsWritten_solRun "current.solb" npoin
      (List.replicate (nVar_Buf nDim nVar_Par) GmfTyp.GmfSca)
      (((Local.getD rank []).take
        (nPoint_Restart - min (pointsBefore Local rank) nPoint_Restart)).map
        (restartLine nDim nVar_Par))
    constructor
    · simp only [Option.map_some']
      rw [h.2]
    · simp only [rowsWrittenBy]
      rw [h.1, List.length_map, List.length_take, Nat.min_comm]
  have hsum : ((List.range Local.length).map (fun rank =>
        rowsWrittenBy
          (SetInriaRestart true lib nDim nVar_Par npoin nPoint_Restart Local rank))).sum
      = min Local.flatten.length nPoint_Restart := by
    have h1 : (List.range Local.length).map (fun rank =>
          rowsWrittenBy
            (SetInriaRestart true lib nDim nVar_Par npoin nPoint_Restart Local rank))
        = (List.range Local.length).map (fun r => min (Local.getD r []).length
            (nPoint_Restart - min (pointsBefore Local r) nPoint_Restart)) :=
      List.map_congr_left (fun r _ => (hcount r).2)
    rw [h1, sum_rank_counts, pointsBefore_length]
  refine ⟨?_, ?_, hsum, ?_⟩
  · intro rank
    rw [hrun rank, e, pointsBefore_eq_sum, List.map_map]
    have hl : restartLine nDim nVar_Par
        = fun p : PointData => (List.range (nVar_Par - nDim)).map (fun iVar => p (iVar + nDim)) := by
      funext p
      unfold restartLine
      rw [e]
    rw [hl]
    rfl
  · intro rank
    rw [← pointsBefore_eq_sum]
    exact hcount rank
  · rw [hsum]
    exact eq_comm

/-- Witness for `restart_rows_and_header`: one process with three points of five variables
in three dimensions, `nPoint_Restart = 3` and `npoin = 3`. -/
theorem restart_rows_and_header_witness :
    exampleLocal.length ≤ 65535 ∧
    workingLib.openOk "current.solb" = true ∧
    workingLib.setKwdOk "current.solb" GmfKwd.GmfSolAtVertices = true ∧
    workingLib.closeOk "current.solb" = true ∧
    3 ≤ 5 ∧ 5 ≤ 65535 ∧ 5 - 3 ≤ workingLib.GmfMaxTyp ∧
    (SetInriaRestart true workingLib 3 5 3 3 exampleLocal 0).map
        (fun run => declaredCounts run.1) = some [3] ∧
    ((List.range exampleLocal.length).map (fun rank =>
        rowsWrittenBy (SetInriaRestart true workingLib 3 5 3 3 exampleLocal rank))).sum
      = min exampleLocal.flatten.length 3 :=
  ⟨by decide, rfl, rfl, rfl, by decide, by decide, by decide,
    ((restart_rows_and_header workingLib 3 5 3 3 exampleLocal (by decide) rfl rfl rfl
      (by decide) (by decide) (by decide)).2.1 0).1,
    (restart_rows_and_header workingLib 3 5 3 3 exampleLocal (by decide) rfl rfl rfl
      (by decide) (by decide) (by decide)).2.2.1⟩

end SU2
